import Mathlib

/-!
# Sadmin REST service: a shallow embedding

The development follows the Go sources of the REST service:

* `Server/servers/models.go`: the `Server` entity and the six store operations,
  each of which prepares and runs one SQL statement on the table `servers`;
* `Server/application/app.go`: the HTTP handlers, `respondWithJSON`,
  `respondWithError`, the `basicAuth` wrapper and the route table of `Initialize`;
* `Server/test/main_test.go`: the schema of the table `servers`
  (`id BIGINT AUTO_INCREMENT PRIMARY KEY`, `name VARCHAR(50) NOT NULL UNIQUE`);
* `Client/server_validate.go`: the name filter `serverNameValid` of the web front-end,
  a regular expression read as its items and matched by a search over the text.

The database is state that the handlers pass along explicitly: the rows of the
table, the `AUTO_INCREMENT` counter, and a log of the store operations called, so
that "the store was not called" can be stated.  The SQL statements are read with
the schema above: the unique index rejects a duplicate name with error 1062, a
name longer than the column is rejected with error 1406 (strict SQL mode, the
default of the server) unless only trailing spaces exceed the column, which the
server cuts; `AUTO_INCREMENT` hands out the ids and is assumed not to run out of
the 64-bit range.  String comparison in the database (the unique index,
`ORDER BY`, `LIKE`) goes through a collation, which is a parameter `col` of the
development: the weight of each character.  Every store operation takes a `fault`,
the error of a backend that fails to prepare or run the statement (then the table
is unchanged); `none` is a backend that answers.

Library calls are taken at their interface: `strconv.Atoi` and `http.Error` are
written out, `req.BasicAuth()` and `json.Decoder.Decode` are represented by their
results, `json.Marshal` by the value it encodes, the router by the route it matched.
-/

namespace Sadmin

/-! ## strconv.Atoi -/

/-- The two error kinds of package strconv. -/
inductive NumError where
  | ErrSyntax
  | ErrRange
deriving DecidableEq, Repr

/-- Loop of `strconv.ParseUint(s, 10, 64)`: `n` is the value read so far.  A byte outside
`0`..`9` is a syntax error; a value that leaves the 64-bit range stops the loop at
once with the largest value and a range error. -/
def ParseUint.loop : List Char → Nat → Nat × Option NumError
  | [], n => (n, none)
  | c :: cs, n =>
    if 48 ≤ c.toNat ∧ c.toNat ≤ 57 then
      let d := c.toNat - 48
      if n ≥ (2 ^ 64 - 1) / 10 + 1 then
        (2 ^ 64 - 1, some NumError.ErrRange)
      else
        let n10 := (n * 10) % 2 ^ 64
        let n1 := (n10 + d) % 2 ^ 64
        if n1 < n10 ∨ n1 > 2 ^ 64 - 1 then
          (2 ^ 64 - 1, some NumError.ErrRange)
        else
          ParseUint.loop cs n1
    else
      (0, some NumError.ErrSyntax)

/-- Go `strconv.ParseUint(s, 10, 64)`. -/
def ParseUint (s : List Char) : Nat × Option NumError :=
  match s with
  | [] => (0, some NumError.ErrSyntax)
  | _ :: _ => ParseUint.loop s 0

/-- Go `strconv.ParseInt(s, 10, 0)` with a 64-bit `int`: an optional sign, then
`ParseUint`; on a range error the result is the nearest bound of the type. -/
def ParseInt (s : List Char) : Int × Option NumError :=
  match s with
  | [] => (0, some NumError.ErrSyntax)
  | c :: rest =>
    let neg : Bool := c == '-'
    let digits := if c == '+' ∨ c == '-' then rest else s
    match ParseUint digits with
    | (_, some NumError.ErrSyntax) => (0, some NumError.ErrSyntax)
    | (un, _) =>
      if neg = false ∧ un ≥ 2 ^ 63 then
        ((2 : Int) ^ 63 - 1, some NumError.ErrRange)
      else if neg = true ∧ un > 2 ^ 63 then
        (-(2 : Int) ^ 63, some NumError.ErrRange)
      else
        (if neg then -(un : Int) else (un : Int), none)

/-- Go `strconv.Atoi`: the value and the error.  Its fast path for short strings
computes the same result as `ParseInt(s, 10, 0)`, which is the slow path. -/
def Atoi (s : String) : Int × Option NumError :=
  ParseInt s.data

/-- The character of a decimal digit. -/
def digitChar (d : Nat) : Char := Char.ofNat (48 + d)

/-- Go `strconv.Itoa`: the decimal text of an integer, with `-` for a negative one. -/
def Itoa (i : Int) : String :=
  match i with
  | Int.ofNat n =>
    String.mk (if n = 0 then ['0'] else (Nat.digits 10 n).reverse.map digitChar)
  | Int.negSucc n => String.mk ('-' :: (Nat.digits 10 (n + 1)).reverse.map digitChar)

/-! ## The entity and the table -/

/-- The Server entity of `servers/models.go`. -/
structure Server where
  ID : Int
  Name : String
deriving DecidableEq, Repr

/-- A row of the table `servers`. -/
structure Row where
  id : Int
  name : String
deriving DecidableEq, Repr

/-- A call of one of the store operations of `servers/models.go`, with its arguments. -/
inductive Call where
  | GetServer (id : Int)
  | UpdateServer (id : Int) (name : String)
  | DeleteServer (id : Int)
  | CreateServer (name : String)
  | GetServers (start count : Int)
  | SearchServers (start count : Int) (name : String)
deriving DecidableEq, Repr

/-- The database behind `*sql.DB`: the rows of `servers` in the order they were
inserted, the `AUTO_INCREMENT` counter, and the store operations called so far
(oldest first). -/
structure DB where
  rows : List Row
  autoInc : Int
  calls : List Call
deriving DecidableEq, Repr

/-- The table after `clearTables` of the tests: no row, `AUTO_INCREMENT = 1`. -/
def DB.empty : DB := ⟨[], 1, []⟩

/-- Note that a store operation was called. -/
def DB.record (db : DB) (c : Call) : DB :=
  { db with calls := db.calls ++ [c] }

/-- The errors a store operation returns: `sql.ErrNoRows`, a `*mysql.MySQLError`
with its number and message, or any other error value. -/
inductive DbErr where
  | ErrNoRows
  | MySQLError (Number : Nat) (Message : String)
  | other (Message : String)
deriving DecidableEq, Repr

/-- The method `Error()` of the error value. -/
def DbErr.Error : DbErr → String
  | DbErr.ErrNoRows => "sql: no rows in result set"
  | DbErr.MySQLError n m => "Error " ++ toString n ++ ": " ++ m
  | DbErr.other m => m

/-! ## Collation, ORDER BY and LIKE -/

/-- A collation gives each character its weight; two strings are equal in the
database when their weights agree, and are ordered by their weights. -/
abbrev Collation := Char → Nat

/-- The binary collation: the weight of a character is its code point. -/
def binary : Collation := fun c => c.toNat

/-- The weights of a string. -/
def sortKey (col : Collation) (s : String) : List Nat :=
  s.data.map col

/-- Lexicographic `≤` on weights. -/
def lexLe : List Nat → List Nat → Bool
  | [], _ => true
  | _ :: _, [] => false
  | a :: as, b :: bs => a < b || (a == b && lexLe as bs)

/-- The order of `ORDER BY name` on rows. -/
def nameLe (col : Collation) (a b : Row) : Prop :=
  lexLe (sortKey col a.name) (sortKey col b.name) = true

instance (col : Collation) : DecidableRel (nameLe col) :=
  fun a b => inferInstanceAs (Decidable (lexLe (sortKey col a.name) (sortKey col b.name) = true))

/-- The result of `ORDER BY name`: a stable sort of the rows by name. -/
def orderByName (col : Collation) (rs : List Row) : List Row :=
  rs.insertionSort (nameLe col)

/-- The predicate `name LIKE pattern` on the characters of pattern and name:
`%` matches any run of characters, `_` any one character, a backslash takes the
next pattern character literally, and any other character matches a character
of the same weight. -/
def like (col : Collation) : List Char → List Char → Bool
  | [], s => s.isEmpty
  | c :: p, s =>
    if c = '%' then
      s.tails.any (fun t => like col p t)
    else if c = '_' then
      match s with
      | [] => false
      | _ :: t => like col p t
    else if c = '\\' then
      match p with
      | [] =>
        match s with
        | [] => false
        | d :: t => col c == col d && t.isEmpty
      | x :: q =>
        match s with
        | [] => false
        | d :: t => col x == col d && like col q t
    else
      match s with
      | [] => false
      | d :: t => col c == col d && like col p t

/-- The clause `LIMIT count OFFSET start` on a result set. -/
def limitOffset (count start : Int) (rs : List Row) : List Row :=
  (rs.drop start.toNat).take count.toNat

/-! ## The store operations (servers/models.go) -/

/-- The row that the loop `for rows.Next()` scans into a `Server`. -/
def Row.toServer (r : Row) : Server :=
  ⟨r.id, r.name⟩

/-- The loop of `GetServers` and `SearchServers`: starting from the empty, non-nil
slice `[]Server{}`, each row of the result set is scanned and appended. -/
def scanRows (rs : List Row) : List Server :=
  rs.foldl (fun servers r => servers ++ [r.toServer]) []

/-- The column `name VARCHAR(50)` accepts the value: it has at most 50 characters, or
what exceeds them is spaces only.  The server cuts excess trailing spaces of a
`VARCHAR` value with a warning in every SQL mode; any other excess is error 1406 in
strict mode. -/
def fitsColumn (name : String) : Bool :=
  decide (name.length ≤ 50) || (name.data.drop 50).all (fun c => decide (c = ' '))

/-- The value that the column stores for a value it accepts: the value itself, cut to
its first 50 characters when it is longer. -/
def columnValue (name : String) : String :=
  if name.length ≤ 50 then name else String.mk (name.data.take 50)

/-- Some row of `rs` has a name equal to `name` in the collation. -/
def nameTaken (col : Collation) (rs : List Row) (name : String) : Bool :=
  rs.any (fun r => sortKey col r.name == sortKey col name)

/-- Error 1406 of the server: the value is longer than the column. -/
def errDataTooLong : DbErr :=
  DbErr.MySQLError 1406 "Data too long for column \x27name\x27 at row 1"

/-- Error 1062 of the server: the unique index on `name` rejects the value. -/
def errDuplicate (name : String) : DbErr :=
  DbErr.MySQLError 1062 ("Duplicate entry \x27" ++ name ++ "\x27 for key \x27name\x27")

/-- Error 1210 of the server: a negative argument for `LIMIT` or `OFFSET`. -/
def errLimit : DbErr :=
  DbErr.MySQLError 1210 "Incorrect arguments to EXECUTE"

/-- The rows after `UPDATE servers SET name = n WHERE id = i`: the row of id `i`
renamed, the other rows kept. -/
def renameRow (i : Int) (n : String) (rows : List Row) : List Row :=
  rows.map (fun r => if r.id = i then { r with name := n } else r)

/-- Method `(s *Server) GetServer(db)`: `SELECT name FROM servers WHERE id = ?`, scanned
into `s.Name`; `sql.ErrNoRows` when there is no such row.  `fault` is the error
of the backend when it fails to prepare or run the statement. -/
def GetServer (s : Server) (db : DB) (fault : Option DbErr) : Except DbErr Server × DB :=
  let db := db.record (Call.GetServer s.ID)
  match fault with
  | some e => (Except.error e, db)
  | none =>
    match db.rows.find? (fun r => decide (r.id = s.ID)) with
    | none => (Except.error DbErr.ErrNoRows, db)
    | some r => (Except.ok { s with Name := r.name }, db)

/-- Method `(s *Server) UpdateServer(db)`: `UPDATE servers SET name = ? WHERE id = ?`.
The result is the number of rows changed; no matching row is not an error.  The row
gets the value as the column stores it. -/
def UpdateServer (col : Collation) (s : Server) (db : DB) (fault : Option DbErr) :
    Except DbErr Nat × DB :=
  let db := db.record (Call.UpdateServer s.ID s.Name)
  match fault with
  | some e => (Except.error e, db)
  | none =>
    if db.rows.all (fun r => decide (r.id ≠ s.ID)) then
      (Except.ok 0, db)
    else if fitsColumn s.Name = false then
      (Except.error errDataTooLong, db)
    else if nameTaken col (db.rows.filter (fun r => decide (r.id ≠ s.ID)))
        (columnValue s.Name) then
      (Except.error (errDuplicate (columnValue s.Name)), db)
    else
      (Except.ok (db.rows.countP
          (fun r => decide (r.id = s.ID ∧ r.name ≠ columnValue s.Name))),
       { db with rows := renameRow s.ID (columnValue s.Name) db.rows })

/-- Method `(s *Server) DeleteServer(db)`: `DELETE FROM servers WHERE id = ?`.
The result is the number of rows removed; no matching row is not an error. -/
def DeleteServer (s : Server) (db : DB) (fault : Option DbErr) : Except DbErr Nat × DB :=
  let db := db.record (Call.DeleteServer s.ID)
  match fault with
  | some e => (Except.error e, db)
  | none =>
    (Except.ok (db.rows.countP (fun r => decide (r.id = s.ID))),
     { db with rows := db.rows.filter (fun r => decide (r.id ≠ s.ID)) })

/-- Method `(s *Server) CreateServer(db)`: `INSERT INTO servers (name) VALUES(?)`, then
`s.ID` is set to `LastInsertId()`; `s.Name` stays the value submitted, the row gets
the value as the column stores it.  A rejected duplicate still consumes the id the
storage engine had reserved for it. -/
def CreateServer (col : Collation) (s : Server) (db : DB) (fault : Option DbErr) :
    Except DbErr Server × DB :=
  let db := db.record (Call.CreateServer s.Name)
  match fault with
  | some e => (Except.error e, db)
  | none =>
    if fitsColumn s.Name = false then
      (Except.error errDataTooLong, db)
    else if nameTaken col db.rows (columnValue s.Name) then
      (Except.error (errDuplicate (columnValue s.Name)),
       { db with autoInc := db.autoInc + 1 })
    else
      (Except.ok { s with ID := db.autoInc },
       { db with rows := db.rows ++ [⟨db.autoInc, columnValue s.Name⟩],
                 autoInc := db.autoInc + 1 })

/-- Go `GetServers(db, start, count)`:
`SELECT id, name FROM servers ORDER BY name LIMIT ? OFFSET ?` run with
`(count, start)`.  The pair is the Go result `([]Server, error)`, where `none` is
the nil slice. -/
def GetServers (col : Collation) (db : DB) (fault : Option DbErr) (start count : Int) :
    (Option (List Server) × Option DbErr) × DB :=
  let db := db.record (Call.GetServers start count)
  match fault with
  | some e => ((none, some e), db)
  | none =>
    if count < 0 ∨ start < 0 then
      ((none, some errLimit), db)
    else
      ((some (scanRows (limitOffset count start (orderByName col db.rows))), none), db)

/-- Go `SearchServers(db, start, count, name)`:
`SELECT id, name FROM servers WHERE name LIKE ? ORDER BY name LIMIT ? OFFSET ?`
run with `(name, count, start)`. -/
def SearchServers (col : Collation) (db : DB) (fault : Option DbErr) (start count : Int)
    (name : String) : (Option (List Server) × Option DbErr) × DB :=
  let db := db.record (Call.SearchServers start count name)
  match fault with
  | some e => ((none, some e), db)
  | none =>
    if count < 0 ∨ start < 0 then
      ((none, some errLimit), db)
    else
      ((some (scanRows (limitOffset count start
          (orderByName col (db.rows.filter (fun r => like col name.data r.name.data))))), none), db)

/-! ## HTTP requests and responses -/

/-- The request methods the router has routes for. -/
inductive Method where
  | GET
  | POST
  | PUT
  | PATCH
  | DELETE
deriving DecidableEq, Repr

/-- The path of a request as the router matches it against the registered patterns
`/v1/servers`, `/v1/servers/:id` (with the text of the segment `:id`) and
`/v1/search/servers`. -/
inductive Path where
  | servers
  | server (id : String)
  | searchServers
deriving DecidableEq, Repr

/-- The parameters the router hands to a handler: `httprouter.Params`. -/
abbrev Params := List (String × String)

/-- Go `ps.ByName(name)`: the value of the first parameter of that name, else the empty string. -/
def ByName (ps : Params) (name : String) : String :=
  match ps.find? (fun p => p.1 == name) with
  | some p => p.2
  | none => ""

/-- The parameters of a path. -/
def Path.params : Path → Params
  | Path.server id => [("id", id)]
  | _ => []

/-- A request.  `form` is the parsed form (query string and form body),
`credentials` is what the `Authorization` header decodes to as Basic credentials
(`none` when the header is absent or malformed), `body` is the `Server` that
`json.NewDecoder(req.Body).Decode(&s)` fills in from the zero value (`none` when
`Decode` returns an error). -/
structure Request where
  method : Method
  path : Path
  form : List (String × String)
  credentials : Option (String × String)
  body : Option Server
deriving DecidableEq, Repr

/-- Go `req.FormValue(key)`: the first value of the key, else the empty string. -/
def Request.FormValue (req : Request) (key : String) : String :=
  match req.form.find? (fun p => p.1 == key) with
  | some p => p.2
  | none => ""

/-- Go `req.BasicAuth()`: user, password and whether the header held Basic credentials. -/
def Request.BasicAuth (req : Request) : String × String × Bool :=
  match req.credentials with
  | some (user, password) => (user, password, true)
  | none => ("", "", false)

/-- The values handed to `json.Marshal` by this program: a `Server`, a `[]Server`
(`none` is the nil slice, encoded as `null`; `some l` is encoded as an array,
`[]` when `l` is empty) and a `map[string]string`. -/
inductive Payload where
  | server (s : Server)
  | servers (l : Option (List Server))
  | stringMap (m : List (String × String))
deriving DecidableEq, Repr

/-- The text of `json.Marshal(payload)`, given the encoder `quote` of the library for
a JSON string: a `Server` is an object with the fields `id` and `name`, the nil slice
is `null`, a slice is an array, a map is an object. -/
def Marshal (quote : String → String) : Payload → String
  | Payload.server s =>
    "\x7b\"id\":" ++ toString s.ID ++ ",\"name\":" ++ quote s.Name ++ "\x7d"
  | Payload.servers none => "null"
  | Payload.servers (some l) =>
    "[" ++ ",".intercalate (l.map (fun s =>
      "\x7b\"id\":" ++ toString s.ID ++ ",\"name\":" ++ quote s.Name ++ "\x7d")) ++ "]"
  | Payload.stringMap m =>
    "\x7b" ++ ",".intercalate (m.map (fun kv => quote kv.1 ++ ":" ++ quote kv.2)) ++ "\x7d"

/-- What is written to the body of a response: the JSON encoding of a payload, or text. -/
inductive Chunk where
  | json (p : Payload)
  | text (s : String)
deriving DecidableEq, Repr

/-- The state of an `http.ResponseWriter`: status code, header and the chunks written. -/
structure ResponseWriter where
  Code : Nat
  Header : List (String × String)
  Body : List Chunk
deriving DecidableEq, Repr

/-- A fresh `httptest.NewRecorder()`. -/
def NewRecorder : ResponseWriter := ⟨200, [], []⟩

/-- Go `w.Header().Set(key, value)`. -/
def ResponseWriter.Set (w : ResponseWriter) (key value : String) : ResponseWriter :=
  { w with Header := w.Header.filter (fun h => h.1 != key) ++ [(key, value)] }

/-- Go `w.Header().Get(key)`. -/
def ResponseWriter.Get (w : ResponseWriter) (key : String) : Option String :=
  (w.Header.find? (fun h => h.1 == key)).map (fun h => h.2)

/-- Go `w.WriteHeader(code)`. -/
def ResponseWriter.WriteHeader (w : ResponseWriter) (code : Nat) : ResponseWriter :=
  { w with Code := code }

/-- Go `w.Write(chunk)`. -/
def ResponseWriter.Write (w : ResponseWriter) (c : Chunk) : ResponseWriter :=
  { w with Body := w.Body ++ [c] }

abbrev StatusOK : Nat := 200
abbrev StatusCreated : Nat := 201
abbrev StatusBadRequest : Nat := 400
abbrev StatusUnauthorized : Nat := 401
abbrev StatusNotFound : Nat := 404
abbrev StatusConflict : Nat := 409
abbrev StatusInternalServerError : Nat := 500

/-- Go `http.StatusText` on the codes of this program. -/
def StatusText (code : Nat) : String :=
  if code = 200 then "OK"
  else if code = 201 then "Created"
  else if code = 400 then "Bad Request"
  else if code = 401 then "Unauthorized"
  else if code = 404 then "Not Found"
  else if code = 409 then "Conflict"
  else if code = 500 then "Internal Server Error"
  else ""

/-- Go `http.Error(w, error, code)`: a plain-text reply, the message followed by a newline. -/
def Error (w : ResponseWriter) (error : String) (code : Nat) : ResponseWriter :=
  ((((w.Set "Content-Type" "text/plain; charset=utf-8").Set
      "X-Content-Type-Options" "nosniff").WriteHeader code).Write (Chunk.text (error ++ "\n")))

/-! ## The handlers (application/app.go) -/

/-- Go `respondWithJSON(w, code, payload)`. -/
def respondWithJSON (w : ResponseWriter) (code : Nat) (payload : Payload) : ResponseWriter :=
  ((w.Set "Content-Type" "application/json; charset=utf-8").WriteHeader code).Write
    (Chunk.json payload)

/-- Go `respondWithError(w, code, message)`. -/
def respondWithError (w : ResponseWriter) (code : Nat) (message : String) : ResponseWriter :=
  respondWithJSON w code (Payload.stringMap [("error", message)])

/-- A handler, `httprouter.Handle`: it receives the response writer, the request and
the parameters, works on the database (whose backend may fail with `fault`) and leaves
the written response and the database. -/
abbrev Handle := ResponseWriter → Request → Params → DB → Option DbErr → ResponseWriter × DB

/-- Method `(a *App) getServerEndpoint`. -/
def getServerEndpoint : Handle := fun w _req ps db fault =>
  match Atoi (ByName ps "id") with
  | (_, some _) => (respondWithError w StatusBadRequest "Invalid server ID", db)
  | (id, none) =>
    match GetServer { ID := id, Name := "" } db fault with
    | (Except.error err, db) =>
      match err with
      | DbErr.ErrNoRows => (respondWithError w StatusNotFound "Server not found", db)
      | _ => (respondWithError w StatusInternalServerError err.Error, db)
    | (Except.ok s, db) => (respondWithJSON w StatusOK (Payload.server s), db)

/-- Method `(a *App) getServersEndpoint`. -/
def getServersEndpoint (col : Collation) : Handle := fun w req _ps db fault =>
  let count := (Atoi (req.FormValue "count")).1
  let start := (Atoi (req.FormValue "start")).1
  let count := if count > 25 ∨ count < 1 then 25 else count
  let start := if start < 0 then 0 else start
  match GetServers col db fault start count with
  | ((_, some err), db) => (respondWithError w StatusInternalServerError err.Error, db)
  | ((servers, none), db) => (respondWithJSON w StatusOK (Payload.servers servers), db)

/-- Method `(a *App) createServerEndpoint`. -/
def createServerEndpoint (col : Collation) : Handle := fun w req _ps db fault =>
  match req.body with
  | none => (respondWithError w StatusBadRequest "Invalid request payload", db)
  | some s =>
    match CreateServer col s db fault with
    | (Except.error err, db) =>
      match err with
      | DbErr.MySQLError number _ =>
        if number = 1062 then
          (respondWithError w StatusConflict err.Error, db)
        else
          (respondWithError w StatusInternalServerError err.Error, db)
      | _ => (respondWithError w StatusInternalServerError err.Error, db)
    | (Except.ok s, db) => (respondWithJSON w StatusCreated (Payload.server s), db)

/-- Method `(a *App) modifyServerEndpoint`. -/
def modifyServerEndpoint (col : Collation) : Handle := fun w req ps db fault =>
  match Atoi (ByName ps "id") with
  | (_, some _) => (respondWithError w StatusBadRequest "Invalid server ID", db)
  | (id, none) =>
    match req.body with
    | none => (respondWithError w StatusBadRequest "Invalid request payload", db)
    | some s =>
      let s := { s with ID := id }
      match UpdateServer col s db fault with
      | (Except.error err, db) => (respondWithError w StatusInternalServerError err.Error, db)
      | (Except.ok _, db) => (respondWithJSON w StatusOK (Payload.server s), db)

/-- Method `(a *App) deleteServerEndpoint`. -/
def deleteServerEndpoint : Handle := fun w _req ps db fault =>
  match Atoi (ByName ps "id") with
  | (_, some _) => (respondWithError w StatusBadRequest "Invalid server ID", db)
  | (id, none) =>
    match DeleteServer { ID := id, Name := "" } db fault with
    | (Except.error err, db) => (respondWithError w StatusInternalServerError err.Error, db)
    | (Except.ok _, db) =>
      (respondWithJSON w StatusOK (Payload.stringMap [("result", "success")]), db)

/-- Method `(a *App) searchServersEndpoint`. -/
def searchServersEndpoint (col : Collation) : Handle := fun w req _ps db fault =>
  let count := (Atoi (req.FormValue "count")).1
  let start := (Atoi (req.FormValue "start")).1
  let name := req.FormValue "name"
  let count := if count > 25 ∨ count < 1 then 25 else count
  let start := if start < 0 then 0 else start
  match SearchServers col db fault start count name with
  | ((_, some err), db) => (respondWithError w StatusInternalServerError err.Error, db)
  | ((servers, none), db) => (respondWithJSON w StatusOK (Payload.servers servers), db)

/-- Go `basicAuth(h, requiredUser, requiredPassword)`. -/
def basicAuth (h : Handle) (requiredUser requiredPassword : String) : Handle :=
  fun w req ps db fault =>
    match req.BasicAuth with
    | (user, password, hasAuth) =>
      if hasAuth = true ∧ user = requiredUser ∧ password = requiredPassword then
        h w req ps db fault
      else
        (Error (w.Set "WWW-Authenticate" "Basic realm=Restricted")
          (StatusText StatusUnauthorized) StatusUnauthorized, db)

/-- The route table that `(a *App) Initialize` registers with the router: the
handler of a method and path, if there is one. -/
def Initialize (col : Collation) (authUser authPassword : String) :
    Method → Path → Option Handle
  | Method.GET, Path.servers => some (getServersEndpoint col)
  | Method.POST, Path.servers => some (basicAuth (createServerEndpoint col) authUser authPassword)
  | Method.GET, Path.server _ => some getServerEndpoint
  | Method.PUT, Path.server _ => some (basicAuth (modifyServerEndpoint col) authUser authPassword)
  | Method.PATCH, Path.server _ =>
    some (basicAuth (modifyServerEndpoint col) authUser authPassword)
  | Method.DELETE, Path.server _ => some (basicAuth deleteServerEndpoint authUser authPassword)
  | Method.POST, Path.searchServers => some (searchServersEndpoint col)
  | _, _ => none

/-- Go `a.Router.ServeHTTP(rr, req)` on a fresh recorder, as `executeRequest` of the
tests runs it: the response and the database afterwards; `none` when no route is
registered for the method and path (the router then answers by itself). -/
def ServeHTTP (col : Collation) (authUser authPassword : String) (req : Request) (db : DB)
    (fault : Option DbErr) : Option (ResponseWriter × DB) :=
  match Initialize col authUser authPassword req.method req.path with
  | some h => some (h NewRecorder req req.path.params db fault)
  | none => none

/-! ## The name filter of the web front-end (Client/server_validate.go) -/

/-- The class `\w` of the regexp library: an ASCII letter, a digit or the underscore. -/
def isWord (c : Char) : Bool :=
  decide (('0' ≤ c ∧ c ≤ '9') ∨ ('A' ≤ c ∧ c ≤ 'Z') ∨ ('a' ≤ c ∧ c ≤ 'z') ∨ c = '_')

/-- What matches one character of the text: the class `\w`, or one given character
(as the escaped dot `\.`). -/
inductive Atom where
  | word
  | char (c : Char)
deriving DecidableEq, Repr

/-- Whether the atom matches the character. -/
def Atom.accepts : Atom → Char → Bool
  | Atom.word, c => isWord c
  | Atom.char d, c => decide (c = d)

/-- The pieces of a regular expression that the pattern of `serverRegExp` uses: `^`
(beginning of the text), `$` (end of the text, as no flag is set), an atom, and an
atom under `*`. -/
inductive Item where
  | beginText
  | endText
  | one (a : Atom)
  | star (a : Atom)
deriving DecidableEq, Repr

/-- Whether the items match the text from the current position on, leaving any rest;
`atStart` says that the position is the beginning of the whole text. -/
def matchHere : List Item → Bool → List Char → Bool
  | [], _, _ => true
  | Item.beginText :: r, atStart, s => atStart && matchHere r atStart s
  | Item.endText :: r, atStart, s => s.isEmpty && matchHere r atStart s
  | Item.one a :: r, _, s =>
    match s with
    | [] => false
    | c :: t => a.accepts c && matchHere r false t
  | Item.star a :: r, atStart, s =>
    (List.range (s.length + 1)).any (fun k =>
      (s.take k).all a.accepts && matchHere r (atStart && k == 0) (s.drop k))

/-- Go `(*Regexp).MatchString`: whether the text contains a match of the expression,
starting at any position. -/
def MatchString (re : List Item) (s : String) : Bool :=
  (List.range (s.data.length + 1)).any (fun k => matchHere re (k == 0) (s.data.drop k))

/-- The compiled pattern `^\w*\.\w*\.\w*$` of `serverRegExp`. -/
def serverRegExp : List Item :=
  [Item.beginText, Item.star Atom.word, Item.one (Atom.char '.'), Item.star Atom.word,
    Item.one (Atom.char '.'), Item.star Atom.word, Item.endText]

/-- Go `serverNameValid(serverName)`. -/
def serverNameValid (serverName : String) : Bool :=
  MatchString serverRegExp serverName

/-! ## Requests and responses used in the statements -/

/-- The routes that `Initialize` wraps in `basicAuth`: `POST /v1/servers` and
`PUT`, `PATCH`, `DELETE /v1/servers/:id`. -/
def gated (m : Method) (p : Path) : Prop :=
  (m = Method.POST ∧ p = Path.servers) ∨
    ((m = Method.PUT ∨ m = Method.PATCH ∨ m = Method.DELETE) ∧ ∃ id, p = Path.server id)

/-- The reply of the auth gate on a fresh recorder: status 401, the challenge
header, and the plain-text body that `http.Error` writes. -/
def unauthorized : ResponseWriter :=
  { Code := 401
    Header := [("WWW-Authenticate", "Basic realm=Restricted"),
      ("Content-Type", "text/plain; charset=utf-8"),
      ("X-Content-Type-Options", "nosniff")]
    Body := [Chunk.text "Unauthorized\n"] }

/-- The JSON reply of `respondWithJSON` on a fresh recorder. -/
def jsonReply (code : Nat) (payload : Payload) : ResponseWriter :=
  { Code := code
    Header := [("Content-Type", "application/json; charset=utf-8")]
    Body := [Chunk.json payload] }

/-- The JSON error reply of `respondWithError` on a fresh recorder. -/
def errorReply (code : Nat) (message : String) : ResponseWriter :=
  jsonReply code (Payload.stringMap [("error", message)])

/-- The constraints that the schema of `servers` and `AUTO_INCREMENT` keep on the
table: `PRIMARY KEY (id)`, `name ... UNIQUE` (in the collation), ids handed out
below the counter, and `name VARCHAR(50)`. -/
structure Valid (col : Collation) (db : DB) : Prop where
  primaryKey : (db.rows.map Row.id).Nodup
  uniqueName : (db.rows.map (fun r => sortKey col r.name)).Nodup
  autoIncrement : ∀ r ∈ db.rows, r.id < db.autoInc
  varchar : ∀ r ∈ db.rows, r.name.length ≤ 50

/-- The database after a sequence of requests, each served with the backend answering
or failing as given; a request without a route does not reach the database. -/
def run (col : Collation) (authUser authPassword : String) :
    List (Request × Option DbErr) → DB → DB
  | [], db => db
  | (req, fault) :: rest, db =>
    match ServeHTTP col authUser authPassword req db fault with
    | some (_, db') => run col authUser authPassword rest db'
    | none => run col authUser authPassword rest db

/-- The table of the test `TestSearch` at its last searches: `test server` was
created first, then `addServers(12)` inserted `Server 1` to `Server 12`. -/
def seededTable : DB :=
  ⟨[⟨1, "test server"⟩, ⟨2, "Server 1"⟩, ⟨3, "Server 2"⟩, ⟨4, "Server 3"⟩, ⟨5, "Server 4"⟩,
    ⟨6, "Server 5"⟩, ⟨7, "Server 6"⟩, ⟨8, "Server 7"⟩, ⟨9, "Server 8"⟩, ⟨10, "Server 9"⟩,
    ⟨11, "Server 10"⟩, ⟨12, "Server 11"⟩, ⟨13, "Server 12"⟩], 14, []⟩

/-- The order of `ORDER BY name` on the servers of a result. -/
def serverLe (col : Collation) (a b : Server) : Prop :=
  lexLe (sortKey col a.Name) (sortKey col b.Name) = true

/-- A reply written once by `respondWithJSON` on a fresh recorder, with one of the
status codes the handlers use; at a code from 400 on the payload is the map with the
one key `error`. -/
def JsonOutcome (r : ResponseWriter) : Prop :=
  ∃ (code : Nat) (payload : Payload), r = jsonReply code payload ∧
    (code = 200 ∨ code = 201 ∨ code = 400 ∨ code = 404 ∨ code = 409 ∨ code = 500) ∧
    (400 ≤ code → ∃ msg : String, payload = Payload.stringMap [("error", msg)])

/-! ## Basic facts -/

theorem basicAuth_eq (h : Handle) (u p : String) (w : ResponseWriter) (req : Request)
    (ps : Params) (db : DB) (fault : Option DbErr) :
    basicAuth h u p w req ps db fault =
      if req.credentials = some (u, p) then h w req ps db fault
      else (Error (w.Set "WWW-Authenticate" "Basic realm=Restricted") "Unauthorized" 401, db) := by
  unfold basicAuth Request.BasicAuth
  cases hc : req.credentials with
  | none => simp [StatusText]
  | some c =>
    obtain ⟨a, b⟩ := c
    by_cases hab : a = u ∧ b = p
    · simp [hab]
    · have : ¬ (a = u ∧ b = p) := hab
      simp [this, StatusText]

/-! ## C1: the auth gate -/

/-- C1 (as stated, refuted): on `POST /v1/servers` without credentials the reply is
401, but its body is the text `Unauthorized` followed by a newline (`http.Error`
ends the message with a line feed), not the bare text `Unauthorized`. -/
theorem unauthorized_body_counterexample :
    (ServeHTTP binary "admin" "secret"
        ⟨Method.POST, Path.servers, [], none, some ⟨0, "test server"⟩⟩ DB.empty none).map
        (fun r => (r.1.Code, r.1.Body)) = some (401, [Chunk.text "Unauthorized\n"]) ∧
      (ServeHTTP binary "admin" "secret"
        ⟨Method.POST, Path.servers, [], none, some ⟨0, "test server"⟩⟩ DB.empty none).map
        (fun r => r.1.Body) ≠ some [Chunk.text "Unauthorized"] := by
  decide

/-- C1 (amended): on every gated route, for every configured pair and every request
(whatever its path id and body), the reply is the one of the wrapped handler when
the Basic credentials equal the configured pair, and otherwise it is status 401
with header `WWW-Authenticate: Basic realm=Restricted` and the body `Unauthorized`
followed by a newline, with the database untouched (no store operation called).
The wrapper `basicAuth` does so for every wrapped handler `h`, so `h` is not run on a
refused request. -/
theorem basicAuth_gate (col : Collation) (authUser authPassword : String) (req : Request)
    (db : DB) (fault : Option DbErr) (hroute : gated req.method req.path) :
    ServeHTTP col authUser authPassword req db fault =
        some (if req.credentials = some (authUser, authPassword) then
            (match req.method with
              | Method.POST => createServerEndpoint col
              | Method.DELETE => deleteServerEndpoint
              | _ => modifyServerEndpoint col) NewRecorder req req.path.params db fault
          else (unauthorized, db)) ∧
      unauthorized.Code = 401 ∧
      unauthorized.Get "WWW-Authenticate" = some "Basic realm=Restricted" ∧
      unauthorized.Body = [Chunk.text "Unauthorized\n"] ∧
      ∀ (h : Handle) (ps : Params),
        basicAuth h authUser authPassword NewRecorder req ps db fault =
          if req.credentials = some (authUser, authPassword) then h NewRecorder req ps db fault
          else (unauthorized, db) := by
  have hgate : ∀ (h : Handle) (ps : Params),
      basicAuth h authUser authPassword NewRecorder req ps db fault =
        if req.credentials = some (authUser, authPassword) then h NewRecorder req ps db fault
        else (unauthorized, db) := by
    intro h ps
    rw [basicAuth_eq]
    rfl
  refine ⟨?_, rfl, by decide, rfl, hgate⟩
  rcases hroute with ⟨hm, hp⟩ | ⟨hm, id, hp⟩
  · simp only [ServeHTTP, hm, hp, Initialize, hgate]
  · rcases hm with hm | hm | hm <;> simp only [ServeHTTP, hm, hp, Initialize, hgate]

/-- C1, at a concrete input: `PUT /v1/servers/a` with a wrong password and an
undecodable body is refused with 401 and leaves the table as it was. -/
theorem basicAuth_gate_witness :
    ServeHTTP binary "admin" "secret"
        ⟨Method.PUT, Path.server "a", [], some ("admin", "guess"), none⟩ DB.empty none =
      some (unauthorized, DB.empty) := by
  have h := (basicAuth_gate binary "admin" "secret"
    ⟨Method.PUT, Path.server "a", [], some ("admin", "guess"), none⟩ DB.empty none
    (Or.inr ⟨Or.inl rfl, "a", rfl⟩)).1
  rw [h]
  decide

/-! ## C2: clamping of `count` and `start` -/

theorem GetServers_calls (col : Collation) (db : DB) (fault : Option DbErr) (start count : Int) :
    (GetServers col db fault start count).2 = db.record (Call.GetServers start count) := by
  unfold GetServers
  cases fault with
  | some e => rfl
  | none =>
    by_cases h : count < 0 ∨ start < 0
    · simp [h]
    · simp [h]

theorem SearchServers_calls (col : Collation) (db : DB) (fault : Option DbErr)
    (start count : Int) (name : String) :
    (SearchServers col db fault start count name).2 =
      db.record (Call.SearchServers start count name) := by
  unfold SearchServers
  cases fault with
  | some e => rfl
  | none =>
    by_cases h : count < 0 ∨ start < 0
    · simp [h]
    · simp [h]

theorem getServersEndpoint_db (col : Collation) (w : ResponseWriter) (req : Request)
    (ps : Params) (db : DB) (fault : Option DbErr) :
    (getServersEndpoint col w req ps db fault).2 =
      db.record (Call.GetServers
        (if (Atoi (req.FormValue "start")).1 < 0 then 0 else (Atoi (req.FormValue "start")).1)
        (if (Atoi (req.FormValue "count")).1 > 25 ∨ (Atoi (req.FormValue "count")).1 < 1 then 25
          else (Atoi (req.FormValue "count")).1)) := by
  rw [← GetServers_calls col db fault]
  simp only [getServersEndpoint]
  split <;> simp_all

theorem searchServersEndpoint_db (col : Collation) (w : ResponseWriter) (req : Request)
    (ps : Params) (db : DB) (fault : Option DbErr) :
    (searchServersEndpoint col w req ps db fault).2 =
      db.record (Call.SearchServers
        (if (Atoi (req.FormValue "start")).1 < 0 then 0 else (Atoi (req.FormValue "start")).1)
        (if (Atoi (req.FormValue "count")).1 > 25 ∨ (Atoi (req.FormValue "count")).1 < 1 then 25
          else (Atoi (req.FormValue "count")).1)
        (req.FormValue "name")) := by
  rw [← SearchServers_calls col db fault]
  simp only [searchServersEndpoint]
  split <;> simp_all

/-- C2: for every request, with `count` and `start` the integers parsed from it, the
List handler and the Search handler call the store with the same effective pair:
the count is 25 when `count > 25` or `count < 1` and `count` otherwise, the start is
0 when `start < 0` and `start` otherwise; so the count passed is in `[1, 25]` and the
start passed is not negative. -/
theorem clamp_count_start (col : Collation) (req : Request) (w w' : ResponseWriter)
    (ps ps' : Params) (db db' : DB) (fault fault' : Option DbErr) (count start : Int)
    (hcount : (Atoi (req.FormValue "count")).1 = count)
    (hstart : (Atoi (req.FormValue "start")).1 = start) :
    ∃ count' start' : Int,
      (getServersEndpoint col w req ps db fault).2.calls =
          db.calls ++ [Call.GetServers start' count'] ∧
        (searchServersEndpoint col w' req ps' db' fault').2.calls =
          db'.calls ++ [Call.SearchServers start' count' (req.FormValue "name")] ∧
        (count > 25 ∨ count < 1 → count' = 25) ∧
        (¬ (count > 25 ∨ count < 1) → count' = count) ∧
        (start < 0 → start' = 0) ∧
        (¬ start < 0 → start' = start) ∧
        1 ≤ count' ∧ count' ≤ 25 ∧ 0 ≤ start' := by
  refine ⟨if count > 25 ∨ count < 1 then 25 else count, if start < 0 then 0 else start,
    ?_, ?_, ?_, ?_, ?_, ?_, ?_, ?_, ?_⟩
  · rw [getServersEndpoint_db, hcount, hstart]; rfl
  · rw [searchServersEndpoint_db, hcount, hstart]; rfl
  · intro h; simp [h]
  · intro h; simp [h]
  · intro h; simp [h]
  · intro h; simp [h]
  · split <;> omega
  · split <;> omega
  · split <;> omega

/-- C2, at the form of the test (`count=-3`, `start=-5`, `name=%`): both handlers
call the store with count 25 and start 0. -/
theorem clamp_count_start_witness :
    ∃ count' start' : Int,
      (getServersEndpoint binary NewRecorder
          ⟨Method.POST, Path.searchServers, [("count", "-3"), ("start", "-5"), ("name", "%")],
            none, none⟩ [] DB.empty none).2.calls =
          DB.empty.calls ++ [Call.GetServers start' count'] ∧
        (searchServersEndpoint binary NewRecorder
          ⟨Method.POST, Path.searchServers, [("count", "-3"), ("start", "-5"), ("name", "%")],
            none, none⟩ [] DB.empty none).2.calls =
          DB.empty.calls ++ [Call.SearchServers start' count'
            (Request.FormValue ⟨Method.POST, Path.searchServers,
              [("count", "-3"), ("start", "-5"), ("name", "%")], none, none⟩ "name")] ∧
        ((-3 : Int) > 25 ∨ (-3 : Int) < 1 → count' = 25) ∧
        (¬ ((-3 : Int) > 25 ∨ (-3 : Int) < 1) → count' = -3) ∧
        ((-5 : Int) < 0 → start' = 0) ∧
        (¬ (-5 : Int) < 0 → start' = -5) ∧
        1 ≤ count' ∧ count' ≤ 25 ∧ 0 ≤ start' :=
  clamp_count_start binary
    ⟨Method.POST, Path.searchServers, [("count", "-3"), ("start", "-5"), ("name", "%")],
      none, none⟩ NewRecorder NewRecorder [] [] DB.empty DB.empty none none (-3) (-5)
    (by decide) (by decide)

/-! ## C8: a path id that does not parse -/

theorem ByName_id (id : String) : ByName (Path.server id).params "id" = id := by
  simp [ByName, Path.params]

theorem getServerEndpoint_eq (req : Request) (id : String) (db : DB) (fault : Option DbErr) :
    getServerEndpoint NewRecorder req (Path.server id).params db fault =
      match Atoi id with
      | (_, some _) => (errorReply 400 "Invalid server ID", db)
      | (i, none) =>
        match fault with
        | some e =>
          (match e with
            | DbErr.ErrNoRows => errorReply 404 "Server not found"
            | _ => errorReply 500 e.Error, db.record (Call.GetServer i))
        | none =>
          match db.rows.find? (fun r => decide (r.id = i)) with
          | none => (errorReply 404 "Server not found", db.record (Call.GetServer i))
          | some r => (jsonReply 200 (Payload.server ⟨i, r.name⟩), db.record (Call.GetServer i)) := by
  unfold getServerEndpoint
  rw [ByName_id]
  rcases hA : Atoi id with ⟨i, _ | e⟩
  · simp only [GetServer]
    cases fault with
    | some e => cases e <;> rfl
    | none =>
      simp only []
      cases hf : (db.record (Call.GetServer i)).rows.find? (fun r => decide (r.id = i)) with
      | none =>
        have hf' : db.rows.find? (fun r => decide (r.id = i)) = none := hf
        simp only [hf']
        rfl
      | some r =>
        have hf' : db.rows.find? (fun r => decide (r.id = i)) = some r := hf
        simp only [hf']
        rfl
  · rfl

theorem deleteServerEndpoint_eq (req : Request) (id : String) (db : DB)
    (fault : Option DbErr) :
    deleteServerEndpoint NewRecorder req (Path.server id).params db fault =
      match Atoi id with
      | (_, some _) => (errorReply 400 "Invalid server ID", db)
      | (i, none) =>
        match fault with
        | some e => (errorReply 500 e.Error, db.record (Call.DeleteServer i))
        | none =>
          (jsonReply 200 (Payload.stringMap [("result", "success")]),
            { db.record (Call.DeleteServer i) with
              rows := db.rows.filter (fun r => decide (r.id ≠ i)) }) := by
  unfold deleteServerEndpoint
  rw [ByName_id]
  rcases hA : Atoi id with ⟨i, _ | e⟩
  · simp only [DeleteServer]
    cases fault with
    | some e => rfl
    | none => rfl
  · rfl

theorem modifyServerEndpoint_bad_id (col : Collation) (req : Request) (id : String) (db : DB)
    (fault : Option DbErr) (hid : (Atoi id).2 ≠ none) :
    modifyServerEndpoint col NewRecorder req (Path.server id).params db fault =
      (errorReply 400 "Invalid server ID", db) := by
  unfold modifyServerEndpoint
  rw [ByName_id]
  rcases hA : Atoi id with ⟨i, _ | e⟩
  · rw [hA] at hid; exact absurd rfl hid
  · rfl

/-- C8: for every path id on which `strconv.Atoi` reports an error, GetOne, an
authenticated Modify (PUT and PATCH, whatever the body) and an authenticated Delete
answer 400 with the JSON body `error: Invalid server ID`, and the database is left as
it was, with no store operation called (also when the backend is failing). -/
theorem invalid_id_bad_request (col : Collation) (authUser authPassword : String)
    (id : String) (form : List (String × String)) (credentials : Option (String × String))
    (body : Option Server) (db : DB) (fault : Option DbErr) (hid : (Atoi id).2 ≠ none) :
    ServeHTTP col authUser authPassword
        ⟨Method.GET, Path.server id, form, credentials, body⟩ db fault =
        some (errorReply 400 "Invalid server ID", db) ∧
      ServeHTTP col authUser authPassword
        ⟨Method.PUT, Path.server id, form, some (authUser, authPassword), body⟩ db fault =
        some (errorReply 400 "Invalid server ID", db) ∧
      ServeHTTP col authUser authPassword
        ⟨Method.PATCH, Path.server id, form, some (authUser, authPassword), body⟩ db fault =
        some (errorReply 400 "Invalid server ID", db) ∧
      ServeHTTP col authUser authPassword
        ⟨Method.DELETE, Path.server id, form, some (authUser, authPassword), body⟩ db fault =
        some (errorReply 400 "Invalid server ID", db) ∧
      errorReply 400 "Invalid server ID" =
        ⟨400, [("Content-Type", "application/json; charset=utf-8")],
          [Chunk.json (Payload.stringMap [("error", "Invalid server ID")])]⟩ := by
  have hA : ∃ i e, Atoi id = (i, some e) := by
    rcases h : Atoi id with ⟨i, _ | e⟩
    · rw [h] at hid; exact absurd rfl hid
    · exact ⟨i, e, rfl⟩
  obtain ⟨i, e, hA⟩ := hA
  refine ⟨?_, ?_, ?_, ?_, rfl⟩
  · simp only [ServeHTTP, Initialize, getServerEndpoint_eq, hA]
  · simp only [ServeHTTP, Initialize, basicAuth_eq, if_true,
      modifyServerEndpoint_bad_id col _ id db fault hid]
  · simp only [ServeHTTP, Initialize, basicAuth_eq, if_true,
      modifyServerEndpoint_bad_id col _ id db fault hid]
  · simp only [ServeHTTP, Initialize, basicAuth_eq, if_true, deleteServerEndpoint_eq, hA]

/-- C8, at the path id `a` of the test `TestGetBadServer`. -/
theorem invalid_id_bad_request_witness :
    ServeHTTP binary "admin" "secret" ⟨Method.GET, Path.server "a", [], none, none⟩
        DB.empty none = some (errorReply 400 "Invalid server ID", DB.empty) :=
  (invalid_id_bad_request binary "admin" "secret" "a" [] none none DB.empty none
    (by decide)).1

/-! ## Every 64-bit integer is read back from its decimal text -/

theorem digitChar_toNat (d : Nat) (h : d < 10) : (digitChar d).toNat = 48 + d := by
  interval_cases d <;> rfl

theorem foldl_digits (n : Nat) :
    (Nat.digits 10 n).reverse.foldl (fun a d => a * 10 + d) 0 = n := by
  rw [List.foldl_reverse]
  have h : ∀ l : List Nat, l.foldr (fun d a => a * 10 + d) 0 = Nat.ofDigits 10 l := by
    intro l
    induction l with
    | nil => rfl
    | cons a t ih => simp [Nat.ofDigits_cons, ih]; ring
  rw [h, Nat.ofDigits_digits]

theorem le_foldl_digits (l : List Nat) (acc : Nat) :
    acc ≤ l.foldl (fun a d => a * 10 + d) acc := by
  induction l generalizing acc with
  | nil => exact le_refl _
  | cons d t ih =>
    have := ih (acc * 10 + d)
    simp only [List.foldl_cons]
    omega

theorem ParseUint_loop_digits (l : List Nat) (acc : Nat) (hd : ∀ d ∈ l, d < 10)
    (hlt : l.foldl (fun a d => a * 10 + d) acc < 2 ^ 64) :
    ParseUint.loop (l.map digitChar) acc = (l.foldl (fun a d => a * 10 + d) acc, none) := by
  induction l generalizing acc with
  | nil => rfl
  | cons d t ih =>
    have hd10 : d < 10 := hd d (List.mem_cons_self _ _)
    have hle := le_foldl_digits t (acc * 10 + d)
    simp only [List.foldl_cons] at hlt
    have hacc : acc * 10 + d < 2 ^ 64 := lt_of_le_of_lt hle hlt
    simp only [List.map_cons, ParseUint.loop, digitChar_toNat d hd10, List.foldl_cons]
    have h1 : 48 ≤ 48 + d ∧ 48 + d ≤ 57 := by omega
    have h2 : ¬ (acc ≥ (2 ^ 64 - 1) / 10 + 1) := by norm_num at hacc ⊢; omega
    have h3 : (acc * 10) % 2 ^ 64 = acc * 10 := Nat.mod_eq_of_lt (by omega)
    have h4 : (acc * 10 + (48 + d - 48)) % 2 ^ 64 = acc * 10 + d := by
      rw [Nat.add_sub_cancel_left]; exact Nat.mod_eq_of_lt hacc
    rw [if_pos h1, if_neg h2]
    simp only [h3, h4]
    have h5 : ¬ (acc * 10 + d < acc * 10 ∨ acc * 10 + d > 2 ^ 64 - 1) := by omega
    rw [if_neg h5]
    exact ih (acc * 10 + d) (fun x hx => hd x (List.mem_cons_of_mem _ hx)) hlt


theorem digitChar_not_sign (d : Nat) (h : d < 10) :
    (digitChar d == '-') = false ∧ ¬ (digitChar d == '+' ∨ digitChar d == '-') := by
  interval_cases d <;> decide

theorem ParseUint_digits (n : Nat) (hn : n ≠ 0) (hlt : n < 2 ^ 64) :
    ParseUint ((Nat.digits 10 n).reverse.map digitChar) = (n, none) := by
  have hloop := ParseUint_loop_digits (Nat.digits 10 n).reverse 0
    (fun d hd => Nat.digits_lt_base (by decide) (List.mem_reverse.mp hd))
    (by rw [foldl_digits]; exact hlt)
  rw [foldl_digits] at hloop
  have hne : (Nat.digits 10 n).reverse.map digitChar ≠ [] := by
    simpa using Nat.digits_ne_nil_iff_ne_zero.mpr hn
  unfold ParseUint
  cases hc : (Nat.digits 10 n).reverse.map digitChar with
  | nil => exact absurd hc hne
  | cons c cs => rw [hc] at hloop; exact hloop

theorem ParseInt_cons (c : Char) (rest : List Char) :
    ParseInt (c :: rest) =
      match ParseUint (if c == '+' ∨ c == '-' then rest else c :: rest) with
      | (_, some NumError.ErrSyntax) => (0, some NumError.ErrSyntax)
      | (un, _) =>
        if (c == '-') = false ∧ un ≥ 2 ^ 63 then
          ((2 : Int) ^ 63 - 1, some NumError.ErrRange)
        else if (c == '-') = true ∧ un > 2 ^ 63 then
          (-(2 : Int) ^ 63, some NumError.ErrRange)
        else
          (if (c == '-') = true then -(un : Int) else (un : Int), none) := by
  rfl

theorem ParseInt_unsigned (c : Char) (rest : List Char) (n : Nat)
    (hminus : (c == '-') = false) (hsign : ¬ (c == '+' ∨ c == '-'))
    (hP : ParseUint (c :: rest) = (n, none)) (hn : n < 2 ^ 63) :
    ParseInt (c :: rest) = ((n : Int), none) := by
  rw [ParseInt_cons, if_neg hsign, hP]
  have h1 : ¬ ((c == '-') = false ∧ n ≥ 2 ^ 63) := by omega
  have h2 : ¬ ((c == '-') = true ∧ n > 2 ^ 63) := by omega
  have h3 : ¬ (c == '-') = true := by rw [hminus]; decide
  simp only [if_neg h1, if_neg h2, if_neg h3]

theorem ParseInt_minus (rest : List Char) (n : Nat)
    (hP : ParseUint rest = (n, none)) (hn : n ≤ 2 ^ 63) :
    ParseInt ('-' :: rest) = (-(n : Int), none) := by
  have hs : (('-' : Char) == '+' ∨ ('-' : Char) == '-') := by decide
  have hm : (('-' : Char) == '-') = true := by decide
  rw [ParseInt_cons, if_pos hs, hP]
  have h1 : ¬ ((('-' : Char) == '-') = false ∧ n ≥ 2 ^ 63) := by rw [hm]; simp
  have h2 : ¬ ((('-' : Char) == '-') = true ∧ n > 2 ^ 63) := by omega
  simp only [if_neg h1, if_neg h2, if_pos hm]

theorem Atoi_Itoa (i : Int) (hlo : -(2 : Int) ^ 63 ≤ i) (hhi : i < (2 : Int) ^ 63) :
    Atoi (Itoa i) = (i, none) := by
  cases i with
  | ofNat n =>
    by_cases hn : n = 0
    · subst hn; decide
    · have hlt : n < 2 ^ 63 := by
        have : (n : Int) < (2 : Int) ^ 63 := hhi
        exact_mod_cast this
      have hP := ParseUint_digits n hn (by omega)
      obtain ⟨d, t, hdt⟩ : ∃ d t, (Nat.digits 10 n).reverse = d :: t := by
        cases h : (Nat.digits 10 n).reverse with
        | nil =>
          have hne : Nat.digits 10 n ≠ [] := Nat.digits_ne_nil_iff_ne_zero.mpr hn
          exact absurd (List.reverse_eq_nil_iff.mp h) hne
        | cons d t => exact ⟨d, t, rfl⟩
      have hd : d < 10 := Nat.digits_lt_base (by decide)
        (List.mem_reverse.mp (by rw [hdt]; exact List.mem_cons_self _ _))
      obtain ⟨hs1, hs2⟩ := digitChar_not_sign d hd
      simp only [Atoi, Itoa, if_neg hn]
      rw [hdt] at hP ⊢
      exact ParseInt_unsigned _ _ n hs1 hs2 hP hlt
  | negSucc m =>
    have hle : m + 1 ≤ 2 ^ 63 := by
      have : -(2 : Int) ^ 63 ≤ Int.negSucc m := hlo
      rw [Int.negSucc_eq] at this
      have h2 : ((m : Int) + 1) ≤ (2 : Int) ^ 63 := by linarith
      exact_mod_cast h2
    have hP := ParseUint_digits (m + 1) (by omega) (by omega)
    simp only [Atoi, Itoa]
    rw [ParseInt_minus _ (m + 1) hP hle, Int.negSucc_eq]
    rfl

/-! ## C9: GetOne -/

theorem find_id_none {rows : List Row} {i : Int} :
    rows.find? (fun r => decide (r.id = i)) = none ↔ ∀ r ∈ rows, r.id ≠ i := by
  simp [List.find?_eq_none]

theorem find_id_of_nodup {rows : List Row} {i : Int} (hpk : (rows.map Row.id).Nodup)
    {r : Row} (hr : r ∈ rows) (hi : r.id = i) :
    rows.find? (fun r => decide (r.id = i)) = some r := by
  induction rows with
  | nil => cases hr
  | cons a t ih =>
    rw [List.map_cons, List.nodup_cons] at hpk
    rcases List.mem_cons.mp hr with rfl | hr'
    · simp [List.find?_cons, hi]
    · have hne : a.id ≠ i := by
        intro ha
        exact hpk.1 (List.mem_map.mpr ⟨r, hr', by rw [hi, ha]⟩)
      simp [List.find?_cons, hne, ih hpk.2 hr']

theorem ServeHTTP_getOne (col : Collation) (authUser authPassword : String) (id : String)
    (i : Int) (form : List (String × String)) (credentials : Option (String × String))
    (body : Option Server) (db : DB) (hid : Atoi id = (i, none)) :
    ServeHTTP col authUser authPassword
        ⟨Method.GET, Path.server id, form, credentials, body⟩ db none =
      some (match db.rows.find? (fun r => decide (r.id = i)) with
        | none => (errorReply 404 "Server not found", db.record (Call.GetServer i))
        | some r => (jsonReply 200 (Payload.server ⟨i, r.name⟩),
            db.record (Call.GetServer i))) := by
  simp only [ServeHTTP, Initialize, getServerEndpoint_eq, hid]

theorem ServeHTTP_getOne_of_mem (col : Collation) (authUser authPassword : String)
    (id : String) (i : Int) (form : List (String × String))
    (credentials : Option (String × String)) (body : Option Server) (db : DB)
    (hid : Atoi id = (i, none)) (hpk : (db.rows.map Row.id).Nodup) (r : Row)
    (hr : r ∈ db.rows) (hi : r.id = i) :
    ServeHTTP col authUser authPassword
        ⟨Method.GET, Path.server id, form, credentials, body⟩ db none =
      some (jsonReply 200 (Payload.server ⟨i, r.name⟩), db.record (Call.GetServer i)) := by
  rw [ServeHTTP_getOne col authUser authPassword id i form credentials body db hid,
    find_id_of_nodup hpk hr hi]

/-- C9: for every table with distinct ids, every path id that parses to the integer
`i`, and a backend that answers: GetOne replies 404 with the JSON body
`error: Server not found` exactly when no row has id `i`; and when a row has id `i`
it replies 200 with the `Server` of id `i` and of the name stored in that row.  The
table is not changed.  Every integer of the 64-bit range is such an `i`: `Atoi` reads
it from its decimal text. -/
theorem getOne_found_iff (col : Collation) (authUser authPassword : String) (id : String)
    (i : Int) (form : List (String × String)) (credentials : Option (String × String))
    (body : Option Server) (db : DB) (hid : Atoi id = (i, none))
    (hpk : (db.rows.map Row.id).Nodup) :
    (ServeHTTP col authUser authPassword
          ⟨Method.GET, Path.server id, form, credentials, body⟩ db none =
          some (errorReply 404 "Server not found", db.record (Call.GetServer i)) ↔
        ∀ r ∈ db.rows, r.id ≠ i) ∧
      (∀ r ∈ db.rows, r.id = i →
        ServeHTTP col authUser authPassword
          ⟨Method.GET, Path.server id, form, credentials, body⟩ db none =
          some (jsonReply 200 (Payload.server ⟨i, r.name⟩), db.record (Call.GetServer i))) ∧
      (db.record (Call.GetServer i)).rows = db.rows ∧
      (∀ j : Int, -(2 : Int) ^ 63 ≤ j → j < (2 : Int) ^ 63 → Atoi (Itoa j) = (j, none)) := by
  have hserve := ServeHTTP_getOne col authUser authPassword id i form credentials body db hid
  refine ⟨?_, ?_, rfl, Atoi_Itoa⟩
  · rw [hserve]
    constructor
    · intro h
      cases hf : db.rows.find? (fun r => decide (r.id = i)) with
      | none => exact find_id_none.mp hf
      | some r =>
        rw [hf] at h
        have hcode := congrArg (fun o => o.map (fun x => x.1.Code)) h
        simp [jsonReply, errorReply] at hcode
    · intro h
      rw [find_id_none.mpr h]
  · intro r hr hi
    exact ServeHTTP_getOne_of_mem col authUser authPassword id i form credentials body db
      hid hpk r hr hi

/-- C9, at the request of `TestGetNonExistentServer`: `GET /v1/servers/11` on the empty
table is answered 404. -/
theorem getOne_found_iff_witness :
    ServeHTTP binary "admin" "secret" ⟨Method.GET, Path.server "11", [], none, none⟩
        DB.empty none =
      some (errorReply 404 "Server not found", DB.empty.record (Call.GetServer 11)) :=
  (getOne_found_iff binary "admin" "secret" "11" 11 [] none none DB.empty (by decide)
    (by decide)).1.mpr (by decide)

/-! ## C10: DELETE then GET -/

/-- C10: for every table and path id, when an authenticated `DELETE /v1/servers/id` is
answered 200, the path id parses to an integer `i`, the table afterwards holds exactly
the rows of other ids, as they were and in their order, and a following
`GET /v1/servers/id` (the backend answering) is answered 404 `Server not found`,
whether or not a row of id `i` existed before. -/
theorem delete_then_get (col : Collation) (authUser authPassword : String) (id : String)
    (form form' : List (String × String)) (credentials : Option (String × String))
    (body body' : Option Server) (db db' : DB) (fault : Option DbErr)
    (reply : ResponseWriter)
    (hdel : ServeHTTP col authUser authPassword
      ⟨Method.DELETE, Path.server id, form, some (authUser, authPassword), body⟩ db fault =
      some (reply, db'))
    (hok : reply.Code = 200) :
    ∃ i : Int, Atoi id = (i, none) ∧
      db'.rows = db.rows.filter (fun r => decide (r.id ≠ i)) ∧
      (∀ r : Row, r.id ≠ i → (r ∈ db'.rows ↔ r ∈ db.rows)) ∧
      (∀ r ∈ db'.rows, r.id ≠ i) ∧
      ServeHTTP col authUser authPassword
          ⟨Method.GET, Path.server id, form', credentials, body'⟩ db' none =
        some (errorReply 404 "Server not found", db'.record (Call.GetServer i)) := by
  simp only [ServeHTTP, Initialize, basicAuth_eq, if_true, deleteServerEndpoint_eq,
    Option.some.injEq] at hdel
  rcases hA : Atoi id with ⟨i, _ | e⟩
  · rw [hA] at hdel
    cases fault with
    | some e =>
      simp only [Prod.mk.injEq] at hdel
      rw [← hdel.1] at hok
      simp [errorReply, jsonReply] at hok
    | none =>
      simp only [Prod.mk.injEq] at hdel
      have hrows : db'.rows = db.rows.filter (fun r => decide (r.id ≠ i)) := by
        rw [← hdel.2]
      have hnone : ∀ r ∈ db'.rows, r.id ≠ i := by
        intro r hr
        rw [hrows] at hr
        simpa using (List.mem_filter.mp hr).2
      refine ⟨i, rfl, hrows, ?_, hnone, ?_⟩
      · intro r hr
        rw [hrows, List.mem_filter]
        simp [hr]
      · simp only [ServeHTTP, Initialize, getServerEndpoint_eq, hA]
        rw [find_id_none.mpr hnone]
  · rw [hA] at hdel
    simp only [Prod.mk.injEq] at hdel
    rw [← hdel.1] at hok
    simp [errorReply, jsonReply] at hok

/-- C10, at the run of `TestDeleteServerWithCredentials`: with the row `Server 1` of
id 1 and a second row, `DELETE /v1/servers/1` is answered 200, the second row stays,
and `GET /v1/servers/1` is then answered 404. -/
theorem delete_then_get_witness :
    ∃ i : Int, Atoi "1" = (i, none) ∧
      (DB.mk [⟨2, "Server 2"⟩] 3 [Call.DeleteServer 1]).rows =
        (DB.mk [⟨1, "Server 1"⟩, ⟨2, "Server 2"⟩] 3 []).rows.filter
          (fun r => decide (r.id ≠ i)) ∧
      (∀ r : Row, r.id ≠ i →
        (r ∈ (DB.mk [⟨2, "Server 2"⟩] 3 [Call.DeleteServer 1]).rows ↔
          r ∈ (DB.mk [⟨1, "Server 1"⟩, ⟨2, "Server 2"⟩] 3 []).rows)) ∧
      (∀ r ∈ (DB.mk [⟨2, "Server 2"⟩] 3 [Call.DeleteServer 1]).rows, r.id ≠ i) ∧
      ServeHTTP binary "admin" "secret" ⟨Method.GET, Path.server "1", [], none, none⟩
          (DB.mk [⟨2, "Server 2"⟩] 3 [Call.DeleteServer 1]) none =
        some (errorReply 404 "Server not found",
          (DB.mk [⟨2, "Server 2"⟩] 3 [Call.DeleteServer 1]).record (Call.GetServer i)) :=
  delete_then_get binary "admin" "secret" "1" [] [] none none none
    (DB.mk [⟨1, "Server 1"⟩, ⟨2, "Server 2"⟩] 3 [])
    (DB.mk [⟨2, "Server 2"⟩] 3 [Call.DeleteServer 1]) none
    (jsonReply 200 (Payload.stringMap [("result", "success")])) (by decide) (by decide)

/-! ## The schema constraints are kept by every operation -/

theorem nameTaken_eq_false {col : Collation} {rows : List Row} {n : String} :
    nameTaken col rows n = false ↔ ∀ r ∈ rows, sortKey col r.name ≠ sortKey col n := by
  simp [nameTaken]

theorem nameTaken_eq_true {col : Collation} {rows : List Row} {n : String} :
    nameTaken col rows n = true ↔ ∃ r ∈ rows, sortKey col r.name = sortKey col n := by
  simp [nameTaken]

theorem Valid.of_rows {col : Collation} {db db' : DB} (h : Valid col db)
    (hrows : db'.rows = db.rows) (hinc : db.autoInc ≤ db'.autoInc) : Valid col db' := by
  refine ⟨?_, ?_, ?_, ?_⟩
  · rw [hrows]; exact h.primaryKey
  · rw [hrows]; exact h.uniqueName
  · intro r hr
    rw [hrows] at hr
    exact lt_of_lt_of_le (h.autoIncrement r hr) hinc
  · intro r hr
    rw [hrows] at hr
    exact h.varchar r hr

theorem Valid.empty (col : Collation) : Valid col DB.empty where
  primaryKey := List.nodup_nil
  uniqueName := List.nodup_nil
  autoIncrement := fun _ h => by cases h
  varchar := fun _ h => by cases h

theorem Valid.insert {col : Collation} {db : DB} (h : Valid col db) {n : String}
    (hfit : n.length ≤ 50) (hfresh : ∀ r ∈ db.rows, sortKey col r.name ≠ sortKey col n) :
    Valid col { db with rows := db.rows ++ [⟨db.autoInc, n⟩], autoInc := db.autoInc + 1 } := by
  refine ⟨?_, ?_, ?_, ?_⟩
  · simp only [List.map_append, List.map_cons, List.map_nil]
    refine List.Nodup.append h.primaryKey (List.nodup_singleton _) ?_
    intro a ha hb
    rw [List.mem_singleton] at hb
    obtain ⟨r, hr, rfl⟩ := List.mem_map.mp ha
    have := h.autoIncrement r hr
    omega
  · simp only [List.map_append, List.map_cons, List.map_nil]
    refine List.Nodup.append h.uniqueName (List.nodup_singleton _) ?_
    intro a ha hb
    rw [List.mem_singleton] at hb
    obtain ⟨r, hr, rfl⟩ := List.mem_map.mp ha
    exact hfresh r hr hb
  · intro r hr
    rcases List.mem_append.mp hr with hr | hr
    · have := h.autoIncrement r hr
      show r.id < db.autoInc + 1
      omega
    · rw [List.mem_singleton] at hr
      subst hr
      show db.autoInc < db.autoInc + 1
      omega
  · intro r hr
    rcases List.mem_append.mp hr with hr | hr
    · exact h.varchar r hr
    · rw [List.mem_singleton] at hr
      subst hr
      exact hfit

theorem renameRow_ids (i : Int) (n : String) (rows : List Row) :
    (renameRow i n rows).map Row.id = rows.map Row.id := by
  unfold renameRow
  rw [List.map_map]
  apply List.map_congr_left
  intro r _
  by_cases h : r.id = i <;> simp [h]

theorem renameRow_of_absent (i : Int) (n : String) (rows : List Row)
    (h : ∀ r ∈ rows, r.id ≠ i) : renameRow i n rows = rows := by
  unfold renameRow
  conv_rhs => rw [← List.map_id rows]
  apply List.map_congr_left
  intro r hr
  simp [h r hr]

theorem renameRow_keys_nodup (col : Collation) (i : Int) (n : String) (rows : List Row)
    (hpk : (rows.map Row.id).Nodup)
    (huq : (rows.map (fun r => sortKey col r.name)).Nodup)
    (hfree : ∀ r ∈ rows, r.id ≠ i → sortKey col r.name ≠ sortKey col n) :
    ((renameRow i n rows).map (fun r => sortKey col r.name)).Nodup := by
  induction rows with
  | nil => exact List.nodup_nil
  | cons a t ih =>
    rw [List.map_cons, List.nodup_cons] at hpk huq
    have hfree_t : ∀ r ∈ t, r.id ≠ i → sortKey col r.name ≠ sortKey col n :=
      fun r hr => hfree r (List.mem_cons_of_mem _ hr)
    by_cases ha : a.id = i
    · have habs : ∀ r ∈ t, r.id ≠ i := by
        intro r hr hri
        exact hpk.1 (List.mem_map.mpr ⟨r, hr, by rw [hri, ha]⟩)
      have ht : renameRow i n (a :: t) = { a with name := n } :: t := by
        have := renameRow_of_absent i n t habs
        unfold renameRow at this ⊢
        simp [ha, this]
      rw [ht, List.map_cons, List.nodup_cons]
      refine ⟨?_, huq.2⟩
      intro hmem
      obtain ⟨r, hr, hk⟩ := List.mem_map.mp hmem
      exact hfree_t r hr (habs r hr) hk
    · have ht : renameRow i n (a :: t) = a :: renameRow i n t := by
        unfold renameRow
        simp [ha]
      rw [ht, List.map_cons, List.nodup_cons]
      refine ⟨?_, ih hpk.2 huq.2 hfree_t⟩
      intro hmem
      obtain ⟨r, hr, hk⟩ := List.mem_map.mp hmem
      unfold renameRow at hr
      obtain ⟨r0, hr0, rfl⟩ := List.mem_map.mp hr
      by_cases h0 : r0.id = i
      · simp only [h0, if_true] at hk
        exact hfree a (List.mem_cons_self _ _) ha hk.symm
      · simp only [h0, if_false] at hk
        exact huq.1 (List.mem_map.mpr ⟨r0, hr0, hk⟩)

theorem Valid.rename {col : Collation} {db : DB} (h : Valid col db) {i : Int} {n : String}
    (hfit : n.length ≤ 50)
    (hfree : ∀ r ∈ db.rows, r.id ≠ i → sortKey col r.name ≠ sortKey col n) :
    Valid col { db with rows := renameRow i n db.rows } := by
  refine ⟨?_, ?_, ?_, ?_⟩
  · show ((renameRow i n db.rows).map Row.id).Nodup
    rw [renameRow_ids]
    exact h.primaryKey
  · exact renameRow_keys_nodup col i n db.rows h.primaryKey h.uniqueName hfree
  · intro r hr
    have hr' : r ∈ renameRow i n db.rows := hr
    unfold renameRow at hr'
    obtain ⟨r0, hr0, rfl⟩ := List.mem_map.mp hr'
    have := h.autoIncrement r0 hr0
    by_cases h0 : r0.id = i <;> simpa [h0] using this
  · intro r hr
    have hr' : r ∈ renameRow i n db.rows := hr
    unfold renameRow at hr'
    obtain ⟨r0, hr0, rfl⟩ := List.mem_map.mp hr'
    by_cases h0 : r0.id = i
    · simpa [h0] using hfit
    · simpa [h0] using h.varchar r0 hr0

theorem Valid.delete {col : Collation} {db : DB} (h : Valid col db) (i : Int) :
    Valid col { db with rows := db.rows.filter (fun r => decide (r.id ≠ i)) } := by
  refine ⟨?_, ?_, ?_, ?_⟩
  · exact (List.Nodup.sublist
      (List.Sublist.map _ (List.filter_sublist db.rows)) h.primaryKey)
  · exact (List.Nodup.sublist
      (List.Sublist.map _ (List.filter_sublist db.rows)) h.uniqueName)
  · intro r hr
    exact h.autoIncrement r (List.mem_filter.mp hr).1
  · intro r hr
    exact h.varchar r (List.mem_filter.mp hr).1

theorem Valid.record {col : Collation} {db : DB} (h : Valid col db) (c : Call) :
    Valid col (db.record c) :=
  h.of_rows rfl (le_refl _)

theorem columnValue_length (n : String) : (columnValue n).length ≤ 50 := by
  unfold columnValue
  by_cases h : n.length ≤ 50
  · rw [if_pos h]; exact h
  · rw [if_neg h]
    show (n.data.take 50).length ≤ 50
    rw [List.length_take]
    exact Nat.min_le_left _ _

theorem columnValue_of_le {n : String} (h : n.length ≤ 50) : columnValue n = n := by
  unfold columnValue
  rw [if_pos h]

theorem fitsColumn_of_le {n : String} (h : n.length ≤ 50) : ¬ fitsColumn n = false := by
  simp [fitsColumn, h]

theorem GetServer_valid (col : Collation) (s : Server) {db : DB} (fault : Option DbErr)
    (h : Valid col db) : Valid col (GetServer s db fault).2 := by
  unfold GetServer
  cases fault with
  | some e => exact h.record _
  | none =>
    simp only []
    split <;> exact h.record _

theorem CreateServer_valid {col : Collation} (s : Server) {db : DB} (fault : Option DbErr)
    (h : Valid col db) : Valid col (CreateServer col s db fault).2 := by
  unfold CreateServer
  cases fault with
  | some e => exact h.record _
  | none =>
    simp only []
    by_cases hfit : fitsColumn s.Name = false
    · rw [if_pos hfit]; exact h.record _
    · rw [if_neg hfit]
      by_cases htaken : nameTaken col (db.record (Call.CreateServer s.Name)).rows
          (columnValue s.Name) = true
      · rw [if_pos htaken]
        exact @Valid.of_rows col db _ h rfl (by show db.autoInc ≤ db.autoInc + 1; omega)
      · rw [if_neg htaken]
        refine (h.record (Call.CreateServer s.Name)).insert ?_ ?_
        · exact columnValue_length s.Name
        · exact nameTaken_eq_false.mp (by simpa using htaken)

theorem UpdateServer_valid {col : Collation} (s : Server) {db : DB} (fault : Option DbErr)
    (h : Valid col db) : Valid col (UpdateServer col s db fault).2 := by
  unfold UpdateServer
  cases fault with
  | some e => exact h.record _
  | none =>
    simp only []
    split
    · exact h.record _
    · split
      · exact h.record _
      · rename_i hfit
        split
        · exact h.record _
        · rename_i htaken
          refine (h.record (Call.UpdateServer s.ID s.Name)).rename ?_ ?_
          · exact columnValue_length s.Name
          · intro r hr hne
            have := nameTaken_eq_false.mp (by simpa using htaken) r
              (List.mem_filter.mpr ⟨hr, by simpa using hne⟩)
            exact this

theorem DeleteServer_valid (col : Collation) (s : Server) {db : DB} (fault : Option DbErr)
    (h : Valid col db) : Valid col (DeleteServer s db fault).2 := by
  unfold DeleteServer
  cases fault with
  | some e => exact h.record _
  | none => exact (h.record (Call.DeleteServer s.ID)).delete s.ID

theorem getServerEndpoint_valid {col : Collation} (w : ResponseWriter) (req : Request)
    (ps : Params) {db : DB} (fault : Option DbErr) (h : Valid col db) :
    Valid col (getServerEndpoint w req ps db fault).2 := by
  unfold getServerEndpoint
  split
  · exact h
  · rename_i id _
    have hv := GetServer_valid col ⟨id, ""⟩ fault h
    split
    · rename_i heq
      rw [heq] at hv
      split <;> exact hv
    · rename_i heq
      rw [heq] at hv
      exact hv

theorem createServerEndpoint_valid {col : Collation} (w : ResponseWriter) (req : Request)
    (ps : Params) {db : DB} (fault : Option DbErr) (h : Valid col db) :
    Valid col (createServerEndpoint col w req ps db fault).2 := by
  unfold createServerEndpoint
  split
  · exact h
  · rename_i s _
    have hv := CreateServer_valid s fault h
    split
    · rename_i heq
      rw [heq] at hv
      split
      · split <;> exact hv
      · exact hv
    · rename_i heq
      rw [heq] at hv
      exact hv

theorem modifyServerEndpoint_valid {col : Collation} (w : ResponseWriter) (req : Request)
    (ps : Params) {db : DB} (fault : Option DbErr) (h : Valid col db) :
    Valid col (modifyServerEndpoint col w req ps db fault).2 := by
  unfold modifyServerEndpoint
  split
  · exact h
  · split
    · exact h
    · rename_i _ id _ _ s _
      have hv := UpdateServer_valid { s with ID := id } fault h
      simp only []
      split
      · rename_i heq
        rw [heq] at hv
        exact hv
      · rename_i heq
        rw [heq] at hv
        exact hv

theorem deleteServerEndpoint_valid {col : Collation} (w : ResponseWriter) (req : Request)
    (ps : Params) {db : DB} (fault : Option DbErr) (h : Valid col db) :
    Valid col (deleteServerEndpoint w req ps db fault).2 := by
  unfold deleteServerEndpoint
  split
  · exact h
  · rename_i id _
    have hv := DeleteServer_valid col ⟨id, ""⟩ fault h
    split
    · rename_i heq
      rw [heq] at hv
      exact hv
    · rename_i heq
      rw [heq] at hv
      exact hv

theorem basicAuth_valid {col : Collation} (h : Handle) (u p : String)
    (hh : ∀ w req ps db fault, Valid col db → Valid col (h w req ps db fault).2)
    (w : ResponseWriter) (req : Request) (ps : Params) {db : DB} (fault : Option DbErr)
    (hv : Valid col db) : Valid col (basicAuth h u p w req ps db fault).2 := by
  rw [basicAuth_eq]
  split
  · exact hh w req ps db fault hv
  · exact hv

theorem ServeHTTP_valid {col : Collation} {authUser authPassword : String} {req : Request}
    {db db' : DB} {fault : Option DbErr} {reply : ResponseWriter}
    (hs : ServeHTTP col authUser authPassword req db fault = some (reply, db'))
    (hv : Valid col db) : Valid col db' := by
  unfold ServeHTTP at hs
  cases hm : req.method <;> cases hp : req.path <;>
    simp only [hm, hp, Initialize, Option.some.injEq, reduceCtorEq] at hs
  all_goals
    have hdb := congrArg Prod.snd hs
    simp only at hdb
    rw [← hdb]
  · rw [getServersEndpoint_db]; exact hv.record _
  · exact getServerEndpoint_valid _ _ _ _ hv
  · exact basicAuth_valid _ _ _ (fun w req ps db fault h =>
      createServerEndpoint_valid w req ps fault h) _ _ _ _ hv
  · rw [searchServersEndpoint_db]; exact hv.record _
  · exact basicAuth_valid _ _ _ (fun w req ps db fault h =>
      modifyServerEndpoint_valid w req ps fault h) _ _ _ _ hv
  · exact basicAuth_valid _ _ _ (fun w req ps db fault h =>
      modifyServerEndpoint_valid w req ps fault h) _ _ _ _ hv
  · exact basicAuth_valid _ _ _ (fun w req ps db fault h =>
      deleteServerEndpoint_valid w req ps fault h) _ _ _ _ hv

theorem run_valid (col : Collation) (authUser authPassword : String)
    (steps : List (Request × Option DbErr)) (db : DB) (hv : Valid col db) :
    Valid col (run col authUser authPassword steps db) := by
  induction steps generalizing db with
  | nil => exact hv
  | cons a rest ih =>
    obtain ⟨req, fault⟩ := a
    unfold run
    split
    · rename_i heq
      exact ih _ (ServeHTTP_valid heq hv)
    · exact ih _ hv

/-! ## Create and Modify on a fresh recorder -/

theorem createServerEndpoint_eq (col : Collation) (req : Request) (ps : Params) (db : DB)
    (s : Server) (hbody : req.body = some s) :
    createServerEndpoint col NewRecorder req ps db none =
      if fitsColumn s.Name = false then
        (errorReply 500 errDataTooLong.Error, db.record (Call.CreateServer s.Name))
      else if nameTaken col db.rows (columnValue s.Name) = true then
        (errorReply 409 (errDuplicate (columnValue s.Name)).Error,
          { db.record (Call.CreateServer s.Name) with autoInc := db.autoInc + 1 })
      else
        (jsonReply 201 (Payload.server ⟨db.autoInc, s.Name⟩),
          { db.record (Call.CreateServer s.Name) with
            rows := db.rows ++ [⟨db.autoInc, columnValue s.Name⟩],
            autoInc := db.autoInc + 1 }) := by
  unfold createServerEndpoint
  rw [hbody]
  simp only [CreateServer]
  by_cases hfit : fitsColumn s.Name = false
  · rw [if_pos hfit, if_pos hfit]; rfl
  · rw [if_neg hfit, if_neg hfit]
    by_cases htaken : nameTaken col db.rows (columnValue s.Name) = true
    · have htaken' : nameTaken col (db.record (Call.CreateServer s.Name)).rows
          (columnValue s.Name) = true := htaken
      rw [if_pos htaken, if_pos htaken']; rfl
    · have htaken' : ¬ nameTaken col (db.record (Call.CreateServer s.Name)).rows
          (columnValue s.Name) = true := htaken
      rw [if_neg htaken, if_neg htaken']; rfl

theorem createServerEndpoint_fault (col : Collation) (w : ResponseWriter) (req : Request)
    (ps : Params) (db : DB) (e : DbErr) :
    ((createServerEndpoint col w req ps db (some e)).1.Code = 400 ∨
        (createServerEndpoint col w req ps db (some e)).1.Code = 409 ∨
        (createServerEndpoint col w req ps db (some e)).1.Code = 500) ∧
      (req.body ≠ none → (createServerEndpoint col w req ps db (some e)).1.Code ≠ 400) ∧
      (createServerEndpoint col w req ps db (some e)).2.rows = db.rows := by
  unfold createServerEndpoint
  cases req.body with
  | none => exact ⟨Or.inl rfl, fun h => absurd rfl h, rfl⟩
  | some s =>
    simp only [CreateServer]
    cases e with
    | ErrNoRows =>
      exact ⟨Or.inr (Or.inr rfl), fun _ => by show (500 : Nat) ≠ 400; decide, rfl⟩
    | other m =>
      exact ⟨Or.inr (Or.inr rfl), fun _ => by show (500 : Nat) ≠ 400; decide, rfl⟩
    | MySQLError n m =>
      simp only []
      by_cases hn : n = 1062
      · rw [if_pos hn]
        exact ⟨Or.inr (Or.inl rfl), fun _ => by show (409 : Nat) ≠ 400; decide, rfl⟩
      · rw [if_neg hn]
        exact ⟨Or.inr (Or.inr rfl), fun _ => by show (500 : Nat) ≠ 400; decide, rfl⟩

theorem modifyServerEndpoint_eq (col : Collation) (req : Request) (id : String) (i : Int)
    (db : DB) (b : Server) (hid : Atoi id = (i, none)) (hbody : req.body = some b) :
    modifyServerEndpoint col NewRecorder req (Path.server id).params db none =
      if db.rows.all (fun r => decide (r.id ≠ i)) = true then
        (jsonReply 200 (Payload.server ⟨i, b.Name⟩), db.record (Call.UpdateServer i b.Name))
      else if fitsColumn b.Name = false then
        (errorReply 500 errDataTooLong.Error, db.record (Call.UpdateServer i b.Name))
      else if nameTaken col (db.rows.filter (fun r => decide (r.id ≠ i)))
          (columnValue b.Name) = true then
        (errorReply 500 (errDuplicate (columnValue b.Name)).Error,
          db.record (Call.UpdateServer i b.Name))
      else
        (jsonReply 200 (Payload.server ⟨i, b.Name⟩),
          { db.record (Call.UpdateServer i b.Name) with
            rows := renameRow i (columnValue b.Name) db.rows }) := by
  unfold modifyServerEndpoint
  rw [ByName_id, hid]
  simp only [hbody, UpdateServer]
  have hrows : (db.record (Call.UpdateServer i b.Name)).rows = db.rows := rfl
  rw [hrows]
  by_cases h1 : db.rows.all (fun r => decide (r.id ≠ i)) = true
  · rw [if_pos h1, if_pos h1]; rfl
  · rw [if_neg h1, if_neg h1]
    by_cases h2 : fitsColumn b.Name = false
    · rw [if_pos h2, if_pos h2]; rfl
    · rw [if_neg h2, if_neg h2]
      by_cases h3 : nameTaken col (db.rows.filter (fun r => decide (r.id ≠ i)))
          (columnValue b.Name) = true
      · rw [if_pos h3, if_pos h3]; rfl
      · rw [if_neg h3, if_neg h3]; rfl

theorem modifyServerEndpoint_fault (col : Collation) (req : Request) (id : String) (i : Int)
    (db : DB) (b : Server) (e : DbErr) (hid : Atoi id = (i, none))
    (hbody : req.body = some b) :
    modifyServerEndpoint col NewRecorder req (Path.server id).params db (some e) =
      (errorReply 500 e.Error, db.record (Call.UpdateServer i b.Name)) := by
  unfold modifyServerEndpoint
  rw [ByName_id, hid]
  simp only [hbody, UpdateServer]
  rfl

/-! ## C3: creating the same name twice -/

/-- C3 (as stated, refuted): from the empty table, two authenticated Creates of a name
of 51 letters are both answered 500 (the column is `VARCHAR(50)`, error 1406),
not 201 and 409, and the table holds no row afterwards. -/
theorem create_twice_long_name_counterexample :
    (ServeHTTP binary "admin" "secret"
        ⟨Method.POST, Path.servers, [], some ("admin", "secret"),
          some ⟨0, String.mk (List.replicate 51 'a')⟩⟩ DB.empty none).bind
      (fun r => (ServeHTTP binary "admin" "secret"
        ⟨Method.POST, Path.servers, [], some ("admin", "secret"),
          some ⟨0, String.mk (List.replicate 51 'a')⟩⟩ r.2 none).map
        (fun r' => (r.1.Code, r'.1.Code, r'.2.rows))) = some (500, 500, []) := by
  decide

/-- C3 (amended): for every name `n` of at most 50 characters and every table in which
no row has a name equal to `n` in the collation (the empty table for one), two
authenticated Creates of `n` in a row, the backend answering, give 201 with the
created `Server` (the next id of the table, the name `n`) and then 409 with the
duplicate error of the store as the error message; afterwards the table is the
old one with the one new row, and exactly one row is named `n`. -/
theorem create_twice (col : Collation) (authUser authPassword : String) (n : String)
    (k : Int) (form form' : List (String × String)) (db : DB)
    (hfit : n.length ≤ 50)
    (hfresh : ∀ r ∈ db.rows, sortKey col r.name ≠ sortKey col n) :
    ∃ db1 db2 : DB,
      ServeHTTP col authUser authPassword
          ⟨Method.POST, Path.servers, form, some (authUser, authPassword), some ⟨k, n⟩⟩
          db none = some (jsonReply 201 (Payload.server ⟨db.autoInc, n⟩), db1) ∧
        ServeHTTP col authUser authPassword
          ⟨Method.POST, Path.servers, form', some (authUser, authPassword), some ⟨k, n⟩⟩
          db1 none = some (errorReply 409 (errDuplicate n).Error, db2) ∧
        db2.rows = db.rows ++ [⟨db.autoInc, n⟩] ∧
        (db2.rows.filter (fun r => decide (r.name = n))).length = 1 := by
  have hfits : ¬ fitsColumn n = false := fitsColumn_of_le hfit
  have hcv : columnValue n = n := columnValue_of_le hfit
  have hnot : ¬ nameTaken col db.rows n = true := by
    rw [Bool.not_eq_true]; exact nameTaken_eq_false.mpr hfresh
  have htaken : nameTaken col (db.rows ++ [⟨db.autoInc, n⟩]) n = true :=
    nameTaken_eq_true.mpr ⟨⟨db.autoInc, n⟩, by simp, rfl⟩
  refine ⟨{ db.record (Call.CreateServer n) with
      rows := db.rows ++ [⟨db.autoInc, n⟩], autoInc := db.autoInc + 1 },
    { calls := (db.calls ++ [Call.CreateServer n]) ++ [Call.CreateServer n],
      rows := db.rows ++ [⟨db.autoInc, n⟩], autoInc := db.autoInc + 1 + 1 }, ?_, ?_, rfl, ?_⟩
  · simp only [ServeHTTP, Initialize, basicAuth_eq, if_true]
    rw [createServerEndpoint_eq col _ _ db ⟨k, n⟩ rfl]
    simp only [hcv, if_neg hfits, if_neg hnot]
  · simp only [ServeHTTP, Initialize, basicAuth_eq, if_true]
    rw [createServerEndpoint_eq col _ _ _ ⟨k, n⟩ rfl]
    simp only [hcv, if_neg hfits, if_pos htaken]
    rfl
  · show ((db.rows ++ [(⟨db.autoInc, n⟩ : Row)]).filter
      (fun r : Row => decide (r.name = n))).length = 1
    have hnone : db.rows.filter (fun r => decide (r.name = n)) = [] := by
      rw [List.filter_eq_nil_iff]
      intro r hr hn
      exact hfresh r hr (by rw [of_decide_eq_true hn])
    rw [List.filter_append, hnone]
    simp

/-- C3, at the run of `TestCreateDuplicateServerWithCredentials`: the empty table and
the name `test server`. -/
theorem create_twice_witness :
    ∃ db1 db2 : DB,
      ServeHTTP binary "admin" "secret"
          ⟨Method.POST, Path.servers, [], some ("admin", "secret"), some ⟨0, "test server"⟩⟩
          DB.empty none =
          some (jsonReply 201 (Payload.server ⟨DB.empty.autoInc, "test server"⟩), db1) ∧
        ServeHTTP binary "admin" "secret"
          ⟨Method.POST, Path.servers, [], some ("admin", "secret"), some ⟨0, "test server"⟩⟩
          db1 none = some (errorReply 409 (errDuplicate "test server").Error, db2) ∧
        db2.rows = DB.empty.rows ++ [⟨DB.empty.autoInc, "test server"⟩] ∧
        (db2.rows.filter (fun r => decide (r.name = "test server"))).length = 1 :=
  create_twice binary "admin" "secret" "test server" 0 [] [] DB.empty (by decide)
    (by decide)

/-! ## C4: Create then GetOne -/

/-- C4 (as stated, refuted): on the empty table an authenticated Create of the name of 50
letters `a` and one space is answered 201 with that name of 51 characters (the handler
replies with the name submitted), and the following `GET /v1/servers/1` is answered
200 with the name the column stored, the 50 letters without the space. -/
theorem create_then_get_trailing_space_counterexample :
    (ServeHTTP binary "admin" "secret"
        ⟨Method.POST, Path.servers, [], some ("admin", "secret"),
          some ⟨0, String.mk (List.replicate 50 'a' ++ [' '])⟩⟩ DB.empty none).bind
      (fun r => (ServeHTTP binary "admin" "secret"
        ⟨Method.GET, Path.server "1", [], none, none⟩ r.2 none).map
        (fun r' => (r.1.Code, r.1.Body, r'.1.Code, r'.1.Body))) =
      some (201, [Chunk.json (Payload.server ⟨1, String.mk (List.replicate 50 'a' ++ [' '])⟩)],
        200, [Chunk.json (Payload.server ⟨1, String.mk (List.replicate 50 'a')⟩)]) ∧
      String.mk (List.replicate 50 'a') ≠ String.mk (List.replicate 50 'a' ++ [' ']) := by
  decide

/-- C4 (amended): for every table that satisfies the schema and every name `n`, when an
authenticated Create of `n` is answered 201, the reply is the `Server` of the next id
`i` of the table and of the name `n` as submitted, and a following GetOne on a path id
that reads `i` (the decimal text of `i` is one, the backend answering) is answered 200
with the `Server` of id `i` and of the name the column stored: `n` itself when `n` has
at most 50 characters, and the first 50 characters of `n` when it is longer. -/
theorem create_then_get (col : Collation) (authUser authPassword : String) (n : String)
    (k : Int) (form form' : List (String × String)) (credentials : Option (String × String))
    (body' : Option Server) (db db1 : DB) (fault : Option DbErr) (reply : ResponseWriter)
    (hvalid : Valid col db)
    (hcreate : ServeHTTP col authUser authPassword
      ⟨Method.POST, Path.servers, form, some (authUser, authPassword), some ⟨k, n⟩⟩
      db fault = some (reply, db1))
    (hcode : reply.Code = 201) :
    reply = jsonReply 201 (Payload.server ⟨db.autoInc, n⟩) ∧
      (∀ id : String, Atoi id = (db.autoInc, none) →
        ServeHTTP col authUser authPassword
            ⟨Method.GET, Path.server id, form', credentials, body'⟩ db1 none =
          some (jsonReply 200 (Payload.server ⟨db.autoInc, columnValue n⟩),
            db1.record (Call.GetServer db.autoInc))) ∧
      (-(2 : Int) ^ 63 ≤ db.autoInc → db.autoInc < (2 : Int) ^ 63 →
        ServeHTTP col authUser authPassword
            ⟨Method.GET, Path.server (Itoa db.autoInc), form', credentials, body'⟩ db1 none =
          some (jsonReply 200 (Payload.server ⟨db.autoInc, columnValue n⟩),
            db1.record (Call.GetServer db.autoInc))) ∧
      (n.length ≤ 50 → columnValue n = n) ∧
      (50 < n.length → columnValue n = String.mk (n.data.take 50)) := by
  simp only [ServeHTTP, Initialize, basicAuth_eq, if_true, Option.some.injEq] at hcreate
  have hcv1 : n.length ≤ 50 → columnValue n = n := fun h => columnValue_of_le h
  have hcv2 : 50 < n.length → columnValue n = String.mk (n.data.take 50) := by
    intro h
    unfold columnValue
    rw [if_neg (by omega)]
  cases fault with
  | some e =>
    have h := (createServerEndpoint_fault col NewRecorder
      ⟨Method.POST, Path.servers, form, some (authUser, authPassword), some ⟨k, n⟩⟩
      (Path.params Path.servers) db e).1
    rw [hcreate] at h
    simp only at h
    omega
  | none =>
    rw [createServerEndpoint_eq col _ _ db ⟨k, n⟩ rfl] at hcreate
    by_cases hfit : fitsColumn n = false
    · rw [if_pos hfit] at hcreate
      rw [← (Prod.mk.inj hcreate).1] at hcode
      exact absurd hcode (by decide)
    · rw [if_neg hfit] at hcreate
      by_cases htaken : nameTaken col db.rows (columnValue n) = true
      · rw [if_pos htaken] at hcreate
        rw [← (Prod.mk.inj hcreate).1] at hcode
        exact absurd hcode (by show ¬ ((409 : Nat) = 201); decide)
      · rw [if_neg htaken] at hcreate
        obtain ⟨hreply, hdb⟩ := Prod.mk.inj hcreate
        have hv1 : Valid col db1 := by
          rw [← hdb]
          refine (hvalid.record (Call.CreateServer n)).insert ?_ ?_
          · exact columnValue_length n
          · exact nameTaken_eq_false.mp (by simpa using htaken)
        have hmem : (⟨db.autoInc, columnValue n⟩ : Row) ∈ db1.rows := by
          rw [← hdb]
          exact List.mem_append.mpr (Or.inr (List.mem_singleton.mpr rfl))
        have hget : ∀ id : String, Atoi id = (db.autoInc, none) →
            ServeHTTP col authUser authPassword
                ⟨Method.GET, Path.server id, form', credentials, body'⟩ db1 none =
              some (jsonReply 200 (Payload.server ⟨db.autoInc, columnValue n⟩),
                db1.record (Call.GetServer db.autoInc)) := fun id hid =>
          ServeHTTP_getOne_of_mem col authUser authPassword id db.autoInc form'
            credentials body' db1 hid hv1.primaryKey ⟨db.autoInc, columnValue n⟩ hmem rfl
        exact ⟨hreply.symm, hget,
          fun hlo hhi => hget (Itoa db.autoInc) (Atoi_Itoa db.autoInc hlo hhi), hcv1, hcv2⟩

/-- C4, at the run of `TestCreateServerWithCredentials`: on the empty table the Create
of `test server` is answered 201 with id 1, and `GET /v1/servers/1` then returns the
`Server` of id 1 and name `test server`. -/
theorem create_then_get_witness :
    ServeHTTP binary "admin" "secret"
        ⟨Method.POST, Path.servers, [], some ("admin", "secret"), some ⟨0, "test server"⟩⟩
        DB.empty none =
        some (jsonReply 201 (Payload.server ⟨1, "test server"⟩),
          DB.mk [⟨1, "test server"⟩] 2 [Call.CreateServer "test server"]) ∧
      ServeHTTP binary "admin" "secret" ⟨Method.GET, Path.server "1", [], none, none⟩
          (DB.mk [⟨1, "test server"⟩] 2 [Call.CreateServer "test server"]) none =
        some (jsonReply 200 (Payload.server ⟨1, "test server"⟩),
          DB.mk [⟨1, "test server"⟩] 2
            [Call.CreateServer "test server", Call.GetServer 1]) := by
  have h := create_then_get binary "admin" "secret" "test server" 0 [] [] none none DB.empty
    (DB.mk [⟨1, "test server"⟩] 2 [Call.CreateServer "test server"]) none
    (jsonReply 201 (Payload.server ⟨1, "test server"⟩)) (Valid.empty binary) (by decide)
    (by decide)
  refine ⟨by decide, ?_⟩
  rw [h.2.1 "1" (by decide), h.2.2.2.1 (by decide)]
  rfl

/-! ## C5: uniqueness of name -/

theorem names_nodup_of_valid {col : Collation} {db : DB} (h : Valid col db) :
    (db.rows.map Row.name).Nodup := by
  have hk : ((db.rows.map Row.name).map (sortKey col)).Nodup := by
    rw [List.map_map]; exact h.uniqueName
  exact List.Nodup.of_map _ hk

/-- C5: in every table reached from the empty one by any sequence of requests to the
service (Creates, Modifies, Deletes and reads, with the backend answering or failing
at each), the schema constraints hold, so no two rows have the same name and no two
have the same id.  In such a table an authenticated Create of a name that a row
already has is refused (409 when the backend answers, 500 when it fails) and an
authenticated Modify (PUT or PATCH) of an existing row to the name of another row is
refused with 500; both leave the rows as they were. -/
theorem unique_name_invariant (col : Collation) (authUser authPassword : String)
    (steps : List (Request × Option DbErr)) (db : DB)
    (hreach : db = run col authUser authPassword steps DB.empty) :
    Valid col db ∧ (db.rows.map Row.name).Nodup ∧ (db.rows.map Row.id).Nodup ∧
      (∀ (form : List (String × String)) (b : Server) (fault : Option DbErr),
        (∃ r ∈ db.rows, r.name = b.Name) →
        ∃ (reply : ResponseWriter) (db' : DB),
          ServeHTTP col authUser authPassword
              ⟨Method.POST, Path.servers, form, some (authUser, authPassword), some b⟩
              db fault = some (reply, db') ∧
            (reply.Code = 409 ∨ reply.Code = 500) ∧
            (fault = none → reply = errorReply 409 (errDuplicate b.Name).Error) ∧
            db'.rows = db.rows) ∧
      (∀ (m : Method) (id : String) (i : Int) (form : List (String × String)) (b : Server)
          (fault : Option DbErr),
        m = Method.PUT ∨ m = Method.PATCH → Atoi id = (i, none) →
        (∃ r ∈ db.rows, r.id = i) → (∃ r ∈ db.rows, r.id ≠ i ∧ r.name = b.Name) →
        ∃ (reply : ResponseWriter) (db' : DB),
          ServeHTTP col authUser authPassword
              ⟨m, Path.server id, form, some (authUser, authPassword), some b⟩
              db fault = some (reply, db') ∧
            reply.Code = 500 ∧ db'.rows = db.rows) := by
  have hv : Valid col db := by
    rw [hreach]; exact run_valid col authUser authPassword steps DB.empty (Valid.empty col)
  refine ⟨hv, names_nodup_of_valid hv, hv.primaryKey, ?_, ?_⟩
  · intro form b fault hex
    obtain ⟨r, hr, hname⟩ := hex
    have hserve : ServeHTTP col authUser authPassword
        ⟨Method.POST, Path.servers, form, some (authUser, authPassword), some b⟩ db fault =
        some (createServerEndpoint col NewRecorder
          ⟨Method.POST, Path.servers, form, some (authUser, authPassword), some b⟩
          (Path.params Path.servers) db fault) := by
      simp only [ServeHTTP, Initialize, basicAuth_eq, if_true]
    cases fault with
    | some e =>
      have hf := createServerEndpoint_fault col NewRecorder
        ⟨Method.POST, Path.servers, form, some (authUser, authPassword), some b⟩
        (Path.params Path.servers) db e
      refine ⟨_, _, hserve, ?_, ?_, hf.2.2⟩
      · have h400 := hf.2.1 (by simp)
        rcases hf.1 with h | h | h
        · exact absurd h h400
        · exact Or.inl h
        · exact Or.inr h
      · intro h; cases h
    | none =>
      have hlen : b.Name.length ≤ 50 := by
        have := hv.varchar r hr
        rw [hname] at this
        exact this
      have hfits : ¬ fitsColumn b.Name = false := fitsColumn_of_le hlen
      have hcv : columnValue b.Name = b.Name := columnValue_of_le hlen
      have htaken : nameTaken col db.rows b.Name = true :=
        nameTaken_eq_true.mpr ⟨r, hr, by rw [hname]⟩
      rw [createServerEndpoint_eq col _ _ db b rfl] at hserve
      simp only [hcv, if_neg hfits, if_pos htaken] at hserve
      exact ⟨_, _, hserve, Or.inl rfl, fun _ => rfl, rfl⟩
  · intro m id i form b fault hm hid hrow hother
    obtain ⟨r, hr, hri⟩ := hrow
    obtain ⟨r', hr', hne, hname⟩ := hother
    have hserve : ServeHTTP col authUser authPassword
        ⟨m, Path.server id, form, some (authUser, authPassword), some b⟩ db fault =
        some (modifyServerEndpoint col NewRecorder
          ⟨m, Path.server id, form, some (authUser, authPassword), some b⟩
          (Path.params (Path.server id)) db fault) := by
      rcases hm with rfl | rfl <;> simp only [ServeHTTP, Initialize, basicAuth_eq, if_true]
    cases fault with
    | some e =>
      rw [modifyServerEndpoint_fault col _ id i db b e hid rfl] at hserve
      exact ⟨_, _, hserve, rfl, rfl⟩
    | none =>
      have h1 : ¬ db.rows.all (fun r => decide (r.id ≠ i)) = true := by
        intro hall
        have := List.all_eq_true.mp hall r hr
        simp [hri] at this
      have h3 : nameTaken col (db.rows.filter (fun r => decide (r.id ≠ i))) b.Name = true :=
        nameTaken_eq_true.mpr
          ⟨r', List.mem_filter.mpr ⟨hr', by simpa using hne⟩, by rw [hname]⟩
      have hcv : columnValue b.Name = b.Name := by
        have := hv.varchar r' hr'
        rw [hname] at this
        exact columnValue_of_le this
      rw [modifyServerEndpoint_eq col _ id i db b hid rfl, if_neg h1] at hserve
      by_cases h2 : fitsColumn b.Name = false
      · rw [if_pos h2] at hserve
        exact ⟨_, _, hserve, rfl, rfl⟩
      · rw [if_neg h2] at hserve
        simp only [hcv, if_pos h3] at hserve
        exact ⟨_, _, hserve, rfl, rfl⟩

/-- C5, at a concrete run: after two Creates of `test server`, a Create of `Server 1`
and a PUT that tries to rename row 2 to `test server`, the names in the table are
distinct. -/
theorem unique_name_invariant_witness :
    ((run binary "admin" "secret"
      [(⟨Method.POST, Path.servers, [], some ("admin", "secret"), some ⟨0, "test server"⟩⟩,
          none),
        (⟨Method.POST, Path.servers, [], some ("admin", "secret"), some ⟨0, "test server"⟩⟩,
          none),
        (⟨Method.POST, Path.servers, [], some ("admin", "secret"), some ⟨0, "Server 1"⟩⟩,
          none),
        (⟨Method.PUT, Path.server "3", [], some ("admin", "secret"), some ⟨0, "test server"⟩⟩,
          none)]
      DB.empty).rows.map Row.name).Nodup :=
  (unique_name_invariant binary "admin" "secret" _ _ rfl).2.1

/-! ## ORDER BY name: the order and the sort -/

theorem lexLe_total (a b : List Nat) : lexLe a b = true ∨ lexLe b a = true := by
  induction a generalizing b with
  | nil => exact Or.inl rfl
  | cons x xs ih =>
    cases b with
    | nil => exact Or.inr rfl
    | cons y ys =>
      simp only [lexLe, Bool.or_eq_true, Bool.and_eq_true, decide_eq_true_eq, beq_iff_eq]
      rcases Nat.lt_trichotomy x y with h | h | h
      · exact Or.inl (Or.inl h)
      · rcases ih ys with h' | h'
        · exact Or.inl (Or.inr ⟨h, h'⟩)
        · exact Or.inr (Or.inr ⟨h.symm, h'⟩)
      · exact Or.inr (Or.inl h)

theorem lexLe_trans (a b c : List Nat) (hab : lexLe a b = true) (hbc : lexLe b c = true) :
    lexLe a c = true := by
  induction a generalizing b c with
  | nil => rfl
  | cons x xs ih =>
    cases b with
    | nil => simp [lexLe] at hab
    | cons y ys =>
      cases c with
      | nil => simp [lexLe] at hbc
      | cons z zs =>
        simp only [lexLe, Bool.or_eq_true, Bool.and_eq_true, decide_eq_true_eq,
          beq_iff_eq] at hab hbc ⊢
        rcases hab with h1 | ⟨h1, h1'⟩
        · rcases hbc with h2 | ⟨h2, _⟩
          · exact Or.inl (lt_trans h1 h2)
          · exact Or.inl (h2 ▸ h1)
        · rcases hbc with h2 | ⟨h2, h2'⟩
          · exact Or.inl (h1 ▸ h2)
          · exact Or.inr ⟨h1.trans h2, ih ys zs h1' h2'⟩

theorem lexLe_antisymm (a b : List Nat) (hab : lexLe a b = true) (hba : lexLe b a = true) :
    a = b := by
  induction a generalizing b with
  | nil =>
    cases b with
    | nil => rfl
    | cons y ys => simp [lexLe] at hba
  | cons x xs ih =>
    cases b with
    | nil => simp [lexLe] at hab
    | cons y ys =>
      simp only [lexLe, Bool.or_eq_true, Bool.and_eq_true, decide_eq_true_eq,
        beq_iff_eq] at hab hba
      rcases hab with h1 | ⟨h1, h1'⟩
      · rcases hba with h2 | ⟨h2, _⟩
        · omega
        · omega
      · rcases hba with h2 | ⟨_, h2'⟩
        · omega
        · rw [h1, ih ys h1' h2']

theorem nameLe_isTotal (col : Collation) : IsTotal Row (nameLe col) :=
  ⟨fun _ _ => lexLe_total _ _⟩

theorem nameLe_isTrans (col : Collation) : IsTrans Row (nameLe col) :=
  ⟨fun _ _ _ hab hbc => lexLe_trans _ _ _ hab hbc⟩

theorem orderByName_sorted (col : Collation) (rs : List Row) :
    (orderByName col rs).Sorted (nameLe col) :=
  haveI := nameLe_isTotal col
  haveI := nameLe_isTrans col
  List.sorted_insertionSort (nameLe col) rs

theorem orderByName_perm (col : Collation) (rs : List Row) :
    (orderByName col rs).Perm rs :=
  List.perm_insertionSort (nameLe col) rs

theorem eq_of_map_eq_of_injOn {α β : Type} (f : α → β) :
    ∀ (l₁ l₂ : List α), (∀ x ∈ l₁, ∀ y ∈ l₂, f x = f y → x = y) →
      l₁.map f = l₂.map f → l₁ = l₂
  | [], [], _, _ => rfl
  | [], _ :: _, _, h => by simp at h
  | _ :: _, [], _, h => by simp at h
  | a :: t₁, b :: t₂, hinj, h => by
    simp only [List.map_cons, List.cons.injEq] at h
    have hab : a = b := hinj a (List.mem_cons_self _ _) b (List.mem_cons_self _ _) h.1
    have ht : t₁ = t₂ := eq_of_map_eq_of_injOn f t₁ t₂
      (fun x hx y hy => hinj x (List.mem_cons_of_mem _ hx) y (List.mem_cons_of_mem _ hy)) h.2
    rw [hab, ht]

/-- With distinct names there is one name-ascending arrangement of the rows: every
sorted permutation of `rs` is the result of `ORDER BY name`. -/
theorem orderByName_unique (col : Collation) (rs ordered : List Row)
    (huq : (rs.map (fun r => sortKey col r.name)).Nodup)
    (hperm : ordered.Perm rs) (hsorted : ordered.Sorted (nameLe col)) :
    ordered = orderByName col rs := by
  have hperm' : ordered.Perm (orderByName col rs) := hperm.trans (orderByName_perm col rs).symm
  have hkeys : ordered.map (fun r => sortKey col r.name) =
      (orderByName col rs).map (fun r => sortKey col r.name) := by
    haveI : IsAntisymm (List Nat) (fun a b => lexLe a b = true) :=
      ⟨fun a b hab hba => lexLe_antisymm a b hab hba⟩
    refine List.eq_of_perm_of_sorted (r := fun a b => lexLe a b = true) (hperm'.map _) ?_ ?_
    · exact List.pairwise_map.mpr hsorted
    · exact List.pairwise_map.mpr (orderByName_sorted col rs)
  refine eq_of_map_eq_of_injOn (fun r => sortKey col r.name) _ _ ?_ hkeys
  intro x hx y hy hxy
  exact List.inj_on_of_nodup_map huq (hperm.subset hx)
    ((orderByName_perm col rs).subset hy) hxy

theorem scanRows_eq (rs : List Row) : scanRows rs = rs.map Row.toServer := by
  have h : ∀ (acc : List Server), rs.foldl (fun servers r => servers ++ [r.toServer]) acc =
      acc ++ rs.map Row.toServer := by
    induction rs with
    | nil => intro acc; simp
    | cons a t ih => intro acc; simp [ih]
  simpa [scanRows] using h []

/-! ## LIKE: the wildcards -/

theorem like_cons (col : Collation) (c : Char) (p s : List Char) :
    like col (c :: p) s =
      if c = '%' then s.tails.any (fun t => like col p t)
      else if c = '_' then
        match s with
        | [] => false
        | _ :: t => like col p t
      else if c = '\\' then
        match p with
        | [] =>
          match s with
          | [] => false
          | d :: t => col c == col d && t.isEmpty
        | x :: q =>
          match s with
          | [] => false
          | d :: t => col x == col d && like col q t
      else
        match s with
        | [] => false
        | d :: t => col c == col d && like col p t := by
  conv_lhs => rw [like.eq_def]

theorem like_nil (col : Collation) (s : List Char) : like col [] s = true ↔ s = [] := by
  rw [like.eq_def]
  cases s <;> simp

theorem like_percent (col : Collation) (q s : List Char) :
    like col ('%' :: q) s = true ↔ ∃ a b, s = a ++ b ∧ like col q b = true := by
  rw [like_cons, if_pos rfl, List.any_eq_true]
  constructor
  · rintro ⟨t, ht, hl⟩
    obtain ⟨a, ha⟩ := (List.mem_tails t s).mp ht
    exact ⟨a, t, ha.symm, hl⟩
  · rintro ⟨a, b, hs, hl⟩
    exact ⟨b, (List.mem_tails b s).mpr ⟨a, hs.symm⟩, hl⟩

theorem like_underscore (col : Collation) (q s : List Char) :
    like col ('_' :: q) s = true ↔ ∃ c t, s = c :: t ∧ like col q t = true := by
  rw [like_cons, if_neg (by decide), if_pos rfl]
  cases s with
  | nil => simp
  | cons c t =>
    constructor
    · intro h; exact ⟨c, t, rfl, h⟩
    · rintro ⟨c', t', heq, h⟩
      cases heq; exact h

theorem like_literal (col : Collation) (c : Char) (q s : List Char) (h1 : c ≠ '%')
    (h2 : c ≠ '_') (h3 : c ≠ '\\') :
    like col (c :: q) s = true ↔
      ∃ d t, s = d :: t ∧ col c = col d ∧ like col q t = true := by
  rw [like_cons, if_neg h1, if_neg h2, if_neg h3]
  cases s with
  | nil => simp
  | cons d t =>
    simp only [Bool.and_eq_true, beq_iff_eq]
    constructor
    · intro h; exact ⟨d, t, rfl, h.1, h.2⟩
    · rintro ⟨d', t', heq, h⟩
      cases heq; exact h

/-! ## C6 and C7: a page of the ordered result -/

theorem page_spec (col : Collation) (rs : List Row) (start count : Int)
    (huq : (rs.map (fun r => sortKey col r.name)).Nodup) (hcount : 0 ≤ count) :
    (∀ ordered : List Row, ordered.Perm rs → ordered.Sorted (nameLe col) →
        scanRows (limitOffset count start (orderByName col rs)) =
          ((ordered.drop start.toNat).take count.toNat).map Row.toServer) ∧
      ((scanRows (limitOffset count start (orderByName col rs))).length : Int) ≤ count ∧
      (scanRows (limitOffset count start (orderByName col rs))).Sorted (serverLe col) ∧
      (∀ s ∈ scanRows (limitOffset count start (orderByName col rs)),
        (⟨s.ID, s.Name⟩ : Row) ∈ rs) ∧
      ((rs.length : Int) ≤ start →
        scanRows (limitOffset count start (orderByName col rs)) = []) := by
  have hsub : List.Sublist (limitOffset count start (orderByName col rs)) (orderByName col rs) :=
    (List.take_sublist _ _).trans (List.drop_sublist _ _)
  refine ⟨?_, ?_, ?_, ?_, ?_⟩
  · intro ordered hperm hsorted
    rw [orderByName_unique col rs ordered huq hperm hsorted, scanRows_eq]
    rfl
  · rw [scanRows_eq, List.length_map]
    have h1 : (limitOffset count start (orderByName col rs)).length ≤ count.toNat := by
      unfold limitOffset
      rw [List.length_take]
      exact Nat.min_le_left _ _
    have h2 : ((count.toNat : Nat) : Int) = count := Int.toNat_of_nonneg hcount
    omega
  · rw [scanRows_eq]
    exact List.pairwise_map.mpr (List.Pairwise.sublist hsub (orderByName_sorted col rs))
  · intro s hs
    rw [scanRows_eq] at hs
    obtain ⟨r, hr, rfl⟩ := List.mem_map.mp hs
    exact (orderByName_perm col rs).subset (hsub.subset hr)
  · intro hlen
    have hl : (orderByName col rs).length ≤ start.toNat := by
      rw [(orderByName_perm col rs).length_eq]
      omega
    rw [scanRows_eq]
    unfold limitOffset
    rw [List.drop_eq_nil_of_le hl, List.take_nil, List.map_nil]

theorem getServersEndpoint_eq (col : Collation) (w : ResponseWriter) (req : Request)
    (ps : Params) (db : DB) :
    ∃ start count : Int, 0 ≤ start ∧ 1 ≤ count ∧ count ≤ 25 ∧
      getServersEndpoint col w req ps db none =
        (respondWithJSON w StatusOK (Payload.servers
            (some (scanRows (limitOffset count start (orderByName col db.rows))))),
          db.record (Call.GetServers start count)) := by
  refine ⟨if (Atoi (req.FormValue "start")).1 < 0 then 0 else (Atoi (req.FormValue "start")).1,
    if (Atoi (req.FormValue "count")).1 > 25 ∨ (Atoi (req.FormValue "count")).1 < 1 then 25
      else (Atoi (req.FormValue "count")).1, ?_, ?_, ?_, ?_⟩
  · split <;> omega
  · split <;> omega
  · split <;> omega
  · have hneg : ¬ ((if (Atoi (req.FormValue "count")).1 > 25 ∨
          (Atoi (req.FormValue "count")).1 < 1 then 25
          else (Atoi (req.FormValue "count")).1) < 0 ∨
        (if (Atoi (req.FormValue "start")).1 < 0 then 0
          else (Atoi (req.FormValue "start")).1) < 0) := by
      intro h
      rcases h with h | h
      · split at h <;> omega
      · split at h <;> omega
    simp only [getServersEndpoint, GetServers, if_neg hneg]
    rfl

/-- C6: for every table that satisfies the schema, every `start ≥ 0` and every `count`
in `[1, 25]`, `GetServers(start, count)` (the backend answering) returns a non-nil
slice `page` and no error, where `page` is, for the name-ascending arrangement of the
rows of the table (there is one, and every sorted permutation of the rows is it), that
arrangement with the first `start` rows skipped and at most `count` rows kept.  So
`page` has at most `count` records, all of them rows of the table, is in ascending
name order, and is empty when the table is empty or `start` is past the end; an empty
`page` is encoded as `[]`, not `null`, and on a table without rows the List handler
answers every request with 200 and that empty array. -/
theorem getServers_page (col : Collation) (db : DB) (start count : Int)
    (hvalid : Valid col db) (hstart : 0 ≤ start) (hcount1 : 1 ≤ count)
    (hcount25 : count ≤ 25) :
    ∃ page : List Server,
      GetServers col db none start count =
          ((some page, none), db.record (Call.GetServers start count)) ∧
        (∃ ordered : List Row, ordered.Perm db.rows ∧ ordered.Sorted (nameLe col)) ∧
        (∀ ordered : List Row, ordered.Perm db.rows → ordered.Sorted (nameLe col) →
          page = ((ordered.drop start.toNat).take count.toNat).map Row.toServer) ∧
        (page.length : Int) ≤ count ∧
        page.Sorted (serverLe col) ∧
        (∀ s ∈ page, (⟨s.ID, s.Name⟩ : Row) ∈ db.rows) ∧
        (db.rows = [] ∨ (db.rows.length : Int) ≤ start → page = []) ∧
        (∀ quote : String → String, page = [] →
          Marshal quote (Payload.servers (some page)) = "[]") ∧
        (∀ (authUser authPassword : String) (form : List (String × String))
            (credentials : Option (String × String)) (body : Option Server),
          db.rows = [] →
          ∃ db' : DB,
            ServeHTTP col authUser authPassword
                ⟨Method.GET, Path.servers, form, credentials, body⟩ db none =
              some (jsonReply 200 (Payload.servers (some [])), db')) := by
  obtain ⟨h1, h2, h3, h4, h5⟩ :=
    page_spec col db.rows start count hvalid.uniqueName (by omega)
  refine ⟨scanRows (limitOffset count start (orderByName col db.rows)), ?_,
    ⟨orderByName col db.rows, orderByName_perm col db.rows, orderByName_sorted col db.rows⟩,
    h1, h2, h3, h4, ?_, ?_, ?_⟩
  · unfold GetServers
    have hneg : ¬ (count < 0 ∨ start < 0) := by omega
    simp only [if_neg hneg]
    rfl
  · rintro (hnil | hlen)
    · apply h5
      rw [hnil]
      simpa using hstart
    · exact h5 hlen
  · intro quote hpage
    rw [hpage]
    rfl
  · intro authUser authPassword form credentials body hrows
    obtain ⟨start0, count0, hs0, hc0, _, heq⟩ := getServersEndpoint_eq col NewRecorder
      ⟨Method.GET, Path.servers, form, credentials, body⟩ (Path.params Path.servers) db
    refine ⟨db.record (Call.GetServers start0 count0), ?_⟩
    have hpage : scanRows (limitOffset count0 start0 (orderByName col db.rows)) = [] := by
      apply (page_spec col db.rows start0 count0 hvalid.uniqueName (by omega)).2.2.2.2
      rw [hrows]
      simpa using hs0
    simp only [ServeHTTP, Initialize, heq, hpage]
    rfl

/-- C6, at the table of thirteen rows of the test `TestSearch`, with `start = 3` and
`count = 5`: in ascending order of name the rows are `Server 1`, `Server 10`,
`Server 11`, `Server 12`, `Server 2` to `Server 9` and `test server`; the first three
are skipped and the page is the next five, `Server 12` (id 13) and `Server 2` to
`Server 5` (ids 3 to 6). -/
theorem getServers_page_witness :
    GetServers binary seededTable none 3 5 =
      ((some [⟨13, "Server 12"⟩, ⟨3, "Server 2"⟩, ⟨4, "Server 3"⟩, ⟨5, "Server 4"⟩,
          ⟨6, "Server 5"⟩], none),
        seededTable.record (Call.GetServers 3 5)) := by
  obtain ⟨page, hget, _, hall, _⟩ := getServers_page binary seededTable 3 5
    ⟨by decide, by decide, by decide, by decide⟩ (by decide) (by decide) (by decide)
  have hpage := hall
    [⟨2, "Server 1"⟩, ⟨11, "Server 10"⟩, ⟨12, "Server 11"⟩, ⟨13, "Server 12"⟩,
      ⟨3, "Server 2"⟩, ⟨4, "Server 3"⟩, ⟨5, "Server 4"⟩, ⟨6, "Server 5"⟩, ⟨7, "Server 6"⟩,
      ⟨8, "Server 7"⟩, ⟨9, "Server 8"⟩, ⟨10, "Server 9"⟩, ⟨1, "test server"⟩]
    (by decide) (by decide)
  rw [hget, hpage]
  rfl

theorem search_seeded_prefix :
    ServeHTTP binary "admin" "secret"
        ⟨Method.POST, Path.searchServers,
          [("count", "50"), ("start", "0"), ("name", "Server 1%")], none, none⟩
        seededTable none =
      some (jsonReply 200 (Payload.servers (some
          [⟨2, "Server 1"⟩, ⟨11, "Server 10"⟩, ⟨12, "Server 11"⟩, ⟨13, "Server 12"⟩])),
        seededTable.record (Call.SearchServers 0 25 "Server 1%")) := by
  decide

theorem search_seeded_no_match :
    ServeHTTP binary "admin" "secret"
        ⟨Method.POST, Path.searchServers,
          [("count", "50"), ("start", "0"), ("name", "won\x27t match")], none, none⟩
        seededTable none =
      some (jsonReply 200 (Payload.servers (some [])),
        seededTable.record (Call.SearchServers 0 25 "won\x27t match")) := by
  decide

/-- C7: for every table that satisfies the schema, every pattern `p`, every `start ≥ 0`
and every `count` in `[1, 25]`, `SearchServers(start, count, p)` (the backend
answering) returns a non-nil slice `page` and no error, where `page` is the
name-ascending arrangement of the rows whose name is `LIKE p`, with the first `start`
rows skipped and at most `count` kept.  In `LIKE`, a `%` of the pattern matches any
run of characters (also none), a `_` matches one character, and a character other
than `%`, `_` and the backslash matches a character of its weight.  The Search
handler hands the form value `name` to the store as it is.  On the table of
the test (`test server`, `Server 1` to `Server 12`) the Search handler, with
`count=50` (clamped to 25), `start=0` and the given name as the pattern, returns
`Server 1`, `Server 10`, `Server 11`, `Server 12` for `Server 1%` and the empty
list for a pattern that matches no name. -/
theorem searchServers_page (col : Collation) (db : DB) (start count : Int) (p : String)
    (hvalid : Valid col db) (hstart : 0 ≤ start) (hcount1 : 1 ≤ count)
    (hcount25 : count ≤ 25) :
    (∃ page : List Server,
      SearchServers col db none start count p =
          ((some page, none), db.record (Call.SearchServers start count p)) ∧
        (∃ ordered : List Row,
          ordered.Perm (db.rows.filter (fun r => like col p.data r.name.data)) ∧
          ordered.Sorted (nameLe col)) ∧
        (∀ ordered : List Row,
          ordered.Perm (db.rows.filter (fun r => like col p.data r.name.data)) →
          ordered.Sorted (nameLe col) →
          page = ((ordered.drop start.toNat).take count.toNat).map Row.toServer) ∧
        (page.length : Int) ≤ count ∧
        page.Sorted (serverLe col) ∧
        (∀ s ∈ page, (⟨s.ID, s.Name⟩ : Row) ∈ db.rows ∧ like col p.data s.Name.data = true)) ∧
      (∀ s : List Char, like col [] s = true ↔ s = []) ∧
      (∀ q s : List Char,
        like col ('%' :: q) s = true ↔ ∃ a b, s = a ++ b ∧ like col q b = true) ∧
      (∀ q s : List Char,
        like col ('_' :: q) s = true ↔ ∃ c t, s = c :: t ∧ like col q t = true) ∧
      (∀ (c : Char) (q s : List Char), c ≠ '%' → c ≠ '_' → c ≠ '\\' →
        (like col (c :: q) s = true ↔
          ∃ d t, s = d :: t ∧ col c = col d ∧ like col q t = true)) ∧
      (∀ (w : ResponseWriter) (req : Request) (ps : Params) (db0 : DB)
          (fault : Option DbErr),
        ∃ start0 count0 : Int,
          (searchServersEndpoint col w req ps db0 fault).2.calls =
            db0.calls ++ [Call.SearchServers start0 count0 (req.FormValue "name")]) ∧
      (ServeHTTP binary "admin" "secret"
          ⟨Method.POST, Path.searchServers,
            [("count", "50"), ("start", "0"), ("name", "Server 1%")], none, none⟩
          seededTable none =
        some (jsonReply 200 (Payload.servers (some
            [⟨2, "Server 1"⟩, ⟨11, "Server 10"⟩, ⟨12, "Server 11"⟩, ⟨13, "Server 12"⟩])),
          seededTable.record (Call.SearchServers 0 25 "Server 1%"))) ∧
      (ServeHTTP binary "admin" "secret"
          ⟨Method.POST, Path.searchServers,
            [("count", "50"), ("start", "0"), ("name", "won\x27t match")], none, none⟩
          seededTable none =
        some (jsonReply 200 (Payload.servers (some [])),
          seededTable.record (Call.SearchServers 0 25 "won\x27t match"))) := by
  have huq : ((db.rows.filter (fun r => like col p.data r.name.data)).map
      (fun r => sortKey col r.name)).Nodup :=
    List.Nodup.sublist (List.Sublist.map _ (List.filter_sublist db.rows)) hvalid.uniqueName
  obtain ⟨h1, h2, h3, h4, _⟩ := page_spec col _ start count huq (by omega)
  refine ⟨⟨scanRows (limitOffset count start (orderByName col
      (db.rows.filter (fun r => like col p.data r.name.data)))), ?_,
    ⟨_, orderByName_perm col _, orderByName_sorted col _⟩, h1, h2, h3, ?_⟩,
    like_nil col, like_percent col, like_underscore col, like_literal col,
    fun w req ps db0 fault => ⟨_, _, by rw [searchServersEndpoint_db]; rfl⟩,
    search_seeded_prefix, search_seeded_no_match⟩
  · unfold SearchServers
    have hneg : ¬ (count < 0 ∨ start < 0) := by omega
    simp only [if_neg hneg]
    rfl
  · intro s hs
    have hmem := List.mem_filter.mp (h4 s hs)
    exact ⟨hmem.1, hmem.2⟩

/-- C7, at the table of the test and the pattern `Server 1%` with the clamped count. -/
theorem searchServers_page_witness :
    ∃ page : List Server,
      SearchServers binary seededTable none 0 25 "Server 1%" =
          ((some page, none), seededTable.record (Call.SearchServers 0 25 "Server 1%")) ∧
        (page.length : Int) ≤ 25 ∧ page.Sorted (serverLe binary) := by
  obtain ⟨page, h1, _, _, h4, h5, _⟩ :=
    (searchServers_page binary seededTable 0 25 "Server 1%"
      ⟨by decide, by decide, by decide, by decide⟩ (by decide) (by decide) (by decide)).1
  exact ⟨page, h1, h4, h5⟩

/-! ## C11: the reply of Modify -/

theorem modifyServerEndpoint_store (col : Collation) (req : Request) (id : String) (i : Int)
    (db : DB) (b : Server) (fault : Option DbErr) (hid : Atoi id = (i, none))
    (hbody : req.body = some b) :
    modifyServerEndpoint col NewRecorder req (Path.server id).params db fault =
      match UpdateServer col ⟨i, b.Name⟩ db fault with
      | (Except.error err, db') => (errorReply 500 err.Error, db')
      | (Except.ok _, db') => (jsonReply 200 (Payload.server ⟨i, b.Name⟩), db') := by
  unfold modifyServerEndpoint
  rw [ByName_id, hid]
  simp only [hbody]
  rcases UpdateServer col ⟨i, b.Name⟩ db fault with ⟨_ | _, d⟩ <;> rfl

theorem UpdateServer_calls (col : Collation) (s : Server) (db : DB) (fault : Option DbErr) :
    (UpdateServer col s db fault).2.calls = db.calls ++ [Call.UpdateServer s.ID s.Name] := by
  unfold UpdateServer
  cases fault with
  | some e => rfl
  | none =>
    simp only []
    split
    · rfl
    · split
      · rfl
      · split <;> rfl

theorem UpdateServer_ok_rows (col : Collation) (s : Server) (db : DB) (fault : Option DbErr)
    (k : Nat) (hok : (UpdateServer col s db fault).1 = Except.ok k) :
    (UpdateServer col s db fault).2.rows = renameRow s.ID (columnValue s.Name) db.rows := by
  unfold UpdateServer at hok ⊢
  cases fault with
  | some e => simp at hok
  | none =>
    simp only [] at hok ⊢
    split
    · rename_i hall
      have habs : ∀ r ∈ db.rows, r.id ≠ s.ID := by
        intro r hr
        have := List.all_eq_true.mp hall r hr
        simpa using this
      rw [renameRow_of_absent s.ID (columnValue s.Name) db.rows habs]
      rfl
    · rename_i hall
      rw [if_neg hall] at hok
      split
      · rename_i hfit
        rw [if_pos hfit] at hok
        simp at hok
      · rename_i hfit
        rw [if_neg hfit] at hok
        split
        · rename_i htaken
          rw [if_pos htaken] at hok
          simp at hok
        · rfl

theorem mem_renameRow_same {i : Int} {n : String} {rows : List Row} {r : Row}
    (hr : r ∈ renameRow i n rows) (hi : r.id = i) : r.name = n := by
  unfold renameRow at hr
  obtain ⟨r0, _, rfl⟩ := List.mem_map.mp hr
  by_cases h0 : r0.id = i
  · simp [h0]
  · simp only [h0, if_false] at hi

theorem mem_renameRow_other {i : Int} {n : String} {rows : List Row} {r : Row}
    (hi : r.id ≠ i) : r ∈ renameRow i n rows ↔ r ∈ rows := by
  unfold renameRow
  constructor
  · intro hr
    obtain ⟨r0, hr0, rfl⟩ := List.mem_map.mp hr
    by_cases h0 : r0.id = i
    · simp only [h0, if_true] at hi
      exact absurd rfl hi
    · simpa [h0] using hr0
  · intro hr
    exact List.mem_map.mpr ⟨r, hr, by simp [hi]⟩

/-- C11: for every authenticated PUT or PATCH whose path id parses to the integer `i`
and whose body decodes to the `Server` `b`, when the store update succeeds the reply
is 200 with the `Server` of id `i` (whatever id the body gave) and name `b.Name`; the
database afterwards is the one the update with `(i, b.Name)` leaves, which was the
store call made; the ids of the rows are what they were, a row of id `i` now has the
name the column stores for `b.Name` (`b.Name` itself when it has at most 50
characters), the other rows are as before; and a GetOne of the same path that is
answered 200 before returns the id `i` too. -/
theorem modify_reply (col : Collation) (authUser authPassword : String) (m : Method)
    (id : String) (i : Int) (form : List (String × String)) (b : Server) (db : DB)
    (fault : Option DbErr) (k : Nat) (hm : m = Method.PUT ∨ m = Method.PATCH)
    (hid : Atoi id = (i, none))
    (hstore : (UpdateServer col ⟨i, b.Name⟩ db fault).1 = Except.ok k) :
    ServeHTTP col authUser authPassword
        ⟨m, Path.server id, form, some (authUser, authPassword), some b⟩ db fault =
        some (jsonReply 200 (Payload.server ⟨i, b.Name⟩),
          (UpdateServer col ⟨i, b.Name⟩ db fault).2) ∧
      (UpdateServer col ⟨i, b.Name⟩ db fault).2.calls =
        db.calls ++ [Call.UpdateServer i b.Name] ∧
      (UpdateServer col ⟨i, b.Name⟩ db fault).2.rows.map Row.id = db.rows.map Row.id ∧
      (∀ r ∈ (UpdateServer col ⟨i, b.Name⟩ db fault).2.rows, r.id = i →
        r.name = columnValue b.Name ∧ (b.Name.length ≤ 50 → r.name = b.Name)) ∧
      (∀ r : Row, r.id ≠ i →
        (r ∈ (UpdateServer col ⟨i, b.Name⟩ db fault).2.rows ↔ r ∈ db.rows)) ∧
      (∀ (form' : List (String × String)) (credentials : Option (String × String))
          (body' : Option Server) (s : Server) (db0 : DB),
        ServeHTTP col authUser authPassword
            ⟨Method.GET, Path.server id, form', credentials, body'⟩ db none =
          some (jsonReply 200 (Payload.server s), db0) → s.ID = i) := by
  have hrows := UpdateServer_ok_rows col ⟨i, b.Name⟩ db fault k hstore
  refine ⟨?_, UpdateServer_calls col ⟨i, b.Name⟩ db fault, ?_, ?_, ?_, ?_⟩
  · have hserve : ServeHTTP col authUser authPassword
        ⟨m, Path.server id, form, some (authUser, authPassword), some b⟩ db fault =
        some (modifyServerEndpoint col NewRecorder
          ⟨m, Path.server id, form, some (authUser, authPassword), some b⟩
          (Path.params (Path.server id)) db fault) := by
      rcases hm with rfl | rfl <;> simp only [ServeHTTP, Initialize, basicAuth_eq, if_true]
    rw [hserve, modifyServerEndpoint_store col _ id i db b fault hid rfl]
    rcases hU : UpdateServer col ⟨i, b.Name⟩ db fault with ⟨res, d⟩
    rw [hU] at hstore
    cases res with
    | error e => simp at hstore
    | ok n => rfl
  · rw [hrows]; exact renameRow_ids i (columnValue b.Name) db.rows
  · intro r hr hi
    rw [hrows] at hr
    have hname : r.name = columnValue b.Name := mem_renameRow_same hr hi
    exact ⟨hname, fun hlen => by rw [hname, columnValue_of_le hlen]⟩
  · intro r hi
    rw [hrows]
    exact mem_renameRow_other hi
  · intro form' credentials body' s db0 hget
    rw [ServeHTTP_getOne col authUser authPassword id i form' credentials body' db hid] at hget
    cases hf : db.rows.find? (fun r => decide (r.id = i)) with
    | none =>
      rw [hf] at hget
      have hcode := congrArg (fun o => o.map (fun x => x.1.Code)) hget
      simp [jsonReply, errorReply] at hcode
    | some r =>
      rw [hf] at hget
      have hbody := congrArg (fun o => o.map (fun x => x.1.Body)) hget
      simp [jsonReply] at hbody
      rw [← hbody]

/-- C11, at the run of `TestUpdatePutServerWithCredentials`: the row `Server 1` of id 1
and `PUT /v1/servers/1` with the name `test server - updated`. -/
theorem modify_reply_witness :
    ServeHTTP binary "admin" "secret"
        ⟨Method.PUT, Path.server "1", [], some ("admin", "secret"),
          some ⟨0, "test server - updated"⟩⟩ (DB.mk [⟨1, "Server 1"⟩] 2 []) none =
      some (jsonReply 200 (Payload.server ⟨1, "test server - updated"⟩),
        (UpdateServer binary ⟨1, "test server - updated"⟩ (DB.mk [⟨1, "Server 1"⟩] 2 [])
          none).2) :=
  (modify_reply binary "admin" "secret" Method.PUT "1" 1 [] ⟨0, "test server - updated"⟩
    (DB.mk [⟨1, "Server 1"⟩] 2 []) none 1 (Or.inl rfl) (by decide) (by rfl)).1

/-! ## C12: Modify and Delete of an id that is not in the table -/

theorem filter_absent {rows : List Row} {i : Int} (habs : ∀ r ∈ rows, r.id ≠ i) :
    rows.filter (fun r => decide (r.id ≠ i)) = rows := by
  rw [List.filter_eq_self]
  intro r hr
  simpa using habs r hr

theorem countP_absent {rows : List Row} {i : Int} (habs : ∀ r ∈ rows, r.id ≠ i) :
    rows.countP (fun r => decide (r.id = i)) = 0 := by
  rw [List.countP_eq_zero]
  intro r hr
  simpa using habs r hr

/-- C12: for every table, every path id that parses to an integer `i` that no row has,
and a backend that answers: an authenticated Delete is answered 200 with
`result: success`, an authenticated Modify (PUT or PATCH) with a body that decodes to
`b` is answered 200 with the submitted `Server` (the name of `b` under the id `i` of the
path); the store reports zero affected rows for both and no error, and the rows and
the `AUTO_INCREMENT` counter are as before (only the call is noted). -/
theorem absent_id_no_error (col : Collation) (authUser authPassword : String)
    (id : String) (i : Int) (form : List (String × String)) (body : Option Server)
    (b : Server) (db : DB) (hid : Atoi id = (i, none))
    (habs : ∀ r ∈ db.rows, r.id ≠ i) :
    ServeHTTP col authUser authPassword
        ⟨Method.DELETE, Path.server id, form, some (authUser, authPassword), body⟩ db none =
        some (jsonReply 200 (Payload.stringMap [("result", "success")]),
          db.record (Call.DeleteServer i)) ∧
      ServeHTTP col authUser authPassword
        ⟨Method.PUT, Path.server id, form, some (authUser, authPassword), some b⟩ db none =
        some (jsonReply 200 (Payload.server ⟨i, b.Name⟩),
          db.record (Call.UpdateServer i b.Name)) ∧
      ServeHTTP col authUser authPassword
        ⟨Method.PATCH, Path.server id, form, some (authUser, authPassword), some b⟩ db none =
        some (jsonReply 200 (Payload.server ⟨i, b.Name⟩),
          db.record (Call.UpdateServer i b.Name)) ∧
      (DeleteServer ⟨i, ""⟩ db none).1 = Except.ok 0 ∧
      (UpdateServer col ⟨i, b.Name⟩ db none).1 = Except.ok 0 ∧
      (∀ c : Call, (db.record c).rows = db.rows ∧ (db.record c).autoInc = db.autoInc) := by
  have hall : db.rows.all (fun r => decide (r.id ≠ i)) = true := by
    rw [List.all_eq_true]
    intro r hr
    simpa using habs r hr
  refine ⟨?_, ?_, ?_, ?_, ?_, fun c => ⟨rfl, rfl⟩⟩
  · simp only [ServeHTTP, Initialize, basicAuth_eq, if_true, deleteServerEndpoint_eq, hid,
      filter_absent habs]
    rfl
  · simp only [ServeHTTP, Initialize, basicAuth_eq, if_true]
    rw [modifyServerEndpoint_eq col _ id i db b hid rfl, if_pos hall]
  · simp only [ServeHTTP, Initialize, basicAuth_eq, if_true]
    rw [modifyServerEndpoint_eq col _ id i db b hid rfl, if_pos hall]
  · simp only [DeleteServer]
    rw [show (db.record (Call.DeleteServer i)).rows = db.rows from rfl, countP_absent habs]
  · simp only [UpdateServer]
    rw [show (db.record (Call.UpdateServer i b.Name)).rows = db.rows from rfl, if_pos hall]

/-- C12, at the table with the one row `Server 1` of id 1 and the path id 7. -/
theorem absent_id_no_error_witness :
    ServeHTTP binary "admin" "secret"
        ⟨Method.DELETE, Path.server "7", [], some ("admin", "secret"), none⟩
        (DB.mk [⟨1, "Server 1"⟩] 2 []) none =
      some (jsonReply 200 (Payload.stringMap [("result", "success")]),
        (DB.mk [⟨1, "Server 1"⟩] 2 []).record (Call.DeleteServer 7)) :=
  (absent_id_no_error binary "admin" "secret" "7" 7 [] none ⟨0, "renamed"⟩
    (DB.mk [⟨1, "Server 1"⟩] 2 []) (by decide) (by decide)).1

/-! ## C13: content type and error bodies -/

theorem JsonOutcome.error (code : Nat) (msg : String)
    (hcode : code = 400 ∨ code = 404 ∨ code = 409 ∨ code = 500) :
    JsonOutcome (respondWithError NewRecorder code msg) :=
  ⟨code, Payload.stringMap [("error", msg)], rfl, by omega, fun _ => ⟨msg, rfl⟩⟩

theorem JsonOutcome.ok (code : Nat) (payload : Payload) (hcode : code = 200 ∨ code = 201) :
    JsonOutcome (respondWithJSON NewRecorder code payload) :=
  ⟨code, payload, rfl, by omega, fun h => by omega⟩

theorem getServerEndpoint_json (req : Request) (ps : Params) (db : DB)
    (fault : Option DbErr) : JsonOutcome (getServerEndpoint NewRecorder req ps db fault).1 := by
  unfold getServerEndpoint
  split
  · exact JsonOutcome.error 400 _ (by decide)
  · split
    · split
      · exact JsonOutcome.error 404 _ (by decide)
      · exact JsonOutcome.error 500 _ (by decide)
    · exact JsonOutcome.ok 200 _ (by decide)

theorem getServersEndpoint_json (col : Collation) (req : Request) (ps : Params) (db : DB)
    (fault : Option DbErr) :
    JsonOutcome (getServersEndpoint col NewRecorder req ps db fault).1 := by
  unfold getServersEndpoint
  simp only []
  split
  · exact JsonOutcome.error 500 _ (by decide)
  · exact JsonOutcome.ok 200 _ (by decide)

theorem searchServersEndpoint_json (col : Collation) (req : Request) (ps : Params) (db : DB)
    (fault : Option DbErr) :
    JsonOutcome (searchServersEndpoint col NewRecorder req ps db fault).1 := by
  unfold searchServersEndpoint
  simp only []
  split
  · exact JsonOutcome.error 500 _ (by decide)
  · exact JsonOutcome.ok 200 _ (by decide)

theorem createServerEndpoint_json (col : Collation) (req : Request) (ps : Params) (db : DB)
    (fault : Option DbErr) :
    JsonOutcome (createServerEndpoint col NewRecorder req ps db fault).1 := by
  unfold createServerEndpoint
  split
  · exact JsonOutcome.error 400 _ (by decide)
  · split
    · split
      · split
        · exact JsonOutcome.error 409 _ (by decide)
        · exact JsonOutcome.error 500 _ (by decide)
      · exact JsonOutcome.error 500 _ (by decide)
    · exact JsonOutcome.ok 201 _ (by decide)

theorem modifyServerEndpoint_json (col : Collation) (req : Request) (ps : Params) (db : DB)
    (fault : Option DbErr) :
    JsonOutcome (modifyServerEndpoint col NewRecorder req ps db fault).1 := by
  unfold modifyServerEndpoint
  split
  · exact JsonOutcome.error 400 _ (by decide)
  · split
    · exact JsonOutcome.error 400 _ (by decide)
    · simp only []
      split
      · exact JsonOutcome.error 500 _ (by decide)
      · exact JsonOutcome.ok 200 _ (by decide)

theorem deleteServerEndpoint_json (req : Request) (ps : Params) (db : DB)
    (fault : Option DbErr) :
    JsonOutcome (deleteServerEndpoint NewRecorder req ps db fault).1 := by
  unfold deleteServerEndpoint
  split
  · exact JsonOutcome.error 400 _ (by decide)
  · split
    · exact JsonOutcome.error 500 _ (by decide)
    · exact JsonOutcome.ok 200 _ (by decide)

theorem basicAuth_json (h : Handle) (u p : String) (req : Request) (ps : Params) (db : DB)
    (fault : Option DbErr) (hh : JsonOutcome (h NewRecorder req ps db fault).1) :
    ((basicAuth h u p NewRecorder req ps db fault).1 = unauthorized ∧
        req.credentials ≠ some (u, p)) ∨
      JsonOutcome (basicAuth h u p NewRecorder req ps db fault).1 := by
  rw [basicAuth_eq]
  by_cases hc : req.credentials = some (u, p)
  · rw [if_pos hc]; exact Or.inr hh
  · rw [if_neg hc]; exact Or.inl ⟨rfl, hc⟩

theorem ServeHTTP_outcome (col : Collation) (authUser authPassword : String) (req : Request)
    (db db' : DB) (fault : Option DbErr) (reply : ResponseWriter)
    (hserve : ServeHTTP col authUser authPassword req db fault = some (reply, db')) :
    (reply = unauthorized ∧ gated req.method req.path ∧
        req.credentials ≠ some (authUser, authPassword)) ∨ JsonOutcome reply := by
  unfold ServeHTTP at hserve
  cases hm : req.method <;> cases hp : req.path <;>
    simp only [hm, hp, Initialize, Option.some.injEq, reduceCtorEq] at hserve
  all_goals
    have hreply := congrArg Prod.fst hserve
    simp only at hreply
    rw [← hreply]
  · exact Or.inr (getServersEndpoint_json col _ _ _ _)
  · exact Or.inr (getServerEndpoint_json _ _ _ _)
  · rcases basicAuth_json _ authUser authPassword _ _ db fault
      (createServerEndpoint_json col _ _ db fault) with h | h
    · exact Or.inl ⟨h.1, Or.inl ⟨rfl, rfl⟩, h.2⟩
    · exact Or.inr h
  · exact Or.inr (searchServersEndpoint_json col _ _ _ _)
  · rcases basicAuth_json _ authUser authPassword _ _ db fault
      (modifyServerEndpoint_json col _ _ db fault) with h | h
    · exact Or.inl ⟨h.1, Or.inr ⟨Or.inl rfl, _, rfl⟩, h.2⟩
    · exact Or.inr h
  · rcases basicAuth_json _ authUser authPassword _ _ db fault
      (modifyServerEndpoint_json col _ _ db fault) with h | h
    · exact Or.inl ⟨h.1, Or.inr ⟨Or.inr (Or.inl rfl), _, rfl⟩, h.2⟩
    · exact Or.inr h
  · rcases basicAuth_json _ authUser authPassword _ _ db fault
      (deleteServerEndpoint_json _ _ db fault) with h | h
    · exact Or.inl ⟨h.1, Or.inr ⟨Or.inr (Or.inr rfl), _, rfl⟩, h.2⟩
    · exact Or.inr h

/-- C13 (as stated, refuted): the 401 reply of the auth gate, here on
`POST /v1/servers` without credentials, carries `Content-Type: text/plain;
charset=utf-8` and a plain-text body, not the JSON content type and not a JSON object
with the key `error`. -/
theorem unauthorized_not_json_counterexample :
    (ServeHTTP binary "admin" "secret"
        ⟨Method.POST, Path.servers, [], none, some ⟨0, "test server"⟩⟩ DB.empty none).map
      (fun r => (r.1.Code, r.1.Get "Content-Type", r.1.Body)) =
      some (401, some "text/plain; charset=utf-8", [Chunk.text "Unauthorized\n"]) := by
  decide

/-- C13 (amended): every reply of a route of the service is either the 401 of the auth
gate (on a gated route, the credentials not being the configured pair), which is
plain text, or a reply with one of the codes 200, 201, 400, 404, 409, 500 that
carries `Content-Type: application/json; charset=utf-8` and whose body, when the code
is 400 or more, is the JSON object with the one key `error` and a message. -/
theorem reply_is_json_or_unauthorized (col : Collation) (authUser authPassword : String)
    (req : Request) (db db' : DB) (fault : Option DbErr) (reply : ResponseWriter)
    (hserve : ServeHTTP col authUser authPassword req db fault = some (reply, db')) :
    (reply = unauthorized ∧ reply.Code = 401 ∧
        reply.Get "Content-Type" = some "text/plain; charset=utf-8" ∧
        reply.Body = [Chunk.text "Unauthorized\n"] ∧
        gated req.method req.path ∧ req.credentials ≠ some (authUser, authPassword)) ∨
      ((reply.Code = 200 ∨ reply.Code = 201 ∨ reply.Code = 400 ∨ reply.Code = 404 ∨
          reply.Code = 409 ∨ reply.Code = 500) ∧
        reply.Get "Content-Type" = some "application/json; charset=utf-8" ∧
        (400 ≤ reply.Code →
          ∃ msg : String, reply.Body = [Chunk.json (Payload.stringMap [("error", msg)])])) := by
  rcases ServeHTTP_outcome col authUser authPassword req db db' fault reply hserve with
    ⟨h1, h2, h3⟩ | ⟨code, payload, hr, hcode, herr⟩
  · refine Or.inl ⟨h1, ?_, ?_, ?_, h2, h3⟩
    · rw [h1]; rfl
    · rw [h1]; decide
    · rw [h1]; rfl
  · refine Or.inr ⟨?_, ?_, ?_⟩
    · rw [hr]; exact hcode
    · rw [hr]; rfl
    · intro h
      rw [hr] at h
      obtain ⟨msg, hmsg⟩ := herr h
      exact ⟨msg, by rw [hr, hmsg]; rfl⟩

/-- C13, at `GET /v1/servers/a`: the reply 400 is JSON with the key `error`. -/
theorem reply_is_json_or_unauthorized_witness :
    (errorReply 400 "Invalid server ID" = unauthorized ∧
        (errorReply 400 "Invalid server ID").Code = 401 ∧
        (errorReply 400 "Invalid server ID").Get "Content-Type" =
          some "text/plain; charset=utf-8" ∧
        (errorReply 400 "Invalid server ID").Body = [Chunk.text "Unauthorized\n"] ∧
        gated Method.GET (Path.server "a") ∧
        (none : Option (String × String)) ≠ some ("admin", "secret")) ∨
      (((errorReply 400 "Invalid server ID").Code = 200 ∨
          (errorReply 400 "Invalid server ID").Code = 201 ∨
          (errorReply 400 "Invalid server ID").Code = 400 ∨
          (errorReply 400 "Invalid server ID").Code = 404 ∨
          (errorReply 400 "Invalid server ID").Code = 409 ∨
          (errorReply 400 "Invalid server ID").Code = 500) ∧
        (errorReply 400 "Invalid server ID").Get "Content-Type" =
          some "application/json; charset=utf-8" ∧
        (400 ≤ (errorReply 400 "Invalid server ID").Code →
          ∃ msg : String, (errorReply 400 "Invalid server ID").Body =
            [Chunk.json (Payload.stringMap [("error", msg)])])) :=
  reply_is_json_or_unauthorized binary "admin" "secret"
    ⟨Method.GET, Path.server "a", [], none, none⟩ DB.empty DB.empty none
    (errorReply 400 "Invalid server ID") (by decide)

/-! ## C14: what `Atoi` returns with an error -/

theorem ParseInt_error_value (s : List Char) :
    ((ParseInt s).2 = some NumError.ErrSyntax → (ParseInt s).1 = 0) ∧
      ((ParseInt s).2 = some NumError.ErrRange →
        (ParseInt s).1 = (2 : Int) ^ 63 - 1 ∨ (ParseInt s).1 = -(2 : Int) ^ 63) := by
  cases s with
  | nil => exact ⟨fun _ => rfl, fun h => by simp [ParseInt] at h⟩
  | cons c rest =>
    rw [ParseInt_cons]
    rcases ParseUint (if c == '+' ∨ c == '-' then rest else c :: rest) with ⟨un, _ | e⟩
    · simp only []
      split
      · exact ⟨fun h => by simp at h, fun _ => Or.inl rfl⟩
      · split
        · exact ⟨fun h => by simp at h, fun _ => Or.inr rfl⟩
        · exact ⟨fun h => by simp at h, fun h => by simp at h⟩
    · cases e with
      | ErrSyntax => exact ⟨fun _ => rfl, fun h => by simp at h⟩
      | ErrRange =>
        simp only []
        split
        · exact ⟨fun h => by simp at h, fun _ => Or.inl rfl⟩
        · split
          · exact ⟨fun h => by simp at h, fun _ => Or.inr rfl⟩
          · exact ⟨fun h => by simp at h, fun h => by simp at h⟩

theorem FormValue_absent (req : Request) (key : String)
    (h : ∀ kv ∈ req.form, kv.1 ≠ key) : req.FormValue key = "" := by
  unfold Request.FormValue
  have : req.form.find? (fun p => p.1 == key) = none := by
    rw [List.find?_eq_none]
    intro kv hkv
    simpa using h kv hkv
  rw [this]

theorem foldl_eq_ofDigits (l : List Nat) :
    l.foldl (fun a d => a * 10 + d) 0 = Nat.ofDigits 10 l.reverse := by
  have h : ∀ l : List Nat, l.foldr (fun d a => a * 10 + d) 0 = Nat.ofDigits 10 l := by
    intro l
    induction l with
    | nil => rfl
    | cons a t ih => simp [Nat.ofDigits_cons, ih]; ring
  rw [← h, List.foldr_reverse]

theorem ParseUint_loop_overflow (l : List Nat) (acc : Nat) (rest : List Char)
    (hd : ∀ d ∈ l, d < 10) (hacc : acc < 2 ^ 64)
    (hge : 2 ^ 64 ≤ l.foldl (fun a d => a * 10 + d) acc) :
    ParseUint.loop (l.map digitChar ++ rest) acc = (2 ^ 64 - 1, some NumError.ErrRange) := by
  induction l generalizing acc with
  | nil =>
    simp only [List.foldl_nil] at hge
    omega
  | cons d t ih =>
    have hd10 : d < 10 := hd d (List.mem_cons_self _ _)
    simp only [List.foldl_cons] at hge
    simp only [List.map_cons, List.cons_append, ParseUint.loop, digitChar_toNat d hd10]
    have h1 : 48 ≤ 48 + d ∧ 48 + d ≤ 57 := by omega
    rw [if_pos h1]
    by_cases h2 : acc ≥ (2 ^ 64 - 1) / 10 + 1
    · rw [if_pos h2]
    · rw [if_neg h2]
      have h2' : acc ≤ 1844674407370955161 := by norm_num at h2; omega
      have h3 : (acc * 10) % 2 ^ 64 = acc * 10 := Nat.mod_eq_of_lt (by omega)
      have h4 : 48 + d - 48 = d := by omega
      simp only [h3, h4]
      by_cases h5 : acc * 10 + d < 2 ^ 64
      · have h6 : (acc * 10 + d) % 2 ^ 64 = acc * 10 + d := Nat.mod_eq_of_lt h5
        have h7 : ¬ (acc * 10 + d < acc * 10 ∨ acc * 10 + d > 2 ^ 64 - 1) := by omega
        rw [h6, if_neg h7]
        exact ih (acc * 10 + d) (fun x hx => hd x (List.mem_cons_of_mem _ hx)) h5 hge
      · have h6 : (acc * 10 + d) % 2 ^ 64 = acc * 10 + d - 2 ^ 64 := by
          rw [Nat.mod_eq_sub_mod (by omega)]
          exact Nat.mod_eq_of_lt (by omega)
        have h7 : acc * 10 + d - 2 ^ 64 < acc * 10 ∨ acc * 10 + d - 2 ^ 64 > 2 ^ 64 - 1 := by
          left; omega
        rw [h6, if_pos h7]

theorem ParseUint_loop_syntax (l : List Nat) (acc : Nat) (c : Char) (rest : List Char)
    (hd : ∀ d ∈ l, d < 10) (hlt : l.foldl (fun a d => a * 10 + d) acc < 2 ^ 64)
    (hc : ¬ (48 ≤ c.toNat ∧ c.toNat ≤ 57)) :
    ParseUint.loop (l.map digitChar ++ c :: rest) acc = (0, some NumError.ErrSyntax) := by
  induction l generalizing acc with
  | nil =>
    simp only [List.map_nil, List.nil_append, ParseUint.loop, if_neg hc]
  | cons d t ih =>
    have hd10 : d < 10 := hd d (List.mem_cons_self _ _)
    have hle := le_foldl_digits t (acc * 10 + d)
    simp only [List.foldl_cons] at hlt
    have hacc : acc * 10 + d < 2 ^ 64 := lt_of_le_of_lt hle hlt
    simp only [List.map_cons, List.cons_append, ParseUint.loop, digitChar_toNat d hd10]
    have h1 : 48 ≤ 48 + d ∧ 48 + d ≤ 57 := by omega
    have h2 : ¬ (acc ≥ (2 ^ 64 - 1) / 10 + 1) := by norm_num at hacc ⊢; omega
    have h3 : (acc * 10) % 2 ^ 64 = acc * 10 := Nat.mod_eq_of_lt (by omega)
    have h4 : (acc * 10 + (48 + d - 48)) % 2 ^ 64 = acc * 10 + d := by
      rw [Nat.add_sub_cancel_left]; exact Nat.mod_eq_of_lt hacc
    rw [if_pos h1, if_neg h2]
    simp only [h3, h4]
    have h5 : ¬ (acc * 10 + d < acc * 10 ∨ acc * 10 + d > 2 ^ 64 - 1) := by omega
    rw [if_neg h5]
    exact ih (acc * 10 + d) (fun x hx => hd x (List.mem_cons_of_mem _ hx)) hlt

theorem ParseUint_digits_value (l : List Nat) (hne : l ≠ []) (hd : ∀ d ∈ l, d < 10) :
    ParseUint (l.map digitChar) =
      if Nat.ofDigits 10 l.reverse < 2 ^ 64 then (Nat.ofDigits 10 l.reverse, none)
      else (2 ^ 64 - 1, some NumError.ErrRange) := by
  rw [← foldl_eq_ofDigits]
  have hP : ParseUint (l.map digitChar) = ParseUint.loop (l.map digitChar) 0 := by
    cases l with
    | nil => exact absurd rfl hne
    | cons d t => rfl
  rw [hP]
  by_cases h : l.foldl (fun a d => a * 10 + d) 0 < 2 ^ 64
  · rw [if_pos h]
    exact ParseUint_loop_digits l 0 hd h
  · rw [if_neg h]
    have := ParseUint_loop_overflow l 0 [] hd (by norm_num) (by omega)
    rwa [List.append_nil] at this

theorem ParseInt_digits_value (l : List Nat) (hne : l ≠ []) (hd : ∀ d ∈ l, d < 10) :
    ParseInt (l.map digitChar) =
        (if Nat.ofDigits 10 l.reverse < 2 ^ 63 then (((Nat.ofDigits 10 l.reverse : Nat) : Int), none)
          else ((2 : Int) ^ 63 - 1, some NumError.ErrRange)) ∧
      ParseInt ('+' :: l.map digitChar) =
        (if Nat.ofDigits 10 l.reverse < 2 ^ 63 then (((Nat.ofDigits 10 l.reverse : Nat) : Int), none)
          else ((2 : Int) ^ 63 - 1, some NumError.ErrRange)) ∧
      ParseInt ('-' :: l.map digitChar) =
        (if Nat.ofDigits 10 l.reverse ≤ 2 ^ 63 then (-((Nat.ofDigits 10 l.reverse : Nat) : Int), none)
          else (-(2 : Int) ^ 63, some NumError.ErrRange)) := by
  have hU := ParseUint_digits_value l hne hd
  have hplus : ParseInt ('+' :: l.map digitChar) =
      (if Nat.ofDigits 10 l.reverse < 2 ^ 63 then (((Nat.ofDigits 10 l.reverse : Nat) : Int), none)
        else ((2 : Int) ^ 63 - 1, some NumError.ErrRange)) := by
    have hs : (('+' : Char) == '+' ∨ ('+' : Char) == '-') := by decide
    have hm : (('+' : Char) == '-') = false := by decide
    rw [ParseInt_cons, if_pos hs, hU]
    by_cases h64 : Nat.ofDigits 10 l.reverse < 2 ^ 64
    · rw [if_pos h64]
      by_cases h63 : Nat.ofDigits 10 l.reverse < 2 ^ 63
      · have h1 : ¬ ((('+' : Char) == '-') = false ∧ Nat.ofDigits 10 l.reverse ≥ 2 ^ 63) := by
          omega
        have h2 : ¬ ((('+' : Char) == '-') = true ∧ Nat.ofDigits 10 l.reverse > 2 ^ 63) := by
          omega
        simp only [if_neg h1, if_neg h2, if_pos h63]
        simp [hm]
      · have h1 : (('+' : Char) == '-') = false ∧ Nat.ofDigits 10 l.reverse ≥ 2 ^ 63 :=
          ⟨hm, by omega⟩
        simp only [if_pos h1, if_neg h63]
    · rw [if_neg h64]
      have h63 : ¬ Nat.ofDigits 10 l.reverse < 2 ^ 63 := by omega
      have h1 : (('+' : Char) == '-') = false ∧ 2 ^ 64 - 1 ≥ 2 ^ 63 := ⟨hm, by norm_num⟩
      simp only [if_pos h1, if_neg h63]
  refine ⟨?_, hplus, ?_⟩
  · obtain ⟨d, t, rfl⟩ : ∃ d t, l = d :: t := by
      cases l with
      | nil => exact absurd rfl hne
      | cons d t => exact ⟨d, t, rfl⟩
    have hd10 : d < 10 := hd d (List.mem_cons_self _ _)
    obtain ⟨hm, hs⟩ := digitChar_not_sign d hd10
    rw [← hplus, List.map_cons, ParseInt_cons, ParseInt_cons, if_neg hs,
      if_pos (by decide : (('+' : Char) == '+' ∨ ('+' : Char) == '-')), hm,
      show (('+' : Char) == '-') = false from by decide]
  · have hs : (('-' : Char) == '+' ∨ ('-' : Char) == '-') := by decide
    have hm : (('-' : Char) == '-') = true := by decide
    rw [ParseInt_cons, if_pos hs, hU]
    by_cases h64 : Nat.ofDigits 10 l.reverse < 2 ^ 64
    · rw [if_pos h64]
      by_cases h63 : Nat.ofDigits 10 l.reverse ≤ 2 ^ 63
      · have h1 : ¬ ((('-' : Char) == '-') = false ∧ Nat.ofDigits 10 l.reverse ≥ 2 ^ 63) := by
          rw [hm]; simp
        have h2 : ¬ ((('-' : Char) == '-') = true ∧ Nat.ofDigits 10 l.reverse > 2 ^ 63) := by
          omega
        simp only [if_neg h1, if_neg h2, if_pos h63, if_pos hm]
      · have h1 : ¬ ((('-' : Char) == '-') = false ∧ Nat.ofDigits 10 l.reverse ≥ 2 ^ 63) := by
          rw [hm]; simp
        have h2 : (('-' : Char) == '-') = true ∧ Nat.ofDigits 10 l.reverse > 2 ^ 63 :=
          ⟨hm, by omega⟩
        simp only [if_neg h1, if_pos h2, if_neg h63]
    · rw [if_neg h64]
      have h63 : ¬ Nat.ofDigits 10 l.reverse ≤ 2 ^ 63 := by omega
      have h1 : ¬ ((('-' : Char) == '-') = false ∧ 2 ^ 64 - 1 ≥ 2 ^ 63) := by
        rw [hm]; simp
      have h2 : (('-' : Char) == '-') = true ∧ 2 ^ 64 - 1 > 2 ^ 63 := ⟨hm, by norm_num⟩
      simp only [if_neg h1, if_pos h2, if_neg h63]

theorem ParseInt_range_value (s : List Char) :
    (ParseInt s).2 = some NumError.ErrRange →
      (ParseInt s).1 = if s.head? = some '-' then -(2 : Int) ^ 63 else (2 : Int) ^ 63 - 1 := by
  cases s with
  | nil => intro h; simp [ParseInt] at h
  | cons c rest =>
    rw [ParseInt_cons]
    simp only [List.head?_cons, Option.some.injEq]
    rcases ParseUint (if c == '+' ∨ c == '-' then rest else c :: rest) with ⟨un, _ | e⟩
    · simp only []
      intro h
      split
      · rename_i h1
        have hc : ¬ c = '-' := by simpa using h1.1
        rw [if_neg hc]
      · split
        · rename_i h1 h2
          have hc : c = '-' := by simpa using h2.1
          rw [if_pos hc]
        · rename_i h1 h2
          rw [if_neg h1, if_neg h2] at h
          simp at h
    · cases e with
      | ErrSyntax => intro h; simp at h
      | ErrRange =>
        simp only []
        intro h
        split
        · rename_i h1
          have hc : ¬ c = '-' := by simpa using h1.1
          rw [if_neg hc]
        · split
          · rename_i h1 h2
            have hc : c = '-' := by simpa using h2.1
            rw [if_pos hc]
          · rename_i h1 h2
            rw [if_neg h1, if_neg h2] at h
            simp at h

theorem ParseUint_syntax_after_digits (l : List Nat) (c : Char) (rest : List Char)
    (hd : ∀ d ∈ l, d < 10) (hlt : Nat.ofDigits 10 l.reverse < 2 ^ 64)
    (hc : ¬ (48 ≤ c.toNat ∧ c.toNat ≤ 57)) :
    ParseUint (l.map digitChar ++ c :: rest) = (0, some NumError.ErrSyntax) := by
  rw [← foldl_eq_ofDigits] at hlt
  have hP : ParseUint (l.map digitChar ++ c :: rest) =
      ParseUint.loop (l.map digitChar ++ c :: rest) 0 := by
    cases l <;> rfl
  rw [hP]
  exact ParseUint_loop_syntax l 0 c rest hd hlt hc

theorem ParseUint_range_after_digits (l : List Nat) (rest : List Char)
    (hd : ∀ d ∈ l, d < 10) (hge : 2 ^ 64 ≤ Nat.ofDigits 10 l.reverse) :
    ParseUint (l.map digitChar ++ rest) = (2 ^ 64 - 1, some NumError.ErrRange) := by
  rw [← foldl_eq_ofDigits] at hge
  have hP : ParseUint (l.map digitChar ++ rest) =
      ParseUint.loop (l.map digitChar ++ rest) 0 := by
    cases l with
    | nil => simp at hge
    | cons d t => rfl
  rw [hP]
  exact ParseUint_loop_overflow l 0 rest hd (by norm_num) hge

theorem ParseInt_syntax_after_digits (l : List Nat) (c : Char) (rest : List Char)
    (hd : ∀ d ∈ l, d < 10) (hlt : Nat.ofDigits 10 l.reverse < 2 ^ 64)
    (hc : ¬ (48 ≤ c.toNat ∧ c.toNat ≤ 57)) :
    (l ≠ [] ∨ (c ≠ '+' ∧ c ≠ '-') →
        ParseInt (l.map digitChar ++ c :: rest) = (0, some NumError.ErrSyntax)) ∧
      ParseInt ('+' :: (l.map digitChar ++ c :: rest)) = (0, some NumError.ErrSyntax) ∧
      ParseInt ('-' :: (l.map digitChar ++ c :: rest)) = (0, some NumError.ErrSyntax) := by
  have hU := ParseUint_syntax_after_digits l c rest hd hlt hc
  refine ⟨?_, ?_, ?_⟩
  · intro h
    cases l with
    | nil =>
      rcases h with h | ⟨h1, h2⟩
      · exact absurd rfl h
      · have hs : ¬ (c == '+' ∨ c == '-') := by simp [h1, h2]
        rw [List.map_nil, List.nil_append] at hU ⊢
        rw [ParseInt_cons, if_neg hs, hU]
    | cons d t =>
      have hd10 : d < 10 := hd d (List.mem_cons_self _ _)
      obtain ⟨_, hs⟩ := digitChar_not_sign d hd10
      rw [List.map_cons, List.cons_append] at hU ⊢
      rw [ParseInt_cons, if_neg hs, hU]
  · rw [ParseInt_cons, if_pos (by decide), hU]
  · rw [ParseInt_cons, if_pos (by decide), hU]

theorem ParseInt_range_after_digits (l : List Nat) (rest : List Char)
    (hd : ∀ d ∈ l, d < 10) (hge : 2 ^ 64 ≤ Nat.ofDigits 10 l.reverse) :
    ParseInt (l.map digitChar ++ rest) = ((2 : Int) ^ 63 - 1, some NumError.ErrRange) ∧
      ParseInt ('+' :: (l.map digitChar ++ rest)) =
        ((2 : Int) ^ 63 - 1, some NumError.ErrRange) ∧
      ParseInt ('-' :: (l.map digitChar ++ rest)) =
        (-(2 : Int) ^ 63, some NumError.ErrRange) := by
  have hU := ParseUint_range_after_digits l rest hd hge
  refine ⟨?_, ?_, ?_⟩
  · cases l with
    | nil => simp at hge
    | cons d t =>
      have hd10 : d < 10 := hd d (List.mem_cons_self _ _)
      obtain ⟨hm, hs⟩ := digitChar_not_sign d hd10
      rw [List.map_cons, List.cons_append] at hU ⊢
      rw [ParseInt_cons, if_neg hs, hU]
      have h1 : (digitChar d == '-') = false ∧ 2 ^ 64 - 1 ≥ 2 ^ 63 := ⟨hm, by norm_num⟩
      simp only [if_pos h1]
  · rw [ParseInt_cons, if_pos (by decide), hU]
    have h1 : (('+' : Char) == '-') = false ∧ 2 ^ 64 - 1 ≥ 2 ^ 63 :=
      ⟨by decide, by norm_num⟩
    simp only [if_pos h1]
  · rw [ParseInt_cons, if_pos (by decide), hU]
    have hm : (('-' : Char) == '-') = true := by decide
    have h1 : ¬ ((('-' : Char) == '-') = false ∧ 2 ^ 64 - 1 ≥ 2 ^ 63) := by
      rw [hm]; simp
    have h2 : (('-' : Char) == '-') = true ∧ 2 ^ 64 - 1 > 2 ^ 63 := ⟨hm, by norm_num⟩
    simp only [if_neg h1, if_pos h2]

/-- C14 (as stated, refuted): for `start=99999999999999999999`, a decimal string out of
the range of `int`, `Atoi` reports an error and returns the largest `int`, not 0, and
the List handler calls the store with start `2^63 - 1` (and count 25). -/
theorem start_out_of_range_counterexample :
    Atoi "99999999999999999999" = (9223372036854775807, some NumError.ErrRange) ∧
      (getServersEndpoint binary NewRecorder
          ⟨Method.GET, Path.servers, [("start", "99999999999999999999")], none, none⟩ []
          DB.empty none).2.calls = [Call.GetServers 9223372036854775807 25] := by
  decide

/-- C14 (amended): when `Atoi` reports a syntax error on a value the parsed value is
0; when it reports a range error the parsed value is the bound of the type on the side
of the sign of the text, `-2^63` for a text that begins with `-` and `2^63 - 1` for
every other.  Which texts give which: a text of decimal digits of value `v`, with or
without `+`, is read as `v` below `2^63` and gives a range error from `2^63` on; with
`-` it is read as `-v` up to `2^63` and gives a range error above; digits of a value
from `2^64` on give the range error whatever follows them; digits of a value below
`2^64` (or none) followed by a byte that is not a digit give a syntax error, as do the
empty text (an absent parameter reads as the empty text) and a sign alone.  In List
and in Search alike, a `count` with a parse error gives the effective count 25; a
`start` with a syntax error gives the effective start 0, and a `start` with a range
error gives 0 for a text that begins with `-` and `2^63 - 1` for every other. -/
theorem parse_error_effective (col : Collation) (req : Request) (w w' : ResponseWriter)
    (ps ps' : Params) (db db' : DB) (fault fault' : Option DbErr) :
    (∀ s : String, (Atoi s).2 = some NumError.ErrSyntax → (Atoi s).1 = 0) ∧
      (∀ s : String, (Atoi s).2 = some NumError.ErrRange →
        (Atoi s).1 = if s.data.head? = some '-' then -(2 : Int) ^ 63 else (2 : Int) ^ 63 - 1) ∧
      (∀ l : List Nat, l ≠ [] → (∀ d ∈ l, d < 10) →
        Atoi (String.mk (l.map digitChar)) =
            (if Nat.ofDigits 10 l.reverse < 2 ^ 63
              then (((Nat.ofDigits 10 l.reverse : Nat) : Int), none)
              else ((2 : Int) ^ 63 - 1, some NumError.ErrRange)) ∧
          Atoi (String.mk ('+' :: l.map digitChar)) =
            (if Nat.ofDigits 10 l.reverse < 2 ^ 63
              then (((Nat.ofDigits 10 l.reverse : Nat) : Int), none)
              else ((2 : Int) ^ 63 - 1, some NumError.ErrRange)) ∧
          Atoi (String.mk ('-' :: l.map digitChar)) =
            (if Nat.ofDigits 10 l.reverse ≤ 2 ^ 63
              then (-((Nat.ofDigits 10 l.reverse : Nat) : Int), none)
              else (-(2 : Int) ^ 63, some NumError.ErrRange))) ∧
      (∀ (l : List Nat) (rest : List Char), (∀ d ∈ l, d < 10) →
        2 ^ 64 ≤ Nat.ofDigits 10 l.reverse →
        Atoi (String.mk (l.map digitChar ++ rest)) =
            ((2 : Int) ^ 63 - 1, some NumError.ErrRange) ∧
          Atoi (String.mk ('+' :: (l.map digitChar ++ rest))) =
            ((2 : Int) ^ 63 - 1, some NumError.ErrRange) ∧
          Atoi (String.mk ('-' :: (l.map digitChar ++ rest))) =
            (-(2 : Int) ^ 63, some NumError.ErrRange)) ∧
      (∀ (l : List Nat) (c : Char) (rest : List Char), (∀ d ∈ l, d < 10) →
        Nat.ofDigits 10 l.reverse < 2 ^ 64 → ¬ (48 ≤ c.toNat ∧ c.toNat ≤ 57) →
        (l ≠ [] ∨ (c ≠ '+' ∧ c ≠ '-') →
            Atoi (String.mk (l.map digitChar ++ c :: rest)) = (0, some NumError.ErrSyntax)) ∧
          Atoi (String.mk ('+' :: (l.map digitChar ++ c :: rest))) =
            (0, some NumError.ErrSyntax) ∧
          Atoi (String.mk ('-' :: (l.map digitChar ++ c :: rest))) =
            (0, some NumError.ErrSyntax)) ∧
      Atoi "" = (0, some NumError.ErrSyntax) ∧
      Atoi "+" = (0, some NumError.ErrSyntax) ∧
      Atoi "-" = (0, some NumError.ErrSyntax) ∧
      (∀ key : String, (∀ kv ∈ req.form, kv.1 ≠ key) → req.FormValue key = "") ∧
      ∃ count' start' : Int,
        (getServersEndpoint col w req ps db fault).2.calls =
            db.calls ++ [Call.GetServers start' count'] ∧
          (searchServersEndpoint col w' req ps' db' fault').2.calls =
            db'.calls ++ [Call.SearchServers start' count' (req.FormValue "name")] ∧
          ((Atoi (req.FormValue "count")).2 ≠ none → count' = 25) ∧
          ((Atoi (req.FormValue "start")).2 = some NumError.ErrSyntax → start' = 0) ∧
          ((Atoi (req.FormValue "start")).2 = some NumError.ErrRange →
            start' =
              if (req.FormValue "start").data.head? = some '-' then 0
              else (2 : Int) ^ 63 - 1) := by
  have hsyn : ∀ s : String, (Atoi s).2 = some NumError.ErrSyntax → (Atoi s).1 = 0 :=
    fun s => (ParseInt_error_value s.data).1
  have hrng : ∀ s : String, (Atoi s).2 = some NumError.ErrRange →
      (Atoi s).1 = (2 : Int) ^ 63 - 1 ∨ (Atoi s).1 = -(2 : Int) ^ 63 :=
    fun s => (ParseInt_error_value s.data).2
  have hsign : ∀ s : String, (Atoi s).2 = some NumError.ErrRange →
      (Atoi s).1 = if s.data.head? = some '-' then -(2 : Int) ^ 63 else (2 : Int) ^ 63 - 1 :=
    fun s => ParseInt_range_value s.data
  refine ⟨hsyn, hsign, fun l hne hd => ParseInt_digits_value l hne hd,
    fun l rest hd hge => ParseInt_range_after_digits l rest hd hge,
    fun l c rest hd hlt hc => ParseInt_syntax_after_digits l c rest hd hlt hc,
    by decide, by decide, by decide, fun key h => FormValue_absent req key h,
    if (Atoi (req.FormValue "count")).1 > 25 ∨ (Atoi (req.FormValue "count")).1 < 1 then 25
      else (Atoi (req.FormValue "count")).1,
    if (Atoi (req.FormValue "start")).1 < 0 then 0 else (Atoi (req.FormValue "start")).1,
    ?_, ?_, ?_, ?_, ?_⟩
  · rw [getServersEndpoint_db]; rfl
  · rw [searchServersEndpoint_db]; rfl
  · intro herr
    rcases he : (Atoi (req.FormValue "count")).2 with _ | e
    · exact absurd he herr
    · cases e with
      | ErrSyntax =>
        rw [hsyn _ he]
        simp
      | ErrRange =>
        rcases hrng _ he with h | h <;> rw [h] <;> simp
  · intro he
    rw [hsyn _ he]
    simp
  · intro he
    rw [hsign _ he]
    by_cases hm : (req.FormValue "start").data.head? = some '-'
    · rw [if_pos hm, if_pos hm]
      simp
    · rw [if_neg hm, if_neg hm]
      simp

/-- C14, at three requests without `count`: with `start=abc` the store is called with
count 25 and start 0, with `start=-99999999999999999999` with start 0 too, and with
`start=99999999999999999999` with start `2^63 - 1`. -/
theorem parse_error_effective_witness :
    (getServersEndpoint binary NewRecorder
        ⟨Method.GET, Path.servers, [("start", "abc")], none, none⟩ [] DB.empty none).2.calls =
        [Call.GetServers 0 25] ∧
      (getServersEndpoint binary NewRecorder
        ⟨Method.GET, Path.servers, [("start", "-99999999999999999999")], none, none⟩ []
        DB.empty none).2.calls = [Call.GetServers 0 25] ∧
      (getServersEndpoint binary NewRecorder
        ⟨Method.GET, Path.servers, [("start", "99999999999999999999")], none, none⟩ []
        DB.empty none).2.calls = [Call.GetServers 9223372036854775807 25] := by
  refine ⟨?_, ?_, ?_⟩
  · obtain ⟨_, _, _, _, _, _, _, _, _, count', start', h1, _, h3, h4, _⟩ :=
      parse_error_effective binary ⟨Method.GET, Path.servers, [("start", "abc")], none, none⟩
        NewRecorder NewRecorder [] [] DB.empty DB.empty none none
    rw [h1, h3 (by decide), h4 (by decide)]
    rfl
  · obtain ⟨_, _, _, _, _, _, _, _, _, count', start', h1, _, h3, _, h5⟩ :=
      parse_error_effective binary
        ⟨Method.GET, Path.servers, [("start", "-99999999999999999999")], none, none⟩
        NewRecorder NewRecorder [] [] DB.empty DB.empty none none
    rw [h1, h3 (by decide), h5 (by decide)]
    rfl
  · obtain ⟨_, _, _, _, _, _, _, _, _, count', start', h1, _, h3, _, h5⟩ :=
      parse_error_effective binary
        ⟨Method.GET, Path.servers, [("start", "99999999999999999999")], none, none⟩
        NewRecorder NewRecorder [] [] DB.empty DB.empty none none
    rw [h1, h3 (by decide), h5 (by decide)]
    rfl

/-! ## C15: the name filter of the front-end -/

theorem matchHere_begin (r : List Item) (st : Bool) (s : List Char) :
    matchHere (Item.beginText :: r) st s = (st && matchHere r st s) := by
  conv_lhs => rw [matchHere.eq_def]

theorem matchHere_end (r : List Item) (st : Bool) (s : List Char) :
    matchHere (Item.endText :: r) st s = (s.isEmpty && matchHere r st s) := by
  conv_lhs => rw [matchHere.eq_def]

theorem matchHere_one (a : Atom) (r : List Item) (st : Bool) (s : List Char) :
    matchHere (Item.one a :: r) st s = true ↔
      ∃ c t, s = c :: t ∧ a.accepts c = true ∧ matchHere r false t = true := by
  conv_lhs => rw [matchHere.eq_def]
  cases s with
  | nil => simp
  | cons c t =>
    simp only [Bool.and_eq_true]
    constructor
    · intro h; exact ⟨c, t, rfl, h.1, h.2⟩
    · rintro ⟨c', t', heq, h⟩
      cases heq; exact h

theorem matchHere_star (a : Atom) (r : List Item) (st : Bool) (s : List Char) :
    matchHere (Item.star a :: r) st s = true ↔
      ∃ pre post, s = pre ++ post ∧ (∀ x ∈ pre, a.accepts x = true) ∧
        matchHere r (st && pre.length == 0) post = true := by
  conv_lhs => rw [matchHere.eq_def]
  simp only [List.any_eq_true, List.mem_range, Bool.and_eq_true, List.all_eq_true]
  constructor
  · rintro ⟨k, hk, hall, hm⟩
    refine ⟨s.take k, s.drop k, (List.take_append_drop k s).symm, hall, ?_⟩
    have hlen : (s.take k).length = k := by
      rw [List.length_take]; omega
    rw [hlen]; exact hm
  · rintro ⟨pre, post, hs, hall, hm⟩
    refine ⟨pre.length, ?_, ?_, ?_⟩
    · rw [hs, List.length_append]; omega
    · rw [hs, List.take_left']
      · exact hall
      · rfl
    · rw [hs, List.drop_left']
      · exact hm
      · rfl

theorem matchHere_nil (st : Bool) (s : List Char) : matchHere [] st s = true := by
  rw [matchHere.eq_def]

theorem isWord_dot : isWord '.' = false := by decide

theorem serverNameValid_shape (s : String) :
    serverNameValid s = true ↔
      ∃ a b c : List Char, s.data = a ++ '.' :: (b ++ '.' :: c) ∧
        (∀ x ∈ a, isWord x = true) ∧ (∀ x ∈ b, isWord x = true) ∧
        (∀ x ∈ c, isWord x = true) := by
  have hstart : serverNameValid s = true ↔
      matchHere [Item.star Atom.word, Item.one (Atom.char '.'), Item.star Atom.word,
        Item.one (Atom.char '.'), Item.star Atom.word, Item.endText] true s.data = true := by
    unfold serverNameValid MatchString serverRegExp
    simp only [List.any_eq_true, List.mem_range, matchHere_begin, Bool.and_eq_true,
      beq_iff_eq]
    constructor
    · rintro ⟨k, _, hk0, hm⟩
      subst hk0
      simpa using hm
    · intro hm
      exact ⟨0, by omega, rfl, by simpa using hm⟩
  rw [hstart]
  constructor
  · intro h
    obtain ⟨a, r1, hs, ha, h⟩ := (matchHere_star _ _ _ _).mp h
    obtain ⟨c1, t1, hr1, hc1, h⟩ := (matchHere_one _ _ _ _).mp h
    obtain ⟨b, r2, ht1, hb, h⟩ := (matchHere_star _ _ _ _).mp h
    obtain ⟨c2, t2, hr2, hc2, h⟩ := (matchHere_one _ _ _ _).mp h
    obtain ⟨c, r3, ht2, hc, h⟩ := (matchHere_star _ _ _ _).mp h
    rw [matchHere_end, Bool.and_eq_true, List.isEmpty_iff] at h
    have e1 : c1 = '.' := by simpa [Atom.accepts] using hc1
    have e2 : c2 = '.' := by simpa [Atom.accepts] using hc2
    refine ⟨a, b, c, ?_, ha, hb, hc⟩
    rw [hs, hr1, ht1, hr2, ht2, h.1, e1, e2, List.append_nil]
  · rintro ⟨a, b, c, hs, ha, hb, hc⟩
    refine (matchHere_star _ _ _ _).mpr ⟨a, '.' :: (b ++ '.' :: c), hs, ha, ?_⟩
    refine (matchHere_one _ _ _ _).mpr ⟨'.', b ++ '.' :: c, rfl, by decide, ?_⟩
    refine (matchHere_star _ _ _ _).mpr ⟨b, '.' :: c, rfl, hb, ?_⟩
    refine (matchHere_one _ _ _ _).mpr ⟨'.', c, rfl, by decide, ?_⟩
    refine (matchHere_star _ _ _ _).mpr ⟨c, [], (List.append_nil c).symm, hc, ?_⟩
    rw [matchHere_end, matchHere_nil]
    rfl

theorem count_dot_of_word (l : List Char) (h : ∀ x ∈ l, isWord x = true) :
    l.count '.' = 0 := by
  rw [List.count_eq_zero]
  intro hmem
  have := h '.' hmem
  rw [isWord_dot] at this
  exact absurd this (by decide)

/-- C15: for every string `s`, `serverNameValid(s)` is true exactly when `s` is
`a.b.c` with `a`, `b`, `c` runs (possibly empty) of word characters, so that `s` has
exactly two dots; the word characters are the ASCII digits and letters and the
underscore.  Hence a string with a character that is neither a word character nor a
dot is rejected, and so is a string whose number of dots is not two.  Of the strings
of the tests, `srv.example.com` is accepted, `-1;example.com` and `127.0.0.1` are
rejected. -/
theorem serverNameValid_spec (s : String) :
    (serverNameValid s = true ↔
        (∃ a b c : List Char, s.data = a ++ '.' :: (b ++ '.' :: c) ∧
          (∀ x ∈ a, isWord x = true) ∧ (∀ x ∈ b, isWord x = true) ∧
          (∀ x ∈ c, isWord x = true)) ∧ s.data.count '.' = 2) ∧
      ((∃ x ∈ s.data, isWord x = false ∧ x ≠ '.') → serverNameValid s = false) ∧
      (s.data.count '.' ≠ 2 → serverNameValid s = false) ∧
      (∀ c : Char, isWord c = true ↔
        (('0' ≤ c ∧ c ≤ '9') ∨ ('A' ≤ c ∧ c ≤ 'Z') ∨ ('a' ≤ c ∧ c ≤ 'z') ∨ c = '_')) ∧
      serverNameValid "srv.example.com" = true ∧
      serverNameValid "-1;example.com" = false ∧
      serverNameValid "127.0.0.1" = false := by
  have hcount : serverNameValid s = true → s.data.count '.' = 2 := by
    intro h
    obtain ⟨a, b, c, hs, ha, hb, hc⟩ := (serverNameValid_shape s).mp h
    rw [hs, List.count_append, List.count_cons_self, List.count_append,
      List.count_cons_self, count_dot_of_word a ha, count_dot_of_word b hb,
      count_dot_of_word c hc]
  refine ⟨?_, ?_, ?_, ?_, by decide, by decide, by decide⟩
  · constructor
    · intro h
      exact ⟨(serverNameValid_shape s).mp h, hcount h⟩
    · intro h
      exact (serverNameValid_shape s).mpr h.1
  · rintro ⟨x, hx, hw, hdot⟩
    rw [← Bool.not_eq_true]
    intro h
    obtain ⟨a, b, c, hs, ha, hb, hc⟩ := (serverNameValid_shape s).mp h
    rw [hs] at hx
    simp only [List.mem_append, List.mem_cons] at hx
    rcases hx with hx | hx | hx | hx | hx
    · rw [ha x hx] at hw; exact absurd hw (by decide)
    · exact hdot hx
    · rw [hb x hx] at hw; exact absurd hw (by decide)
    · exact hdot hx
    · rw [hc x hx] at hw; exact absurd hw (by decide)
  · intro hne
    rw [← Bool.not_eq_true]
    intro h
    exact hne (hcount h)
  · intro c
    simp [isWord]

/-- C15, at a name with a hyphen: it is rejected. -/
theorem serverNameValid_spec_witness : serverNameValid "my-srv.example.com" = false :=
  (serverNameValid_spec "my-srv.example.com").2.1 ⟨'-', by decide, by decide, by decide⟩

/-! ## C16: Modify and Delete with a path id that does not parse -/

/-- C16 (as stated, refuted): on a table that holds a row of id 0, an authenticated
`DELETE /v1/servers/a` and an authenticated `PUT /v1/servers/a` are answered 400
`Invalid server ID`; the row of id 0 is neither deleted nor renamed, and no store
operation is called: the id 0 is not sent to the store. -/
theorem bad_id_not_zero_counterexample :
    ServeHTTP binary "admin" "secret"
        ⟨Method.DELETE, Path.server "a", [], some ("admin", "secret"), none⟩
        (DB.mk [⟨0, "zero"⟩, ⟨1, "Server 1"⟩] 2 []) none =
        some (errorReply 400 "Invalid server ID",
          DB.mk [⟨0, "zero"⟩, ⟨1, "Server 1"⟩] 2 []) ∧
      ServeHTTP binary "admin" "secret"
        ⟨Method.PUT, Path.server "a", [], some ("admin", "secret"), some ⟨0, "renamed"⟩⟩
        (DB.mk [⟨0, "zero"⟩, ⟨1, "Server 1"⟩] 2 []) none =
        some (errorReply 400 "Invalid server ID",
          DB.mk [⟨0, "zero"⟩, ⟨1, "Server 1"⟩] 2 []) := by
  decide

/-- C16 (amended): in Modify (PUT, PATCH) and Delete a path id that fails to parse is
not ignored: for every such path id the authenticated handler answers 400
`Invalid server ID`, whatever the body, the table and the state of the backend; the
database is left as it was, no store operation is called (so no id 0 is sent), and
the outcome is the same whether or not a row of id 0 exists. -/
theorem bad_id_not_sent_to_store (col : Collation) (authUser authPassword : String)
    (m : Method) (id : String) (form : List (String × String)) (body : Option Server)
    (db : DB) (fault : Option DbErr)
    (hm : m = Method.PUT ∨ m = Method.PATCH ∨ m = Method.DELETE)
    (hid : (Atoi id).2 ≠ none) :
    ∃ (reply : ResponseWriter) (db' : DB),
      ServeHTTP col authUser authPassword
          ⟨m, Path.server id, form, some (authUser, authPassword), body⟩ db fault =
          some (reply, db') ∧
        reply = errorReply 400 "Invalid server ID" ∧ db' = db ∧ db'.calls = db.calls ∧
        (∀ n : String, Call.UpdateServer 0 n ∈ db'.calls → Call.UpdateServer 0 n ∈ db.calls) ∧
        (Call.DeleteServer 0 ∈ db'.calls → Call.DeleteServer 0 ∈ db.calls) ∧
        ∀ (db2 : DB) (fault2 : Option DbErr),
          (ServeHTTP col authUser authPassword
            ⟨m, Path.server id, form, some (authUser, authPassword), body⟩ db2 fault2).map
            (fun r => r.1) = some reply := by
  have hserve : ∀ (d : DB) (f : Option DbErr),
      ServeHTTP col authUser authPassword
        ⟨m, Path.server id, form, some (authUser, authPassword), body⟩ d f =
        some (errorReply 400 "Invalid server ID", d) := by
    intro d f
    have hA : ∃ i e, Atoi id = (i, some e) := by
      rcases h : Atoi id with ⟨i, _ | e⟩
      · rw [h] at hid; exact absurd rfl hid
      · exact ⟨i, e, rfl⟩
    obtain ⟨i, e, hA⟩ := hA
    rcases hm with rfl | rfl | rfl
    · simp only [ServeHTTP, Initialize, basicAuth_eq, if_true,
        modifyServerEndpoint_bad_id col _ id d f hid]
    · simp only [ServeHTTP, Initialize, basicAuth_eq, if_true,
        modifyServerEndpoint_bad_id col _ id d f hid]
    · simp only [ServeHTTP, Initialize, basicAuth_eq, if_true, deleteServerEndpoint_eq, hA]
  refine ⟨errorReply 400 "Invalid server ID", db, hserve db fault, rfl, rfl, rfl,
    fun _ h => h, fun h => h, ?_⟩
  intro db2 fault2
  rw [hserve db2 fault2]
  rfl

/-- C16, at `DELETE /v1/servers/a` on the empty table. -/
theorem bad_id_not_sent_to_store_witness :
    ∃ (reply : ResponseWriter) (db' : DB),
      ServeHTTP binary "admin" "secret"
          ⟨Method.DELETE, Path.server "a", [], some ("admin", "secret"), none⟩ DB.empty none =
          some (reply, db') ∧
        reply = errorReply 400 "Invalid server ID" ∧ db' = DB.empty ∧
        db'.calls = DB.empty.calls ∧
        (∀ n : String,
          Call.UpdateServer 0 n ∈ db'.calls → Call.UpdateServer 0 n ∈ DB.empty.calls) ∧
        (Call.DeleteServer 0 ∈ db'.calls → Call.DeleteServer 0 ∈ DB.empty.calls) ∧
        ∀ (db2 : DB) (fault2 : Option DbErr),
          (ServeHTTP binary "admin" "secret"
            ⟨Method.DELETE, Path.server "a", [], some ("admin", "secret"), none⟩ db2
            fault2).map (fun r => r.1) = some reply :=
  bad_id_not_sent_to_store binary "admin" "secret" Method.DELETE "a" [] none DB.empty none
    (Or.inr (Or.inr rfl)) (by decide)

/-! ## C17: consecutive pages -/

theorem limitOffset_tile (rs : List Row) (start a b : Int) (hstart : 0 ≤ start)
    (ha : 0 ≤ a) (hb : 0 ≤ b) :
    limitOffset a start rs ++ limitOffset b (start + a) rs = limitOffset (a + b) start rs := by
  unfold limitOffset
  have h1 : (start + a).toNat = start.toNat + a.toNat := Int.toNat_add hstart ha
  have h2 : (a + b).toNat = a.toNat + b.toNat := Int.toNat_add ha hb
  rw [h1, h2, List.take_add, List.drop_drop]

theorem page_nodup (col : Collation) (rs : List Row) (start count : Int)
    (hnd : rs.Nodup) : (scanRows (limitOffset count start (orderByName col rs))).Nodup := by
  rw [scanRows_eq]
  have hsub : List.Sublist (limitOffset count start (orderByName col rs)) (orderByName col rs) :=
    (List.take_sublist _ _).trans (List.drop_sublist _ _)
  have hnd' : (limitOffset count start (orderByName col rs)).Nodup :=
    List.Nodup.sublist hsub ((orderByName_perm col rs).nodup_iff.mpr hnd)
  refine List.Nodup.map ?_ hnd'
  intro x y hxy
  cases x; cases y
  simp only [Row.toServer, Server.mk.injEq] at hxy
  rw [hxy.1, hxy.2]

theorem limitOffset_getElem (rs : List Row) (start count : Int) (j : Nat)
    (hj : j < count.toNat) : (limitOffset count start rs)[j]? = rs[start.toNat + j]? := by
  unfold limitOffset
  rw [List.getElem?_take_of_lt hj, List.getElem?_drop]

theorem pages_of_rows (col : Collation) (rows : List Row) (start a b : Int)
    (hstart : 0 ≤ start) (ha : 0 ≤ a) (hb : 0 ≤ b) :
    scanRows (limitOffset (a + b) start (orderByName col rows)) =
        scanRows (limitOffset a start (orderByName col rows)) ++
          scanRows (limitOffset b (start + a) (orderByName col rows)) ∧
      scanRows (limitOffset a start (orderByName col rows)) =
        (((orderByName col rows).drop start.toNat).take a.toNat).map Row.toServer ∧
      scanRows (limitOffset b (start + a) (orderByName col rows)) =
        (((orderByName col rows).drop (start.toNat + a.toNat)).take b.toNat).map
          Row.toServer ∧
      (∀ j : Nat, j < a.toNat + b.toNat →
        (scanRows (limitOffset a start (orderByName col rows)) ++
            scanRows (limitOffset b (start + a) (orderByName col rows)))[j]? =
          ((orderByName col rows)[start.toNat + j]?).map Row.toServer) ∧
      ((rows.map (fun r => sortKey col r.name)).Nodup →
        ∀ ordered : List Row, ordered.Perm rows → ordered.Sorted (nameLe col) →
          scanRows (limitOffset a start (orderByName col rows)) =
              ((ordered.drop start.toNat).take a.toNat).map Row.toServer ∧
            scanRows (limitOffset b (start + a) (orderByName col rows)) =
              ((ordered.drop (start.toNat + a.toNat)).take b.toNat).map Row.toServer) ∧
      (rows.Nodup →
        (scanRows (limitOffset a start (orderByName col rows)) ++
          scanRows (limitOffset b (start + a) (orderByName col rows))).Nodup) := by
  have h1 : (start + a).toNat = start.toNat + a.toNat := Int.toNat_add hstart ha
  have h2 : (a + b).toNat = a.toNat + b.toNat := Int.toNat_add ha hb
  have htile : scanRows (limitOffset (a + b) start (orderByName col rows)) =
      scanRows (limitOffset a start (orderByName col rows)) ++
        scanRows (limitOffset b (start + a) (orderByName col rows)) := by
    rw [scanRows_eq, scanRows_eq, scanRows_eq, ← List.map_append,
      limitOffset_tile _ start a b hstart ha hb]
  have hp1 : scanRows (limitOffset a start (orderByName col rows)) =
      (((orderByName col rows).drop start.toNat).take a.toNat).map Row.toServer := by
    rw [scanRows_eq]; rfl
  have hp2 : scanRows (limitOffset b (start + a) (orderByName col rows)) =
      (((orderByName col rows).drop (start.toNat + a.toNat)).take b.toNat).map
        Row.toServer := by
    rw [scanRows_eq, ← h1]; rfl
  refine ⟨htile, hp1, hp2, ?_, ?_, ?_⟩
  · intro j hj
    rw [← htile, scanRows_eq, List.getElem?_map,
      limitOffset_getElem _ start (a + b) j (by omega)]
  · intro huq ordered hperm hsorted
    rw [hp1, hp2, orderByName_unique col rows ordered huq hperm hsorted]
    exact ⟨rfl, rfl⟩
  · intro hnd
    rw [← htile]
    exact page_nodup col rows start (a + b) hnd

/-- C17: for every table, every `start ≥ 0` and all `a, b ≥ 0` (the backend answering),
the page `GetServers(start, a)` followed by the page `GetServers(start + a, b)`, read
after it, is the page `GetServers(start, a + b)`.  The pages are those of the rows of
the table: with the rows arranged by ascending name, the first page is the `a` rows
after the first `start`, the second the `b` rows after the first `start + a`, and the
record at place `j` of the two pages together is the record at place `start + j` of
the arrangement, for every `j` below `a + b`: none is skipped.  In a table that
satisfies the schema the arrangement is every sorted permutation of the rows, and no
record occurs twice in the two pages together.  The same holds for `SearchServers` with
one pattern `p`, over the rows whose name is `LIKE p`. -/
theorem pages_tile (col : Collation) (db : DB) (start a b : Int) (p : String)
    (hstart : 0 ≤ start) (ha : 0 ≤ a) (hb : 0 ≤ b) :
    (∃ p1 p2 : List Server,
      (GetServers col db none start a).1 = (some p1, none) ∧
        (GetServers col (GetServers col db none start a).2 none (start + a) b).1 =
          (some p2, none) ∧
        (GetServers col db none start (a + b)).1 = (some (p1 ++ p2), none) ∧
        (Valid col db → (p1 ++ p2).Nodup) ∧
        (orderByName col db.rows).Perm db.rows ∧
        (orderByName col db.rows).Sorted (nameLe col) ∧
        p1 = (((orderByName col db.rows).drop start.toNat).take a.toNat).map Row.toServer ∧
        p2 = (((orderByName col db.rows).drop (start.toNat + a.toNat)).take b.toNat).map
          Row.toServer ∧
        (∀ j : Nat, j < a.toNat + b.toNat →
          (p1 ++ p2)[j]? = ((orderByName col db.rows)[start.toNat + j]?).map Row.toServer) ∧
        (Valid col db →
          ∀ ordered : List Row, ordered.Perm db.rows → ordered.Sorted (nameLe col) →
            p1 = ((ordered.drop start.toNat).take a.toNat).map Row.toServer ∧
              p2 = ((ordered.drop (start.toNat + a.toNat)).take b.toNat).map
                Row.toServer)) ∧
      ∃ q1 q2 : List Server,
        (SearchServers col db none start a p).1 = (some q1, none) ∧
          (SearchServers col (SearchServers col db none start a p).2 none (start + a) b p).1 =
            (some q2, none) ∧
          (SearchServers col db none start (a + b) p).1 = (some (q1 ++ q2), none) ∧
          (Valid col db → (q1 ++ q2).Nodup) ∧
          (orderByName col (db.rows.filter (fun r => like col p.data r.name.data))).Perm
            (db.rows.filter (fun r => like col p.data r.name.data)) ∧
          (orderByName col (db.rows.filter (fun r => like col p.data r.name.data))).Sorted
            (nameLe col) ∧
          q1 = (((orderByName col (db.rows.filter (fun r => like col p.data r.name.data))).drop
            start.toNat).take a.toNat).map Row.toServer ∧
          q2 = (((orderByName col (db.rows.filter (fun r => like col p.data r.name.data))).drop
            (start.toNat + a.toNat)).take b.toNat).map Row.toServer ∧
          (∀ j : Nat, j < a.toNat + b.toNat →
            (q1 ++ q2)[j]? =
              ((orderByName col
                (db.rows.filter (fun r => like col p.data r.name.data)))[start.toNat + j]?).map
                Row.toServer) ∧
          (Valid col db →
            ∀ ordered : List Row,
              ordered.Perm (db.rows.filter (fun r => like col p.data r.name.data)) →
              ordered.Sorted (nameLe col) →
              q1 = ((ordered.drop start.toNat).take a.toNat).map Row.toServer ∧
                q2 = ((ordered.drop (start.toNat + a.toNat)).take b.toNat).map
                  Row.toServer) := by
  have hn1 : ¬ (a < 0 ∨ start < 0) := by omega
  have hn2 : ¬ (b < 0 ∨ start + a < 0) := by omega
  have hn3 : ¬ (a + b < 0 ∨ start < 0) := by omega
  constructor
  · obtain ⟨htile, hp1, hp2, hget, huniq, hnd⟩ :=
      pages_of_rows col db.rows start a b hstart ha hb
    refine ⟨scanRows (limitOffset a start (orderByName col db.rows)),
      scanRows (limitOffset b (start + a) (orderByName col db.rows)), ?_, ?_, ?_,
      fun hv => hnd (List.Nodup.of_map _ hv.primaryKey),
      orderByName_perm col db.rows, orderByName_sorted col db.rows, hp1, hp2, hget,
      fun hv => huniq hv.uniqueName⟩
    · simp only [GetServers, if_neg hn1]
      rfl
    · rw [GetServers_calls]
      simp only [GetServers, if_neg hn2]
      rfl
    · simp only [GetServers, if_neg hn3]
      rw [← htile]
      rfl
  · obtain ⟨htile, hp1, hp2, hget, huniq, hnd⟩ :=
      pages_of_rows col (db.rows.filter (fun r => like col p.data r.name.data)) start a b
        hstart ha hb
    refine ⟨scanRows (limitOffset a start (orderByName col
        (db.rows.filter (fun r => like col p.data r.name.data)))),
      scanRows (limitOffset b (start + a) (orderByName col
        (db.rows.filter (fun r => like col p.data r.name.data)))), ?_, ?_, ?_,
      fun hv => hnd (List.Nodup.sublist (List.filter_sublist db.rows)
        (List.Nodup.of_map _ hv.primaryKey)),
      orderByName_perm col _, orderByName_sorted col _, hp1, hp2, hget,
      fun hv => huniq (List.Nodup.sublist
        ((List.filter_sublist db.rows).map (fun r => sortKey col r.name)) hv.uniqueName)⟩
    · simp only [SearchServers, if_neg hn1]
      rfl
    · rw [SearchServers_calls]
      simp only [SearchServers, if_neg hn2]
      rfl
    · simp only [SearchServers, if_neg hn3]
      rw [← htile]
      rfl

/-- C17, on the table of the test: of the listing, the page `(2, 3)` is `Server 11`,
`Server 12`, `Server 2`, the page `(5, 4)` is `Server 3` to `Server 6`, and the page
`(2, 7)` is the seven in that order; of the search for `Server 1%`, the pages `(0, 2)`
and `(2, 2)` are `Server 1`, `Server 10` and `Server 11`, `Server 12`, and the page
`(0, 4)` is the four. -/
theorem pages_tile_witness :
    ((GetServers binary seededTable none 2 3).1 =
        (some [⟨12, "Server 11"⟩, ⟨13, "Server 12"⟩, ⟨3, "Server 2"⟩], none) ∧
      (GetServers binary (GetServers binary seededTable none 2 3).2 none (2 + 3) 4).1 =
        (some [⟨4, "Server 3"⟩, ⟨5, "Server 4"⟩, ⟨6, "Server 5"⟩, ⟨7, "Server 6"⟩], none) ∧
      (GetServers binary seededTable none 2 (3 + 4)).1 =
        (some [⟨12, "Server 11"⟩, ⟨13, "Server 12"⟩, ⟨3, "Server 2"⟩, ⟨4, "Server 3"⟩,
          ⟨5, "Server 4"⟩, ⟨6, "Server 5"⟩, ⟨7, "Server 6"⟩], none)) ∧
      ((SearchServers binary seededTable none 0 2 "Server 1%").1 =
          (some [⟨2, "Server 1"⟩, ⟨11, "Server 10"⟩], none) ∧
        (SearchServers binary (SearchServers binary seededTable none 0 2 "Server 1%").2 none
            (0 + 2) 2 "Server 1%").1 =
          (some [⟨12, "Server 11"⟩, ⟨13, "Server 12"⟩], none) ∧
        (SearchServers binary seededTable none 0 (2 + 2) "Server 1%").1 =
          (some [⟨2, "Server 1"⟩, ⟨11, "Server 10"⟩, ⟨12, "Server 11"⟩, ⟨13, "Server 12"⟩],
            none)) := by
  have hv : Valid binary seededTable := ⟨by decide, by decide, by decide, by decide⟩
  constructor
  · obtain ⟨⟨p1, p2, h1, h2, h3, _, _, _, _, _, _, hall⟩, _⟩ :=
      pages_tile binary seededTable 2 3 4 "%" (by decide) (by decide) (by decide)
    obtain ⟨hp1, hp2⟩ := hall hv
      [⟨2, "Server 1"⟩, ⟨11, "Server 10"⟩, ⟨12, "Server 11"⟩, ⟨13, "Server 12"⟩,
        ⟨3, "Server 2"⟩, ⟨4, "Server 3"⟩, ⟨5, "Server 4"⟩, ⟨6, "Server 5"⟩,
        ⟨7, "Server 6"⟩, ⟨8, "Server 7"⟩, ⟨9, "Server 8"⟩, ⟨10, "Server 9"⟩,
        ⟨1, "test server"⟩]
      (by decide) (by decide)
    rw [h1, h2, h3, hp1, hp2]
    exact ⟨rfl, rfl, rfl⟩
  · obtain ⟨_, q1, q2, h1, h2, h3, _, _, _, _, _, _, hall⟩ :=
      pages_tile binary seededTable 0 2 2 "Server 1%" (by decide) (by decide) (by decide)
    obtain ⟨hq1, hq2⟩ := hall hv
      [⟨2, "Server 1"⟩, ⟨11, "Server 10"⟩, ⟨12, "Server 11"⟩, ⟨13, "Server 12"⟩]
      (by decide) (by decide)
    rw [h1, h2, h3, hq1, hq2]
    exact ⟨rfl, rfl, rfl⟩

end Sadmin
